import Mathlib

/-!
# Deer multi-agent server: streaming adapter, tool registry, agents

A shallow embedding of `adk/multiagent/deer` (`main.go`, `globals.go`,
`investigator.go`, `agents.go`).

Conventions of the embedding.

* A Go `map` is an association list; `range` over a map visits its entries in
  an order the language leaves unspecified, so every function that ranges over
  a map takes a `RangeOrder`: an arbitrary permutation of the entries.
* A receive-only stream (`s.Recv()`, `iter.Next()`) is the finite list of the
  values it yields, followed by how it ends.
* `c.SSEvent(name, data)` appends a `Frame` to the response; a JSON payload is
  kept as its list of fields (the text of the encoding is not modelled).
* Pointers that the handlers test against `nil` are `Option`s; the elements
  of a slice of pointers are taken to be non-nil.
* The client stays connected until the handler has written its last frame.
-/

namespace Deer

/-! ## schema: messages and tool calls -/

/-- Go `schema.FunctionCall`. -/
structure FunctionCall where
  Name : String
  Arguments : String
  deriving DecidableEq, Repr

/-- Go `schema.ToolCall`; `Index` is `*int`, `Typ` is the field `Type`. -/
structure ToolCall where
  Index : Option Int
  ID : String
  Typ : String
  Function : FunctionCall
  deriving DecidableEq, Repr

/-- Go `schema.Message`, restricted to the fields the server reads or writes. -/
structure Message where
  Role : String
  Content : String
  ToolCalls : List ToolCall
  deriving DecidableEq, Repr

/-- Go `schema.Assistant`. -/
def schema.Assistant : String := "assistant"

/-- Go `schema.Tool`. -/
def schema.Tool : String := "tool"

/-- A `*schema.StreamReader[*schema.Message]`: the chunks `Recv` yields, then
`io.EOF` (`err = none`) or another error. -/
structure MessageStream where
  chunks : List Message
  err : Option String
  deriving DecidableEq, Repr

/-! ## adk: agent events -/

/-- One serialised `adk.InterruptCtx`. -/
abbrev InterruptCtx := String

/-- Go `adk.MessageVariant`: `Message` and `MessageStream` are pointers. -/
structure MessageVariant where
  Message : Option Message
  MessageStream : Option MessageStream
  deriving DecidableEq, Repr

/-- Go `adk.AgentOutput`. -/
structure AgentOutput where
  MessageOutput : Option MessageVariant
  deriving DecidableEq, Repr

/-- Go `adk.AgentAction`: `TransferToAgent` holds the destination agent name,
`Interrupted` the interrupt contexts. -/
structure AgentAction where
  TransferToAgent : Option String
  Interrupted : Option (List InterruptCtx)
  Exit : Bool
  deriving DecidableEq, Repr

/-- Go `adk.AgentEvent`. -/
structure AgentEvent where
  AgentName : String
  Output : Option AgentOutput
  Action : Option AgentAction
  Err : Option String
  deriving DecidableEq, Repr

/-! ## Wire frames -/

/-- Arguments object of a `tool_calls` entry of endpoint B: the object parsed
from the arguments string, or the empty object when parsing failed. -/
inductive JArgs
  | parsed (src : String)
  | empty
  deriving DecidableEq, Repr

/-- One entry of the `tool_calls` array of endpoint B. -/
structure ToolCallEntry where
  type : String
  id : String
  name : String
  args : JArgs
  deriving DecidableEq, Repr

/-- One entry of the `tool_call_chunks` array of endpoint B. -/
structure ToolCallChunk where
  type : String
  index : Int
  id : String
  name : String
  args : String
  deriving DecidableEq, Repr

/-- Value of one field of a JSON payload (`map[string]any`). -/
inductive JVal
  | str (s : String)
  | int (i : Int)
  | contexts (l : List InterruptCtx)
  | toolCalls (l : List ToolCallEntry)
  | chunks (l : List ToolCallChunk)
  deriving DecidableEq, Repr

/-- The data of a server-sent event: a plain string, or the JSON encoding of
an object given by its fields, or of a list of interrupt contexts. -/
inductive SSEData
  | text (s : String)
  | object (fields : List (String × JVal))
  | contexts (l : List InterruptCtx)
  deriving DecidableEq, Repr

/-- One `c.SSEvent(event, data)`. -/
structure Frame where
  event : String
  data : SSEData
  deriving DecidableEq, Repr

/-- Value of the field `key` of a frame's JSON payload. -/
def Frame.field (f : Frame) (key : String) : Option JVal :=
  match f.data with
  | .object fields => (fields.find? (fun kv => kv.1 == key)).map Prod.snd
  | _ => none

/-! ## Go maps -/

/-- Order in which one `range` statement visits the entries of a map: any
permutation of them. -/
structure RangeOrder (α : Type) where
  pick : List α → List α
  perm : ∀ l, (pick l).Perm l

/-- The iteration that visits the entries in the order they were inserted. -/
def RangeOrder.inserted (α : Type) : RangeOrder α :=
  ⟨id, fun l => List.Perm.refl l⟩

/-- The iteration that visits the entries in the reverse of that order. -/
def RangeOrder.reversed (α : Type) : RangeOrder α :=
  ⟨List.reverse, fun l => List.reverse_perm l⟩

/-- Go `map[int][]*schema.Message`: distinct keys, in order of first
insertion. -/
abbrev ToolMap := List (Int × List Message)

/-- Read `toolMap[k]`: the zero value (a nil slice) when `k` is absent. -/
def ToolMap.get : ToolMap → Int → List Message
  | [], _ => []
  | (k1, v) :: rest, k => if k1 = k then v else ToolMap.get rest k

/-- Assign `toolMap[k] = v`. -/
def ToolMap.set : ToolMap → Int → List Message → ToolMap
  | [], k, v => [(k, v)]
  | (k1, v1) :: rest, k, v =>
    if k1 = k then (k1, v) :: rest else (k1, v1) :: ToolMap.set rest k v

/-! ## strings -/

/-- Go `strings.HasPrefix`. -/
def stringsHasPrefix (s pre : String) : Bool :=
  pre.toList.isPrefixOf s.toList

/-- Go `strings.HasSuffix`. -/
def stringsHasSuffix (s suf : String) : Bool :=
  suf.toList.isSuffixOf s.toList

/-! ## Query selection (main.go:130-141, 286-296) -/

/-- One element of `req.Messages`. -/
structure ReqMessage where
  Role : String
  Content : String
  deriving DecidableEq, Repr

/-- The loop `for i := len(req.Messages) - 1; i >= 0; i--`, entered with
`i + 1 = n`: the content of the first user message met going down, or the
initial value `""` of `query`. -/
def lastUserLoop (msgs : List ReqMessage) : (n : Nat) → n ≤ msgs.length → String
  | 0, _ => ""
  | i + 1, h =>
    if (msgs.get ⟨i, h⟩).Role = "user" then (msgs.get ⟨i, h⟩).Content
    else lastUserLoop msgs i (Nat.le_of_succ_le h)

/-- Value of `query` after the selection loop. -/
def selectQuery (msgs : List ReqMessage) : String :=
  lastUserLoop msgs msgs.length (Nat.le_refl _)

/-! ## schema.ConcatMessages -/

/-- Modelled from the spec: one step of the merge of an identifying field
(role, tool id, tool type, tool name) inside `schema.ConcatMessages`, which
belongs to the eino library and is not under `src/`. The field takes the first
non-empty value met (spec §3, ToolCall); a later non-empty value that differs
makes the concatenation fail, which is the error the handler tests for at
main.go:240. -/
def mergeField (what : String) (acc v : String) : Except String String :=
  if v = "" then .ok acc
  else if acc = "" then .ok v
  else if acc = v then .ok acc
  else .error ("cannot concat " ++ what ++ ": '" ++ acc ++ "' '" ++ v ++ "'")

/-- Modelled from the spec: the merge of the deltas of one fragment index
inside `schema.ConcatMessages` (eino library, not under `src/`): id, type and
name are merged field by field, the arguments are appended in arrival order
(spec §3, ToolCall). `acc` is the call merged so far. -/
def mergeGroup : List ToolCall → ToolCall → Except String ToolCall
  | [], acc => .ok acc
  | c :: rest, acc =>
    match mergeField "ToolCalls with different tool id" acc.ID c.ID with
    | .error e => .error e
    | .ok id =>
      match mergeField "ToolCalls with different tool type" acc.Typ c.Typ with
      | .error e => .error e
      | .ok ty =>
        match mergeField "ToolCalls with different tool name" acc.Function.Name c.Function.Name with
        | .error e => .error e
        | .ok nm =>
          mergeGroup rest
            { Index := acc.Index, ID := id, Typ := ty,
              Function := { Name := nm, Arguments := acc.Function.Arguments ++ c.Function.Arguments } }

/-- Modelled from the spec: the loop of `schema.ConcatMessages` (eino library,
not under `src/`) over the fragment indices present, here visited in
increasing order; each index yields one merged call. -/
def mergeGroups (chunks : List ToolCall) : List Int → Except String (List ToolCall)
  | [] => .ok []
  | k :: ks =>
    match mergeGroup (chunks.filter (fun c => c.Index = some k))
        { Index := some k, ID := "", Typ := "", Function := { Name := "", Arguments := "" } } with
    | .error e => .error e
    | .ok c =>
      match mergeGroups chunks ks with
      | .error e => .error e
      | .ok cs => .ok (c :: cs)

/-- Modelled from the spec: the tool-call part of `schema.ConcatMessages`
(eino library, not under `src/`): calls without an index are kept as they are,
the calls that share an index are merged into one, and the merged calls follow
ordered by index. -/
def concatToolCalls (chunks : List ToolCall) : Except String (List ToolCall) :=
  match mergeGroups chunks (((chunks.filterMap (fun c => c.Index)).dedup).insertionSort (· ≤ ·)) with
  | .error e => .error e
  | .ok merged => .ok (chunks.filter (fun c => c.Index = none) ++ merged)

/-- Modelled from the spec: the role of the concatenation of messages inside
`schema.ConcatMessages` (eino library, not under `src/`). -/
def concatRoles : List Message → String → Except String String
  | [], acc => .ok acc
  | m :: rest, acc =>
    match mergeField "messages with different roles" acc m.Role with
    | .error e => .error e
    | .ok r => concatRoles rest r

/-- Modelled from the spec: `schema.ConcatMessages` of the eino library, which
is not under `src/`, on the fields of `Message` kept here: the contents are
appended, the tool calls merged per fragment index as spec §3 (ToolCall)
describes, and conflicting non-empty roles, ids, types or names are an
error. -/
def ConcatMessages (msgs : List Message) : Except String Message :=
  match concatRoles msgs "" with
  | .error e => .error e
  | .ok role =>
    match concatToolCalls (msgs.flatMap (fun m => m.ToolCalls)) with
    | .error e => .error e
    | .ok calls =>
      .ok { Role := role, Content := String.join (msgs.map (fun m => m.Content)), ToolCalls := calls }

/-! ## Endpoint A: `/v1/chat/completions` (main.go:167-270) -/

/-- Frames written by a piece of the handler, and whether it ended in a
run-time panic (which ends the handler). -/
structure Written where
  frames : List Frame
  panicked : Bool
  deriving DecidableEq, Repr

/-- The payload of main.go:181-186. -/
def completePayload (tc : ToolCall) : SSEData :=
  .object [("id", .str tc.ID), ("type", .str tc.Typ), ("name", .str tc.Function.Name),
    ("args", .str tc.Function.Arguments)]

/-- The loop of main.go:180-190 over the tool calls of a complete message. -/
def completeToolCalls : List ToolCall → List Frame
  | [] => []
  | tc :: rest =>
    ⟨"tool_call_start", completePayload tc⟩ :: ⟨"tool_call_end", completePayload tc⟩ ::
      completeToolCalls rest

/-- The branch of main.go:175-191: a complete message. -/
def completeMessage (m : Message) : List Frame :=
  (if m.Content ≠ "" then [⟨"message", .text m.Content⟩] else []) ++
    (if m.ToolCalls.length > 0 then completeToolCalls m.ToolCalls else [])

/-- The payload of main.go:214-220. -/
def deltaPayload (tc : ToolCall) (index : Int) : SSEData :=
  .object [("id", .str tc.ID), ("type", .str tc.Typ), ("name", .str tc.Function.Name),
    ("args", .str tc.Function.Arguments), ("index", .int index)]

/-- The message of main.go:223-234 appended to `toolMap[*tc.Index]`. -/
def deltaMessage (role : String) (tc : ToolCall) : Message :=
  let call : ToolCall :=
    { ID := tc.ID, Typ := tc.Typ, Index := tc.Index,
      Function := { Name := tc.Function.Name, Arguments := tc.Function.Arguments } }
  { Role := role, Content := "", ToolCalls := [call] }

/-- The loop of main.go:210-235 over the tool calls of one chunk: the frames
written and the accumulator afterwards. -/
def deltaLoop (role : String) : List ToolCall → ToolMap → List Frame × ToolMap
  | [], tm => ([], tm)
  | tc :: rest, tm =>
    match tc.Index with
    | none => deltaLoop role rest tm
    | some i =>
      let r := deltaLoop role rest (tm.set i (tm.get i ++ [deltaMessage role tc]))
      (⟨"tool_call_delta", deltaPayload tc i⟩ :: r.1, r.2)

/-- The text frames of main.go:203-208 for one chunk. -/
def chunkText (chunk : Message) : List Frame :=
  if chunk.Content ≠ "" then
    ⟨"message", .text chunk.Content⟩ ::
      (if chunk.Role = schema.Tool then [⟨"tool_result", .text chunk.Content⟩] else [])
  else []

/-- The receive loop of main.go:194-237 over the chunks the stream yields. -/
def recvLoop : List Message → ToolMap → List Frame × ToolMap
  | [], tm => ([], tm)
  | chunk :: rest, tm =>
    let d := if chunk.ToolCalls.length > 0 then deltaLoop chunk.Role chunk.ToolCalls tm else ([], tm)
    let r := recvLoop rest d.2
    (chunkText chunk ++ d.1 ++ r.1, r.2)

/-- How the receive loop leaves: silently on `io.EOF`, with an `error` frame
otherwise (main.go:196-202). -/
def recvEnd : Option String → List Frame
  | none => []
  | some e => [⟨"error", .text e⟩]

/-- The payload of main.go:244-247. -/
def resolvedPayload (tc : ToolCall) : SSEData :=
  .object [("name", .str tc.Function.Name), ("args", .str tc.Function.Arguments)]

/-- The loop of main.go:238-251 over the values of `toolMap`, in the order the
`range` visits them. `m.ToolCalls[0]` on an empty slice is a run-time panic. -/
def resolveLoop : List (Int × List Message) → Written
  | [] => ⟨[], false⟩
  | (_, msgs) :: rest =>
    match ConcatMessages msgs with
    | .error e =>
      let r := resolveLoop rest
      ⟨⟨"error", .text e⟩ :: r.frames, r.panicked⟩
    | .ok m =>
      match m.ToolCalls with
      | [] => ⟨[], true⟩
      | tc :: _ =>
        let r := resolveLoop rest
        ⟨⟨"tool_call_start", resolvedPayload tc⟩ :: ⟨"tool_call_end", resolvedPayload tc⟩ :: r.frames,
          r.panicked⟩

/-- The accumulator `toolMap` when the receive loop is left. -/
def accumulate (s : MessageStream) : ToolMap :=
  (recvLoop s.chunks []).2

/-- The frames written while the chunk stream is drained (main.go:194-237). -/
def drainFrames (s : MessageStream) : List Frame :=
  (recvLoop s.chunks []).1 ++ recvEnd s.err

/-- The frames written after the chunk stream has ended (main.go:238-251). -/
def resolveFrames (ro : RangeOrder (Int × List Message)) (s : MessageStream) : Written :=
  resolveLoop (ro.pick (accumulate s))

/-- The branch of main.go:192-252: a streamed message. -/
def streamMessage (ro : RangeOrder (Int × List Message)) (s : MessageStream) : Written :=
  ⟨drainFrames s ++ (resolveFrames ro s).frames, (resolveFrames ro s).panicked⟩

/-- The output part of the step, main.go:174-253. -/
def outputFrames (ro : RangeOrder (Int × List Message)) (event : AgentEvent) : Written :=
  match event.Output with
  | none => ⟨[], false⟩
  | some o =>
    match o.MessageOutput with
    | none => ⟨[], false⟩
    | some mv =>
      match mv.Message with
      | some m => ⟨completeMessage m, false⟩
      | none =>
        match mv.MessageStream with
        | some s => streamMessage ro s
        | none => ⟨[], false⟩

/-- The action part of the step, main.go:254-265. -/
def actionFrames : Option AgentAction → List Frame
  | none => []
  | some a =>
    (match a.TransferToAgent with
      | some dest => [⟨"transfer_to_agent", .text dest⟩]
      | none => []) ++
    (match a.Interrupted with
      | some ctxs => [⟨"interrupt_options", .contexts ctxs⟩]
      | none => []) ++
    (if a.Exit then [⟨"exit", .text ""⟩] else [])

/-- The error part of the step, main.go:266-268. -/
def errFrames : Option String → List Frame
  | none => []
  | some e => [⟨"error", .text e⟩]

/-- One call of the function given to `c.Stream` once `iter.Next()` has
yielded `event` (main.go:174-269). -/
def stepA (ro : RangeOrder (Int × List Message)) (event : AgentEvent) : Written :=
  let out := outputFrames ro event
  if out.panicked then out
  else ⟨out.frames ++ actionFrames event.Action ++ errFrames event.Err, false⟩

/-- The whole of `c.Stream` on endpoint A: the step runs once per event the
iterator yields and returns `false` when it is exhausted. `ro n` is the
iteration order of the `range` executed for the `n`-th event. -/
def pumpA (ro : Nat → RangeOrder (Int × List Message)) : Nat → List AgentEvent → Written
  | _, [] => ⟨[], false⟩
  | n, e :: rest =>
    let w := stepA (ro n) e
    if w.panicked then w
    else
      let r := pumpA ro (n + 1) rest
      ⟨w.frames ++ r.frames, r.panicked⟩

/-! ## The two POST handlers up to the stream -/

/-- What a handler does that a client or the agent layer can observe. -/
inductive Effect
  | json (status : Nat) (error : String)
  | createAgents
  | sse (f : Frame)
  | panic
  deriving DecidableEq, Repr

/-- The effects of writing frames, then of the panic if there was one. -/
def Written.effects (w : Written) : List Effect :=
  w.frames.map Effect.sse ++ (if w.panicked then [Effect.panic] else [])

/-- Handler of `POST /v1/chat/completions` (main.go:118-271). `body` is the
result of `c.ShouldBindJSON`, `agents` the result of `createAgents`: an error
or a supervisor, given by the events its run yields for a query. -/
def handlerA (ro : Nat → RangeOrder (Int × List Message))
    (body : Except String (List ReqMessage))
    (agents : Except String (String → List AgentEvent)) : List Effect :=
  match body with
  | .error e => [.json 400 e]
  | .ok msgs =>
    let query := selectQuery msgs
    if query = "" then [.json 400 "no user message found"]
    else
      match agents with
      | .error e => [.createAgents, .json 500 e]
      | .ok sv => .createAgents :: (pumpA ro 0 (sv query)).effects

/-! ## Endpoint B: `/api/chat/stream` (main.go:273-486) -/

/-- The request body of endpoint B. -/
structure ReqB where
  Messages : List ReqMessage
  ThreadID : String
  Locale : String
  deriving DecidableEq, Repr

/-- What endpoint B reads from its surroundings: the two credentials, the
successive values of `time.Now().UnixNano()`, and whether `json.Unmarshal` of
an arguments string into a map succeeds. -/
structure EnvB where
  OPENAI_API_KEY : String
  ARK_API_KEY : String
  clock : Nat → Int
  unmarshalOk : String → Bool

/-- The map `msgIDs` and the number of clock readings made so far. -/
structure IdState where
  msgIDs : List (String × String)
  tick : Nat
  deriving DecidableEq, Repr

/-- The closure `getMsgID` (main.go:344-351). -/
def getMsgID (clock : Nat → Int) (agent : String) (st : IdState) : String × IdState :=
  match st.msgIDs.lookup agent with
  | some id => (id, st)
  | none =>
    let id := "run-" ++ agent ++ "-" ++ toString (clock st.tick)
    (id, { msgIDs := st.msgIDs ++ [(agent, id)], tick := st.tick + 1 })

/-- The four fields every payload of endpoint B starts with. -/
def baseFields (id threadID agent role : String) : List (String × JVal) :=
  [("id", .str id), ("thread_id", .str threadID), ("agent", .str agent), ("role", .str role)]

/-- The `agent` field of the frames of an event (main.go:375-381). -/
def agentOf (e : AgentEvent) : String :=
  if e.AgentName = "" then "coordinator" else e.AgentName

/-- The `role` computed at main.go:387-394 and 431-438. -/
def roleOf (e : AgentEvent) (m : Message) : String :=
  if m.Role = schema.Tool then
    (if e.AgentName = "coordinator" then "assistant" else "tool")
  else "assistant"

/-- The loop of main.go:401-410. -/
def toolCallEntries (unmarshalOk : String → Bool) : List ToolCall → List ToolCallEntry
  | [] => []
  | tc :: rest =>
    { type := "tool_call", id := tc.ID, name := tc.Function.Name,
      args := if unmarshalOk tc.Function.Arguments then .parsed tc.Function.Arguments else .empty } ::
      toolCallEntries unmarshalOk rest

/-- The loop of main.go:447-455. -/
def toolCallChunks : List ToolCall → List ToolCallChunk
  | [] => []
  | tc :: rest =>
    { type := "tool_call_chunk",
      index := (match tc.Index with
        | some i => i
        | none => 0),
      id := tc.ID, name := tc.Function.Name, args := tc.Function.Arguments } ::
      toolCallChunks rest

/-- The branch of main.go:386-417: a complete message. -/
def completeMessageB (env : EnvB) (id threadID : String) (e : AgentEvent) (m : Message) :
    List Frame :=
  ⟨"message_chunk", .object (baseFields id threadID (agentOf e) (roleOf e m) ++
      [("content", .str m.Content)])⟩ ::
    (if m.ToolCalls.length > 0 then
      [⟨"tool_calls", .object (baseFields id threadID (agentOf e) "assistant" ++
        [("finish_reason", .str "tool_calls"),
         ("tool_calls", .toolCalls (toolCallEntries env.unmarshalOk m.ToolCalls)),
         ("tool_call_chunks", .chunks [])])⟩]
    else [])

/-- The receive loop of main.go:419-461 over the chunks the stream yields. -/
def recvLoopB (id threadID : String) (e : AgentEvent) : List Message → List Frame
  | [] => []
  | chunk :: rest =>
    (if chunk.Content ≠ "" then
      [⟨"message_chunk", .object (baseFields id threadID (agentOf e) (roleOf e chunk) ++
        [("content", .str chunk.Content)])⟩]
    else []) ++
    (if chunk.ToolCalls.length > 0 then
      [⟨"tool_call_chunks", .object (baseFields id threadID (agentOf e) "assistant" ++
        [("tool_call_chunks", .chunks (toolCallChunks chunk.ToolCalls))])⟩]
    else []) ++
    recvLoopB id threadID e rest

/-- The branch of main.go:418-462: a streamed message. -/
def streamMessageB (id threadID : String) (e : AgentEvent) (s : MessageStream) : List Frame :=
  recvLoopB id threadID e s.chunks ++
    (match s.err with
      | none => []
      | some err =>
        [⟨"message_chunk", .object (baseFields id threadID (agentOf e) "assistant" ++
          [("content", .str err)])⟩])

/-- The output part of the step of endpoint B, main.go:385-463. -/
def outputFramesB (env : EnvB) (id threadID : String) (e : AgentEvent) : List Frame :=
  match e.Output with
  | none => []
  | some o =>
    match o.MessageOutput with
    | none => []
    | some mv =>
      match mv.Message with
      | some m => completeMessageB env id threadID e m
      | none =>
        match mv.MessageStream with
        | some s => streamMessageB id threadID e s
        | none => []

/-- The action part of the step of endpoint B, main.go:464-477. -/
def actionFramesB (id threadID : String) (e : AgentEvent) : List Frame :=
  match e.Action with
  | none => []
  | some a =>
    (match a.Interrupted with
      | some ctxs =>
        [⟨"interrupt", .object (baseFields id threadID (agentOf e) "assistant" ++
          [("options", .contexts ctxs)])⟩]
      | none => []) ++
    (if a.Exit then
      [⟨"message_chunk", .object (baseFields id threadID (agentOf e) "assistant" ++
        [("finish_reason", .str "stop")])⟩]
    else [])

/-- The error part of the step of endpoint B, main.go:478-483. -/
def errFramesB (id threadID : String) (e : AgentEvent) : List Frame :=
  match e.Err with
  | none => []
  | some err =>
    [⟨"message_chunk", .object (baseFields id threadID (agentOf e) "assistant" ++
      [("content", .str err)])⟩]

/-- One call of the function given to `c.Stream` on endpoint B once
`iter.Next()` has yielded `e` (main.go:366-484). -/
def stepB (env : EnvB) (threadID : String) (e : AgentEvent) (st : IdState) :
    List Frame × IdState :=
  let r := getMsgID env.clock (agentOf e) st
  (outputFramesB env r.1 threadID e ++ actionFramesB r.1 threadID e ++ errFramesB r.1 threadID e,
    r.2)

/-- The whole of `c.Stream` on endpoint B: one step per event, then the
closing frame of main.go:356-362 when the iterator is exhausted. -/
def pumpB (env : EnvB) (threadID : String) : List AgentEvent → IdState → List Frame
  | [], st =>
    [⟨"message_chunk", .object (baseFields (getMsgID env.clock "coordinator" st).1 threadID
      "coordinator" "assistant" ++ [("finish_reason", .str "stop")])⟩]
  | e :: rest, st =>
    let r := stepB env threadID e st
    r.1 ++ pumpB env threadID rest r.2

/-- The text of the frame sent when no model credential is configured
(main.go:315). -/
def noModelText : String :=
  "模型未配置，无法连接。请在 zsh 中导出环境变量，例如：\nexport OPENAI_API_KEY=你的key OPENAI_MODEL=gpt-4o\n或使用 Ark：\nexport MODEL_TYPE=ark ARK_API_KEY=你的key ARK_MODEL=ep-xxx ARK_BASE_URL=https://ark.cn-beijing.volces.com\n并重启后端服务。"

/-- Handler of `POST /api/chat/stream` (main.go:273-486). `body` is the result
of `c.ShouldBindJSON`, `agents` the result of `createAgents`: an error or a
supervisor, given by the events its run yields for a query. -/
def handlerB (env : EnvB) (body : Except String ReqB)
    (agents : Except String (String → List AgentEvent)) : List Effect :=
  match body with
  | .error e => [.json 400 e]
  | .ok req =>
    let query := selectQuery req.Messages
    if query = "" then [.json 400 "no user message found"]
    else
      let threadID := if req.ThreadID = "" then "thread_" ++ toString (env.clock 0) else req.ThreadID
      let tick := if req.ThreadID = "" then 1 else 0
      if env.OPENAI_API_KEY = "" ∧ env.ARK_API_KEY = "" then
        [.sse ⟨"message_chunk", .object
          (baseFields ("run-coordinator-" ++ toString (env.clock tick)) threadID "coordinator"
            "assistant" ++ [("content", .str noModelText)])⟩]
      else
        match agents with
        | .error e => [.createAgents, .json 500 e]
        | .ok sv => .createAgents :: (pumpB env threadID (sv query) ⟨[], tick⟩).map Effect.sse

/-! ## Tool registry (globals.go:73-98) -/

/-- A `tool.BaseTool` as the server uses it: the name its `Info` reports and
whether it also implements `tool.InvokableTool`. -/
structure BaseTool where
  Name : String
  Invokable : Bool
  deriving DecidableEq, Repr

/-- A `client.MCPClient`, given by what `mcp.GetTools` returns for it: an
error or the tools it lists. -/
structure MCPClient where
  GetTools : Except String (List BaseTool)

/-- The process-wide caches of globals.go:29-34. -/
structure Globals where
  GlobalPrompts : List (String × String)
  GlobalResearchTools : List BaseTool
  GlobalCoderTools : List BaseTool

/-- What `loadTools` leaves: the caches, the lines it logged, the error it
returns. -/
structure Loaded where
  globals : Globals
  logs : List String
  err : Option String

/-- The loop of globals.go:77-91 over the entries of `MCPServer`. -/
def loadToolsLoop : List (String × MCPClient) → Globals × List String → Globals × List String
  | [], st => st
  | (name, cli) :: rest, st =>
    match cli.GetTools with
    | .error _ => loadToolsLoop rest (st.1, st.2 ++ ["get_tools_error"])
    | .ok ts =>
      let g1 : Globals := { st.1 with GlobalResearchTools := st.1.GlobalResearchTools ++ ts }
      let g2 : Globals :=
        if stringsHasPrefix name "python" then
          { g1 with GlobalCoderTools := g1.GlobalCoderTools ++ ts }
        else g1
      loadToolsLoop rest (g2, st.2)

/-- Go `loadTools` (globals.go:73-98), run on the caches `before`. -/
def loadTools (ro : RangeOrder (String × MCPClient)) (MCPServer : List (String × MCPClient))
    (before : Globals) : Loaded :=
  let g0 : Globals := { before with GlobalResearchTools := [], GlobalCoderTools := [] }
  let st := loadToolsLoop (ro.pick MCPServer) (g0, [])
  { globals := st.1,
    logs := st.2 ++
      (if st.1.GlobalCoderTools.length = 0 then ["no_python_tools_found_for_coder"] else []),
    err := none }

/-! ## Investigator (investigator.go:40-141) -/

/-- What the goroutine of `InvestigatorAgent.Run` does, in order: lines
logged, tools invoked, events sent on the generator, and its closing. -/
inductive RunOp
  | log (key : String)
  | invoke (t : BaseTool) (args : String)
  | send (e : AgentEvent)
  | close
  deriving DecidableEq, Repr

/-- An event whose output is a complete assistant message with this content
(investigator.go:50-59). -/
def assistantEvent (content : String) : AgentEvent :=
  { AgentName := "",
    Output := some ⟨some ⟨some ⟨schema.Assistant, content, []⟩, none⟩⟩,
    Action := none, Err := none }

/-- The inner loop of investigator.go:76-82: `searchTool` after the first tool
whose name ends in "search" has been met (the type assertion leaves it nil
when the tool is not invokable). -/
def scanTools : List BaseTool → Option BaseTool
  | [] => none
  | t :: rest =>
    if stringsHasSuffix t.Name "search" then (if t.Invokable then some t else none)
    else scanTools rest

/-- The outer loop of investigator.go:67-83 over the entries of `MCPServer`,
entered with the current value of `searchTool`. -/
def searchLoop : List (String × MCPClient) → Option BaseTool → List RunOp × Option BaseTool
  | [], st => ([], st)
  | (_, cli) :: rest, st =>
    match st with
    | some t => ([], some t)
    | none =>
      match cli.GetTools with
      | .error _ =>
        let r := searchLoop rest none
        (.log "investigator_get_tools_error" :: r.1, r.2)
      | .ok ts => searchLoop rest (scanTools ts)

/-- The body of the goroutine of `InvestigatorAgent.Run`, without the deferred
close. `marshal` is `json.Marshal` of the arguments map holding the query,
`InvokableRun` the invocation of a tool. -/
def runBody (ro : RangeOrder (String × MCPClient)) (MCPServer : List (String × MCPClient))
    (marshal : String → Except String String)
    (InvokableRun : BaseTool → String → Except String String) (input : List Message) :
    List RunOp :=
  match input.getLast? with
  | none => [.send (assistantEvent "")]
  | some lastMsg =>
    let query := lastMsg.Content
    let found := searchLoop (ro.pick MCPServer) none
    match found.2 with
    | none =>
      found.1 ++ [.log "investigator_no_search_tool_found",
        .send (assistantEvent "No search tool available for background investigation.")]
    | some searchTool =>
      match marshal query with
      | .error err =>
        found.1 ++ [.send { AgentName := "", Output := none, Action := none, Err := some err }]
      | .ok argsBytes =>
        match InvokableRun searchTool argsBytes with
        | .error err =>
          found.1 ++ [.invoke searchTool argsBytes, .log "investigator_search_error",
            .send (assistantEvent ("Background investigation failed: " ++ err))]
        | .ok result =>
          found.1 ++ [.invoke searchTool argsBytes,
            .send (assistantEvent ("Background Investigation Result: " ++ result))]

/-- Go `InvestigatorAgent.Run`: the goroutine's body, then the deferred
`gen.Close()`. -/
def Run (ro : RangeOrder (String × MCPClient)) (MCPServer : List (String × MCPClient))
    (marshal : String → Except String String)
    (InvokableRun : BaseTool → String → Except String String) (input : List Message) :
    List RunOp :=
  runBody ro MCPServer marshal InvokableRun input ++ [.close]

/-- Modelled from the spec: the consumer side of the event stream of spec
§4.5, whose implementation (`adk.AsyncIterator`) is not under `src/`: a read
loop on a blocking "next" receives the events sent before the close signal and
ends at it (`some`); without a close signal it never ends (`none`). -/
def readLoop : List RunOp → Option (List AgentEvent)
  | [] => none
  | .close :: _ => some []
  | .send e :: rest => (readLoop rest).map (fun es => e :: es)
  | .log _ :: rest => readLoop rest
  | .invoke _ _ :: rest => readLoop rest

/-! ## Vocabulary of the statements -/

/-- The tools a provider lists: those `mcp.GetTools` returns, none when the
listing call fails. -/
def listed (p : String × MCPClient) : List BaseTool :=
  match p.2.GetTools with
  | .ok ts => ts
  | .error _ => []

/-- Whether an operation of the goroutine acts on the generator: a send or
the close. -/
def RunOp.onStream : RunOp → Bool
  | .send _ => true
  | .close => true
  | .log _ => false
  | .invoke _ _ => false

/-- Whether an operation of the goroutine is a tool invocation. -/
def RunOp.isInvoke : RunOp → Bool
  | .invoke _ _ => true
  | _ => false

/-- The tool-call deltas of a chunk stream that bear the fragment index `idx`,
in arrival order. -/
def deltasOf (idx : Int) (chunks : List Message) : List ToolCall :=
  (chunks.flatMap (fun c => c.ToolCalls)).filter (fun tc => tc.Index = some idx)

/-- The role of the chunk of each delta bearing the fragment index `idx`, in
arrival order. -/
def rolesOf (idx : Int) (chunks : List Message) : List String :=
  chunks.flatMap (fun c => (c.ToolCalls.filter (fun tc => tc.Index = some idx)).map (fun _ => c.Role))

/-- The distinct fragment indices the deltas of a chunk stream bear. -/
def indicesOf (chunks : List Message) : List Int :=
  ((chunks.flatMap (fun c => c.ToolCalls)).filterMap (fun tc => tc.Index)).dedup

/-- The first non-empty string of a list, `""` when there is none. -/
def firstNonEmpty : List String → String
  | [] => ""
  | s :: rest => if s = "" then firstNonEmpty rest else s

/-- No two non-empty strings of the list differ. -/
def Agree (l : List String) : Prop :=
  ∀ a ∈ l, ∀ b ∈ l, a ≠ "" → b ≠ "" → a = b

/-- The frames the loop of main.go:238-251 writes for one entry of `toolMap`
whose value is `msgs`. -/
def entryFrames (msgs : List Message) : List Frame :=
  match ConcatMessages msgs with
  | .error e => [⟨"error", .text e⟩]
  | .ok m =>
    match m.ToolCalls with
    | [] => []
    | tc :: _ => [⟨"tool_call_start", resolvedPayload tc⟩, ⟨"tool_call_end", resolvedPayload tc⟩]

/-- The keys of the accumulator. -/
def ToolMap.keys (tm : ToolMap) : List Int :=
  tm.map Prod.fst

/-- The tool calls of a list all bear the index `idx`, and there is one. -/
def AllIndex (idx : Int) (calls : List ToolCall) : Prop :=
  calls ≠ [] ∧ ∀ tc ∈ calls, tc.Index = some idx

/-- The messages the receive loop appends to `toolMap[idx]`, in arrival
order: one per delta bearing the index, with the role of the delta's chunk. -/
def deltaMessagesOf (idx : Int) (chunks : List Message) : List Message :=
  chunks.flatMap (fun c =>
    (c.ToolCalls.filter (fun tc => tc.Index = some idx)).map (deltaMessage c.Role))

/-- The resolved call of the fragment index `idx` as spec §3 (ToolCall)
words it: id, type and function name from the first delta of that index with
a non-empty value, arguments the concatenation of the deltas' arguments in
arrival order. -/
def specResolvedCall (idx : Int) (deltas : List ToolCall) : ToolCall :=
  { Index := some idx,
    ID := firstNonEmpty (deltas.map (fun d => d.ID)),
    Typ := firstNonEmpty (deltas.map (fun d => d.Typ)),
    Function :=
      { Name := firstNonEmpty (deltas.map (fun d => d.Function.Name)),
        Arguments := String.join (deltas.map (fun d => d.Function.Arguments)) } }

instance (l : List String) : Decidable (Agree l) := by
  unfold Agree
  infer_instance

/-! ## The functions given to `c.Stream` -/

/-- The function given to `c.Stream` on endpoint A (main.go:167-270), called
when `iter.Next()` yields `next` (`none`: the iterator is exhausted): what it
writes, and the value it returns. -/
def callbackA (ro : RangeOrder (Int × List Message)) (next : Option AgentEvent) : Written × Bool :=
  match next with
  | none => (⟨[], false⟩, false)
  | some event => (stepA ro event, true)

/-- The function given to `c.Stream` on endpoint B (main.go:353-485), called
when `iter.Next()` yields `next`: what it writes, the id state it leaves, and
the value it returns. -/
def callbackB (env : EnvB) (threadID : String) (next : Option AgentEvent) (st : IdState) :
    (List Frame × IdState) × Bool :=
  match next with
  | none =>
    (([⟨"message_chunk", .object (baseFields (getMsgID env.clock "coordinator" st).1 threadID
        "coordinator" "assistant" ++ [("finish_reason", .str "stop")])⟩],
      (getMsgID env.clock "coordinator" st).2), false)
  | some e => (stepB env threadID e st, true)

/-- Modelled from the spec: gin's `c.Stream`, which is not under `src/`, for
endpoint A: the step is called again and again until it returns `false`
(spec §4.6, "keeps pumping until the stream itself signals exhaustion"); a
panic ends the handler. -/
def streamA (ro : Nat → RangeOrder (Int × List Message)) : Nat → List AgentEvent → Written
  | n, [] => (callbackA (ro n) none).1
  | n, e :: rest =>
    let r := callbackA (ro n) (some e)
    if r.1.panicked then r.1
    else if r.2 then
      let t := streamA ro (n + 1) rest
      ⟨r.1.frames ++ t.frames, t.panicked⟩
    else r.1

/-- Modelled from the spec: gin's `c.Stream`, which is not under `src/`, for
endpoint B: the step is called again and again until it returns `false`. -/
def streamB (env : EnvB) (threadID : String) : List AgentEvent → IdState → List Frame
  | [], st => (callbackB env threadID none st).1.1
  | e :: rest, st =>
    let r := callbackB env threadID (some e) st
    if r.2 then r.1.1 ++ streamB env threadID rest r.1.2 else r.1.1

/-- The frames endpoint B writes for a list of events, and the id state after
them. -/
def runB (env : EnvB) (threadID : String) : List AgentEvent → IdState → List Frame × IdState
  | [], st => ([], st)
  | e :: rest, st =>
    let r := stepB env threadID e st
    let t := runB env threadID rest r.2
    (r.1 ++ t.1, t.2)

/-- The event names spec §6 lists for endpoint A. -/
def eventNamesA : List String :=
  ["message", "tool_call_start", "tool_call_end", "tool_call_delta", "transfer_to_agent",
    "interrupt_options", "exit", "error"]

/-! ## Agents (agents.go, main.go:40-89) -/

/-- Go `adk.ChatModelAgentConfig`, as far as the constructors fill it: `Tools`
is `ToolsConfig.ToolsNodeConfig.Tools`, `Exit` whether an exit tool is set. -/
structure ChatModelAgentConfig where
  Name : String
  Description : String
  Instruction : String
  Tools : List BaseTool
  Exit : Bool
  deriving DecidableEq, Repr

/-- An `adk.Agent` handed to the supervisor: a model-backed agent, given by
its configuration, or the investigator. -/
inductive Agent
  | chatModel (cfg : ChatModelAgentConfig)
  | investigator
  deriving DecidableEq, Repr

/-- The agent `supervisor.New` returns, given by its configuration. -/
structure SupervisorAgent where
  Supervisor : Agent
  SubAgents : List Agent
  deriving DecidableEq, Repr

/-- Modelled from the spec: the `Name` method of a model-backed agent, whose
type `adk.ChatModelAgent` is not under `src/`, returns the name the agent was
configured with (spec §3, Agent). For the investigator it is
`InvestigatorAgent.Name` (investigator.go:143-145). -/
def Agent.Name : Agent → String
  | .chatModel cfg => cfg.Name
  | .investigator => "investigator"

/-- What the constructors read from their surroundings: the process-wide
caches, the formatted `time.Now()` of `NewCoder` and of `NewCoordinator`,
`Config.Setting.MaxStepNum`, and the two library constructors, each given by
the error it returns (`none`: it succeeds). -/
structure BuildEnv where
  globals : Globals
  coderTime : String
  coordinatorTime : String
  MaxStepNum : Int
  NewChatModelAgent : ChatModelAgentConfig → Option String
  supervisorNew : Agent → List Agent → Option String

/-- The call `adk.NewChatModelAgent(ctx, cfg)`. -/
def newChatModelAgent (env : BuildEnv) (cfg : ChatModelAgentConfig) : Except String Agent :=
  match env.NewChatModelAgent cfg with
  | some err => .error err
  | none => .ok (.chatModel cfg)

/-- Go `NewInvestigator` (investigator.go:33-35). -/
def NewInvestigator (_env : BuildEnv) : Except String Agent :=
  .ok .investigator

/-- The configuration of agents.go:39-44. -/
def plannerConfig (prompt : String) : ChatModelAgentConfig :=
  { Name := "planner",
    Description := "Responsible for breaking down complex tasks into executable steps. Call this agent when you need to create a plan.",
    Instruction := prompt, Tools := [], Exit := false }

/-- Go `NewPlanner` (agents.go:32-45). -/
def NewPlanner (env : BuildEnv) : Except String Agent :=
  match env.globals.GlobalPrompts.lookup "planner" with
  | none => .error "planner prompt not found"
  | some prompt => newChatModelAgent env (plannerConfig prompt)

/-- The configuration of agents.go:55-65. -/
def researcherConfig (prompt : String) (tools : List BaseTool) : ChatModelAgentConfig :=
  { Name := "researcher",
    Description := "Responsible for executing research tasks. Call this agent when you need to gather information.",
    Instruction := prompt, Tools := tools, Exit := false }

/-- Go `NewResearcher` (agents.go:48-66). -/
def NewResearcher (env : BuildEnv) : Except String Agent :=
  match env.globals.GlobalPrompts.lookup "researcher" with
  | none => .error "researcher prompt not found"
  | some prompt => newChatModelAgent env (researcherConfig prompt env.globals.GlobalResearchTools)

/-- The placeholder replaced by the current time. -/
def currentTimePlaceholder : String := "\x7b\x7b CURRENT_TIME \x7d\x7d"

/-- The configuration of agents.go:77-89. -/
def coderConfig (prompt time : String) (tools : List BaseTool) : ChatModelAgentConfig :=
  { Name := "coder",
    Description := "Responsible for writing code. Call this agent when you need to generate code.",
    Instruction := prompt.replace currentTimePlaceholder time, Tools := tools, Exit := false }

/-- Go `NewCoder` (agents.go:69-90). -/
def NewCoder (env : BuildEnv) : Except String Agent :=
  match env.globals.GlobalPrompts.lookup "coder" with
  | none => .error "coder prompt not found"
  | some prompt => newChatModelAgent env (coderConfig prompt env.coderTime env.globals.GlobalCoderTools)

/-- The configuration of agents.go:99-104. -/
def reporterConfig (prompt : String) : ChatModelAgentConfig :=
  { Name := "reporter",
    Description := "Responsible for generating the final report based on the findings.",
    Instruction := prompt, Tools := [], Exit := false }

/-- Go `NewReporter` (agents.go:93-105). -/
def NewReporter (env : BuildEnv) : Except String Agent :=
  match env.globals.GlobalPrompts.lookup "reporter" with
  | none => .error "reporter prompt not found"
  | some prompt => newChatModelAgent env (reporterConfig prompt)

/-- The configuration of agents.go:114-119. -/
def podcastWriterConfig (prompt : String) : ChatModelAgentConfig :=
  { Name := "podcast_writer",
    Description := "Responsible for converting content into a podcast script.",
    Instruction := prompt, Tools := [], Exit := false }

/-- Go `NewPodcastScriptWriter` (agents.go:108-120). -/
def NewPodcastScriptWriter (env : BuildEnv) : Except String Agent :=
  match env.globals.GlobalPrompts.lookup "podcast_script_writer" with
  | none => .error "podcast_script_writer prompt not found"
  | some prompt => newChatModelAgent env (podcastWriterConfig prompt)

/-- The configuration of agents.go:129-134. -/
def pptComposerConfig (prompt : String) : ChatModelAgentConfig :=
  { Name := "ppt_composer",
    Description := "Responsible for creating a markdown presentation from content.",
    Instruction := prompt, Tools := [], Exit := false }

/-- Go `NewPPTComposer` (agents.go:123-135). -/
def NewPPTComposer (env : BuildEnv) : Except String Agent :=
  match env.globals.GlobalPrompts.lookup "ppt_composer" with
  | none => .error "ppt_composer prompt not found"
  | some prompt => newChatModelAgent env (pptComposerConfig prompt)

/-- The text of agents.go:150-180 before the `%d`. -/
def workflowHead : String :=
  "\n\n# Workflow Management\n\nYou also manage the research and content generation workflow.\nYour available agents are:\n- investigator: conducts initial background investigation\n- planner: breaks down tasks into a research plan\n- researcher: gathers information for research steps\n- coder: processes data or writes code for processing steps\n- reporter: generates a final report\n- podcast_writer: converts content into a podcast script\n- ppt_composer: creates a presentation\n\nIf the user request requires research (Category 3), follow this workflow:\n1. (Optional) If you need initial context, ask the **investigator** to search.\n2. Ask the **planner** to create a plan (Max steps: "

/-- The text of agents.go:150-180 after the `%d`. -/
def workflowTail : String :=
  ").\n3. **Human Feedback**: Output the plan to the user and ask for approval.\n    - If the user requests changes, ask the **planner** to revise the plan.\n    - Only proceed after the user approves.\n4. Iterate through the steps in the plan:\n    - If it is a research step, assign it to the **researcher**.\n    - If it is a processing step, assign it to the **coder**.\n    - Pass the result of previous steps to the next step if needed.\n5. Once all steps are complete (or you have enough info), choose the appropriate output format:\n    - Default: ask the **reporter** to generate a final report.\n    - If user asked for a podcast: ask the **podcast_writer**.\n    - If user asked for a PPT/presentation: ask the **ppt_composer**.\n6. Return the final result to the user.\n\nAlways follow this flow for complex tasks. Do not skip planning.\n"

/-- The `workflowInstruction` of agents.go:150-181. -/
def workflowInstruction (MaxStepNum : Int) : String :=
  workflowHead ++ toString MaxStepNum ++ workflowTail

/-- The configuration of agents.go:185-191. -/
def coordinatorConfig (prompt time : String) (MaxStepNum : Int) : ChatModelAgentConfig :=
  { Name := "coordinator",
    Description := "Coordinates the planning and execution process.",
    Instruction := prompt.replace currentTimePlaceholder time ++ workflowInstruction MaxStepNum,
    Tools := [], Exit := true }

/-- Go `NewCoordinator` (agents.go:138-200). -/
def NewCoordinator (env : BuildEnv) (subAgents : List Agent) : Except String SupervisorAgent :=
  match env.globals.GlobalPrompts.lookup "coordinator" with
  | none => .error "coordinator prompt not found"
  | some prompt =>
    match newChatModelAgent env (coordinatorConfig prompt env.coordinatorTime env.MaxStepNum) with
    | .error err => .error err
    | .ok sv =>
      match env.supervisorNew sv subAgents with
      | some err => .error err
      | none => .ok { Supervisor := sv, SubAgents := subAgents }

/-- Go `createAgents` (main.go:40-89). -/
def createAgents (env : BuildEnv) : Except String SupervisorAgent :=
  match NewInvestigator env with
  | .error err => .error ("failed to create investigator: " ++ err)
  | .ok investigatorAgent =>
    match NewPlanner env with
    | .error err => .error ("failed to create planner: " ++ err)
    | .ok planner =>
      match NewResearcher env with
      | .error err => .error ("failed to create researcher: " ++ err)
      | .ok researcher =>
        match NewCoder env with
        | .error err => .error ("failed to create coder: " ++ err)
        | .ok coder =>
          match NewReporter env with
          | .error err => .error ("failed to create reporter: " ++ err)
          | .ok reporter =>
            match NewPodcastScriptWriter env with
            | .error err => .error ("failed to create podcast writer: " ++ err)
            | .ok podcastWriter =>
              match NewPPTComposer env with
              | .error err => .error ("failed to create ppt composer: " ++ err)
              | .ok pptComposer =>
                match NewCoordinator env
                    [planner, researcher, coder, reporter, podcastWriter, pptComposer,
                      investigatorAgent] with
                | .error err => .error ("failed to create coordinator: " ++ err)
                | .ok sv => .ok sv

/-! ## Start-up (globals.go:36-71, main.go:552-557) -/

/-- The delegates the workflow text of agents.go:156-163 enumerates, each
with the description the text gives it. -/
def workflowDelegates : List (String × String) :=
  [("investigator", "conducts initial background investigation"),
    ("planner", "breaks down tasks into a research plan"),
    ("researcher", "gathers information for research steps"),
    ("coder", "processes data or writes code for processing steps"),
    ("reporter", "generates a final report"),
    ("podcast_writer", "converts content into a podcast script"),
    ("ppt_composer", "creates a presentation")]

/-- One line of the enumeration of the workflow text. -/
def delegateLine (d : String × String) : String :=
  "- " ++ d.1 ++ ": " ++ d.2 ++ "\n"

/-- The workflow text before the enumeration of the delegates. -/
def workflowIntro : String :=
  "\n\n# Workflow Management\n\nYou also manage the research and content generation workflow.\nYour available agents are:\n"

/-- The workflow text between the enumeration of the delegates and the
`%d`. -/
def workflowSteps : String :=
  "\nIf the user request requires research (Category 3), follow this workflow:\n1. (Optional) If you need initial context, ask the **investigator** to search.\n2. Ask the **planner** to create a plan (Max steps: "

/-! # Theorems -/

/-! ## Query selection -/

theorem lastUserLoop_eq_of_le (pre post : List ReqMessage) (u : ReqMessage)
    (hu : u.Role = "user") (hpost : ∀ m ∈ post, m.Role ≠ "user") :
    ∀ (k : Nat) (h : pre.length + 1 + k ≤ (pre ++ u :: post).length),
      lastUserLoop (pre ++ u :: post) (pre.length + 1 + k) h = u.Content := by
  intro k
  induction k with
  | zero =>
    intro h
    show lastUserLoop (pre ++ u :: post) (pre.length + 1) h = u.Content
    unfold lastUserLoop
    have hget : (pre ++ u :: post).get ⟨pre.length, h⟩ = u := by
      simp only [List.get_eq_getElem]
      rw [List.getElem_append_right (Nat.le_refl _)]
      simp
    rw [hget]
    simp [hu]
  | succ k ih =>
    intro h
    show lastUserLoop (pre ++ u :: post) (pre.length + 1 + k + 1) h = u.Content
    unfold lastUserLoop
    have hk : k < post.length := by
      simp only [List.length_append, List.length_cons] at h
      omega
    have hget : (pre ++ u :: post).get ⟨pre.length + 1 + k, h⟩ = post[k] := by
      simp only [List.get_eq_getElem]
      rw [List.getElem_append_right (by omega)]
      simp [Nat.add_assoc, Nat.add_sub_cancel_left, Nat.add_comm 1 k]
    rw [hget]
    have hne : post[k].Role ≠ "user" := hpost _ (List.getElem_mem hk)
    simp only [hne, if_false]
    exact ih _

theorem lastUserLoop_no_user (msgs : List ReqMessage)
    (hno : ∀ m ∈ msgs, m.Role ≠ "user") :
    ∀ (n : Nat) (h : n ≤ msgs.length), lastUserLoop msgs n h = "" := by
  intro n
  induction n with
  | zero => intro h; rfl
  | succ n ih =>
    intro h
    unfold lastUserLoop
    have hne : (msgs.get ⟨n, h⟩).Role ≠ "user" := hno _ (List.get_mem _ _ _)
    simp only [hne, if_false]
    exact ih _

theorem selectQuery_no_user (msgs : List ReqMessage)
    (hno : ∀ m ∈ msgs, m.Role ≠ "user") : selectQuery msgs = "" :=
  lastUserLoop_no_user msgs hno _ _

/-- C5. When the messages list holds a user-role message, the query is the
content of the last one: with `u` a user message followed only by non-user
messages `post`, the query is `u.Content`, whatever `pre` and `post` hold. -/
theorem selectQuery_last_user (pre post : List ReqMessage) (u : ReqMessage)
    (hu : u.Role = "user") (hpost : ∀ m ∈ post, m.Role ≠ "user") :
    selectQuery (pre ++ u :: post) = u.Content := by
  unfold selectQuery
  have hlen : (pre ++ u :: post).length = pre.length + 1 + post.length := by
    simp only [List.length_append, List.length_cons]; omega
  have := lastUserLoop_eq_of_le pre post u hu hpost post.length (by omega)
  convert this using 2

theorem selectQuery_last_user_witness :
    (⟨"user", "second"⟩ : ReqMessage).Role = "user" ∧
    (∀ m ∈ [(⟨"assistant", "reply"⟩ : ReqMessage), ⟨"system", "note"⟩], m.Role ≠ "user") ∧
    selectQuery ([⟨"user", "first"⟩, ⟨"assistant", "mid"⟩] ++
      (⟨"user", "second"⟩ : ReqMessage) :: [⟨"assistant", "reply"⟩, ⟨"system", "note"⟩]) = "second" :=
  ⟨by decide, by decide,
    selectQuery_last_user [⟨"user", "first"⟩, ⟨"assistant", "mid"⟩]
      [⟨"assistant", "reply"⟩, ⟨"system", "note"⟩] ⟨"user", "second"⟩ (by decide) (by decide)⟩

/-- C4. A request whose messages hold no user-role message is answered with
HTTP 400 by both POST handlers, and neither calls `createAgents`. -/
theorem no_user_message_is_400 (msgs : List ReqMessage)
    (hno : ∀ m ∈ msgs, m.Role ≠ "user")
    (ro : Nat → RangeOrder (Int × List Message)) (env : EnvB) (threadID locale : String)
    (agents : Except String (String → List AgentEvent)) :
    handlerA ro (.ok msgs) agents = [Effect.json 400 "no user message found"] ∧
    handlerB env (.ok ⟨msgs, threadID, locale⟩) agents = [Effect.json 400 "no user message found"] ∧
    Effect.createAgents ∉ handlerA ro (.ok msgs) agents ∧
    Effect.createAgents ∉ handlerB env (.ok ⟨msgs, threadID, locale⟩) agents := by
  have hq := selectQuery_no_user msgs hno
  have hA : handlerA ro (.ok msgs) agents = [Effect.json 400 "no user message found"] := by
    simp [handlerA, hq]
  have hB : handlerB env (.ok ⟨msgs, threadID, locale⟩) agents =
      [Effect.json 400 "no user message found"] := by
    simp [handlerB, hq]
  refine ⟨hA, hB, ?_, ?_⟩
  · rw [hA]; simp
  · rw [hB]; simp

theorem no_user_message_is_400_witness :
    (∀ m ∈ [(⟨"system", "be brief"⟩ : ReqMessage), ⟨"assistant", "hello"⟩], m.Role ≠ "user") ∧
    handlerA (fun _ => RangeOrder.inserted _)
      (.ok [⟨"system", "be brief"⟩, ⟨"assistant", "hello"⟩]) (.ok (fun _ => [])) =
        [Effect.json 400 "no user message found"] ∧
    handlerB ⟨"key", "", fun _ => 0, fun _ => true⟩
      (.ok ⟨[⟨"system", "be brief"⟩, ⟨"assistant", "hello"⟩], "t1", "en"⟩) (.ok (fun _ => [])) =
        [Effect.json 400 "no user message found"] ∧
    Effect.createAgents ∉ handlerA (fun _ => RangeOrder.inserted _)
      (.ok [⟨"system", "be brief"⟩, ⟨"assistant", "hello"⟩]) (.ok (fun _ => [])) ∧
    Effect.createAgents ∉ handlerB ⟨"key", "", fun _ => 0, fun _ => true⟩
      (.ok ⟨[⟨"system", "be brief"⟩, ⟨"assistant", "hello"⟩], "t1", "en"⟩) (.ok (fun _ => [])) :=
  ⟨by decide,
    no_user_message_is_400 [⟨"system", "be brief"⟩, ⟨"assistant", "hello"⟩] (by decide)
      (fun _ => RangeOrder.inserted _) ⟨"key", "", fun _ => 0, fun _ => true⟩ "t1" "en"
      (.ok (fun _ => []))⟩

/-! ## Endpoint A: complete messages -/

theorem completeToolCalls_length (calls : List ToolCall) :
    (completeToolCalls calls).length = 2 * calls.length := by
  induction calls with
  | nil => rfl
  | cons tc rest ih => simp only [completeToolCalls, List.length_cons, ih]; omega

theorem completeToolCalls_getElem? (calls : List ToolCall) :
    ∀ (i : Nat) (tc : ToolCall), calls[i]? = some tc →
      (completeToolCalls calls)[2 * i]? = some ⟨"tool_call_start", completePayload tc⟩ ∧
      (completeToolCalls calls)[2 * i + 1]? = some ⟨"tool_call_end", completePayload tc⟩ := by
  induction calls with
  | nil => intro i tc h; simp at h
  | cons c rest ih =>
    intro i tc h
    cases i with
    | zero =>
      simp only [List.getElem?_cons_zero, Option.some.injEq] at h
      subst h
      simp [completeToolCalls]
    | succ i =>
      simp only [List.getElem?_cons_succ] at h
      have := ih i tc h
      have e1 : 2 * (i + 1) = 2 * i + 1 + 1 := by omega
      have e2 : 2 * (i + 1) + 1 = 2 * i + 1 + 1 + 1 := by omega
      rw [e2, e1]
      simpa [completeToolCalls] using this

/-- C10. For an event that carries a complete message, the frames written for
its output are the text frame (if any) followed by the tool-call frames: two
per call, in call order, a `tool_call_start` immediately followed by a
`tool_call_end`, both with the call's id, type, function name and arguments. -/
theorem complete_message_tool_call_frames (ro : RangeOrder (Int × List Message))
    (ev : AgentEvent) (o : AgentOutput) (mv : MessageVariant) (m : Message)
    (hO : ev.Output = some o) (hMO : o.MessageOutput = some mv) (hM : mv.Message = some m) :
    ∃ text calls : List Frame,
      outputFrames ro ev = ⟨text ++ calls, false⟩ ∧
      (∀ f ∈ text, f.event = "message") ∧
      calls.length = 2 * m.ToolCalls.length ∧
      ∀ (i : Nat) (tc : ToolCall), m.ToolCalls[i]? = some tc →
        calls[2 * i]? = some ⟨"tool_call_start",
          .object [("id", .str tc.ID), ("type", .str tc.Typ), ("name", .str tc.Function.Name),
            ("args", .str tc.Function.Arguments)]⟩ ∧
        calls[2 * i + 1]? = some ⟨"tool_call_end",
          .object [("id", .str tc.ID), ("type", .str tc.Typ), ("name", .str tc.Function.Name),
            ("args", .str tc.Function.Arguments)]⟩ := by
  refine ⟨if m.Content ≠ "" then [⟨"message", .text m.Content⟩] else [],
    completeToolCalls m.ToolCalls, ?_, ?_, completeToolCalls_length _, ?_⟩
  · simp only [outputFrames, hO, hMO, hM, completeMessage]
    cases hc : m.ToolCalls with
    | nil => simp [completeToolCalls]
    | cons c rest => simp
  · intro f hf
    split at hf
    · simp only [List.mem_singleton] at hf
      rw [hf]
    · simp at hf
  · intro i tc h
    exact completeToolCalls_getElem? m.ToolCalls i tc h

theorem complete_message_tool_call_frames_witness :
    ∃ text calls : List Frame,
      outputFrames (RangeOrder.inserted _)
        ⟨"planner", some ⟨some ⟨some ⟨"assistant", "hello",
          [⟨none, "c1", "function", ⟨"run", "\x7b\x7d"⟩⟩, ⟨none, "c2", "function", ⟨"look", "\x7b\"q\":1\x7d"⟩⟩]⟩, none⟩⟩,
          none, none⟩ = ⟨text ++ calls, false⟩ ∧
      (∀ f ∈ text, f.event = "message") ∧
      calls.length = 2 * 2 ∧
      ∀ (i : Nat) (tc : ToolCall),
        [(⟨none, "c1", "function", ⟨"run", "\x7b\x7d"⟩⟩ : ToolCall),
          ⟨none, "c2", "function", ⟨"look", "\x7b\"q\":1\x7d"⟩⟩][i]? = some tc →
        calls[2 * i]? = some ⟨"tool_call_start",
          .object [("id", .str tc.ID), ("type", .str tc.Typ), ("name", .str tc.Function.Name),
            ("args", .str tc.Function.Arguments)]⟩ ∧
        calls[2 * i + 1]? = some ⟨"tool_call_end",
          .object [("id", .str tc.ID), ("type", .str tc.Typ), ("name", .str tc.Function.Name),
            ("args", .str tc.Function.Arguments)]⟩ :=
  complete_message_tool_call_frames (RangeOrder.inserted _)
    ⟨"planner", some ⟨some ⟨some ⟨"assistant", "hello",
      [⟨none, "c1", "function", ⟨"run", "\x7b\x7d"⟩⟩, ⟨none, "c2", "function", ⟨"look", "\x7b\"q\":1\x7d"⟩⟩]⟩, none⟩⟩,
      none, none⟩
    ⟨some ⟨some ⟨"assistant", "hello",
      [⟨none, "c1", "function", ⟨"run", "\x7b\x7d"⟩⟩, ⟨none, "c2", "function", ⟨"look", "\x7b\"q\":1\x7d"⟩⟩]⟩, none⟩⟩
    ⟨some ⟨"assistant", "hello",
      [⟨none, "c1", "function", ⟨"run", "\x7b\x7d"⟩⟩, ⟨none, "c2", "function", ⟨"look", "\x7b\"q\":1\x7d"⟩⟩]⟩, none⟩
    ⟨"assistant", "hello",
      [⟨none, "c1", "function", ⟨"run", "\x7b\x7d"⟩⟩, ⟨none, "c2", "function", ⟨"look", "\x7b\"q\":1\x7d"⟩⟩]⟩
    rfl rfl rfl

/-! ## Endpoint A: streamed messages, text frames -/

theorem deltaLoop_events (role : String) (calls : List ToolCall) :
    ∀ (tm : ToolMap), ∀ f ∈ (deltaLoop role calls tm).1, f.event = "tool_call_delta" := by
  induction calls with
  | nil => intro tm f hf; simp [deltaLoop] at hf
  | cons tc rest ih =>
    intro tm f hf
    unfold deltaLoop at hf
    split at hf
    · exact ih _ f hf
    · simp only [List.mem_cons] at hf
      rcases hf with hf | hf
      · rw [hf]
      · exact ih _ f hf

theorem chunkText_message (chunk : Message) :
    ((chunkText chunk).filter (fun f => f.event = "message")).map (fun f => f.data) =
      ([chunk].filter (fun c => c.Content ≠ "")).map (fun c => SSEData.text c.Content) := by
  unfold chunkText
  by_cases hc : chunk.Content = ""
  · simp [hc]
  · by_cases hr : chunk.Role = schema.Tool
    · simp [hc, hr, List.filter]
    · simp [hc, hr, List.filter]

theorem chunkText_events (chunk : Message) :
    ∀ f ∈ chunkText chunk, f.event = "message" ∨ f.event = "tool_result" := by
  intro f hf
  unfold chunkText at hf
  split at hf
  · simp only [List.mem_cons] at hf
    rcases hf with hf | hf
    · left; rw [hf]
    · split at hf
      · simp only [List.mem_singleton] at hf
        right; rw [hf]
      · simp at hf
  · simp at hf

theorem recvLoop_events (chunks : List Message) :
    ∀ (tm : ToolMap), ∀ f ∈ (recvLoop chunks tm).1,
      f.event = "message" ∨ f.event = "tool_result" ∨ f.event = "tool_call_delta" := by
  induction chunks with
  | nil => intro tm f hf; simp [recvLoop] at hf
  | cons chunk rest ih =>
    intro tm f hf
    simp only [recvLoop, List.mem_append] at hf
    rcases hf with (hf | hf) | hf
    · rcases chunkText_events chunk f hf with h | h
      · exact Or.inl h
      · exact Or.inr (Or.inl h)
    · split at hf
      · exact Or.inr (Or.inr (deltaLoop_events _ _ _ f hf))
      · simp at hf
    · exact ih _ f hf

theorem recvLoop_messages (chunks : List Message) :
    ∀ (tm : ToolMap),
      (((recvLoop chunks tm).1).filter (fun f => f.event = "message")).map (fun f => f.data) =
        (chunks.filter (fun c => c.Content ≠ "")).map (fun c => SSEData.text c.Content) := by
  induction chunks with
  | nil => intro tm; simp [recvLoop]
  | cons chunk rest ih =>
    intro tm
    have hd : (((if chunk.ToolCalls.length > 0 then deltaLoop chunk.Role chunk.ToolCalls tm
        else ([], tm)).1).filter (fun f => f.event = "message")) = [] := by
      rw [List.filter_eq_nil_iff]
      intro f hf
      split at hf
      · have := deltaLoop_events _ _ _ f hf
        simp [this]
      · simp at hf
    have hsplit : chunk :: rest = [chunk] ++ rest := rfl
    simp only [recvLoop, List.filter_append, List.map_append, hd, List.map_nil, List.append_nil, ih]
    rw [chunkText_message, hsplit, List.filter_append, List.map_append]

theorem resolveLoop_events (entries : List (Int × List Message)) :
    ∀ f ∈ (resolveLoop entries).frames,
      f.event = "error" ∨ f.event = "tool_call_start" ∨ f.event = "tool_call_end" := by
  induction entries with
  | nil => intro f hf; simp [resolveLoop] at hf
  | cons e rest ih =>
    intro f hf
    obtain ⟨k, msgs⟩ := e
    unfold resolveLoop at hf
    split at hf
    · simp only [List.mem_cons] at hf
      rcases hf with hf | hf
      · left; rw [hf]
      · exact ih f hf
    · split at hf
      · simp at hf
      · simp only [List.mem_cons] at hf
        rcases hf with hf | hf | hf
        · right; left; rw [hf]
        · right; right; rw [hf]
        · exact ih f hf

theorem drainFrames_events (s : MessageStream) :
    ∀ f ∈ drainFrames s, f.event ≠ "tool_call_start" ∧ f.event ≠ "tool_call_end" := by
  intro f hf
  simp only [drainFrames, List.mem_append] at hf
  rcases hf with hf | hf
  · rcases recvLoop_events _ _ f hf with h | h | h <;> rw [h] <;> decide
  · unfold recvEnd at hf
    split at hf
    · simp at hf
    · simp only [List.mem_singleton] at hf
      rw [hf]
      exact ⟨by simp, by simp⟩

/-- C3. While a chunk stream is drained, the `message` frames written are the
non-empty text fragments of its chunks, in arrival order and none lost, and
each of them is written before every `tool_call_start` and `tool_call_end`
frame of that stream. -/
theorem stream_text_frames_before_resolved (ro : RangeOrder (Int × List Message))
    (s : MessageStream) :
    (((streamMessage ro s).frames.filter (fun f => f.event = "message")).map (fun f => f.data) =
      (s.chunks.filter (fun c => c.Content ≠ "")).map (fun c => SSEData.text c.Content)) ∧
    ∀ (i j : Nat) (f g : Frame),
      (streamMessage ro s).frames[i]? = some f → (streamMessage ro s).frames[j]? = some g →
      f.event = "message" → (g.event = "tool_call_start" ∨ g.event = "tool_call_end") → i < j := by
  have hres : ∀ f ∈ (resolveFrames ro s).frames, f.event ≠ "message" := by
    intro f hf
    rcases resolveLoop_events _ f hf with h | h | h <;> rw [h] <;> decide
  constructor
  · have h1 : ((resolveFrames ro s).frames.filter (fun f => f.event = "message")) = [] := by
      rw [List.filter_eq_nil_iff]
      intro f hf
      simpa using hres f hf
    have h2 : ((recvEnd s.err).filter (fun f => f.event = "message")) = [] := by
      cases s.err <;> simp [recvEnd, List.filter]
    simp only [streamMessage, drainFrames, List.filter_append, h1, h2, List.append_nil]
    exact recvLoop_messages _ _
  · intro i j f g hi hj hf hg
    simp only [streamMessage] at hi hj
    by_contra hlt
    have hji : j ≤ i := Nat.le_of_not_lt hlt
    by_cases hjd : j < (drainFrames s).length
    · rw [List.getElem?_append_left hjd] at hj
      have hmem : g ∈ drainFrames s := List.getElem?_mem hj
      have := drainFrames_events s g hmem
      rcases hg with hg | hg
      · exact this.1 hg
      · exact this.2 hg
    · have hid : (drainFrames s).length ≤ i := by omega
      rw [List.getElem?_append_right hid] at hi
      have hmem : f ∈ (resolveFrames ro s).frames := List.getElem?_mem hi
      exact hres f hmem hf

theorem stream_text_frames_before_resolved_witness :
    (((streamMessage (RangeOrder.reversed _)
        ⟨[⟨"assistant", "Hel", [⟨some 1, "b", "", ⟨"look", "\x7b"⟩⟩]⟩, ⟨"assistant", "", []⟩,
          ⟨"assistant", "lo", [⟨some 0, "a", "", ⟨"run", "[]"⟩⟩, ⟨some 1, "", "", ⟨"", "\x7d"⟩⟩]⟩],
          none⟩).frames.filter (fun f => f.event = "message")).map (fun f => f.data) =
      [SSEData.text "Hel", SSEData.text "lo"]) ∧
    (2 < 5) :=
  ⟨(stream_text_frames_before_resolved (RangeOrder.reversed _)
      ⟨[⟨"assistant", "Hel", [⟨some 1, "b", "", ⟨"look", "\x7b"⟩⟩]⟩, ⟨"assistant", "", []⟩,
        ⟨"assistant", "lo", [⟨some 0, "a", "", ⟨"run", "[]"⟩⟩, ⟨some 1, "", "", ⟨"", "\x7d"⟩⟩]⟩],
        none⟩).1,
    (stream_text_frames_before_resolved (RangeOrder.reversed _)
      ⟨[⟨"assistant", "Hel", [⟨some 1, "b", "", ⟨"look", "\x7b"⟩⟩]⟩, ⟨"assistant", "", []⟩,
        ⟨"assistant", "lo", [⟨some 0, "a", "", ⟨"run", "[]"⟩⟩, ⟨some 1, "", "", ⟨"", "\x7d"⟩⟩]⟩],
        none⟩).2 2 5 ⟨"message", .text "lo"⟩ ⟨"tool_call_start", .object [("name", .str "run"), ("args", .str "[]")]⟩
      (by decide) (by decide) rfl (Or.inl rfl)⟩

/-! ## Tool registry -/

theorem loadToolsLoop_research (l : List (String × MCPClient)) :
    ∀ (st : Globals × List String),
      (loadToolsLoop l st).1.GlobalResearchTools = st.1.GlobalResearchTools ++ l.flatMap listed := by
  induction l with
  | nil => intro st; simp [loadToolsLoop]
  | cons p rest ih =>
    intro st
    obtain ⟨name, cli⟩ := p
    unfold loadToolsLoop
    cases hg : cli.GetTools with
    | error e => simp only [ih, List.flatMap_cons, listed, hg, List.nil_append]
    | ok ts =>
      simp only [ih, List.flatMap_cons, listed, hg]
      split <;> simp

theorem loadToolsLoop_coder (l : List (String × MCPClient)) :
    ∀ (st : Globals × List String),
      (loadToolsLoop l st).1.GlobalCoderTools = st.1.GlobalCoderTools ++
        (l.filter (fun p => stringsHasPrefix p.1 "python")).flatMap listed := by
  induction l with
  | nil => intro st; simp [loadToolsLoop]
  | cons p rest ih =>
    intro st
    obtain ⟨name, cli⟩ := p
    unfold loadToolsLoop
    cases hg : cli.GetTools with
    | error e =>
      simp only [ih]
      by_cases hp : stringsHasPrefix name "python" = true
      · simp [List.filter_cons, hp, listed, hg]
      · simp [List.filter_cons, hp]
    | ok ts =>
      simp only [ih]
      by_cases hp : stringsHasPrefix name "python" = true
      · simp [List.filter_cons, hp, listed, hg]
      · simp [List.filter_cons, hp]

theorem loadTools_research (ro : RangeOrder (String × MCPClient))
    (MCPServer : List (String × MCPClient)) (before : Globals) :
    (loadTools ro MCPServer before).globals.GlobalResearchTools =
      (ro.pick MCPServer).flatMap listed := by
  simp [loadTools, loadToolsLoop_research]

theorem loadTools_coder (ro : RangeOrder (String × MCPClient))
    (MCPServer : List (String × MCPClient)) (before : Globals) :
    (loadTools ro MCPServer before).globals.GlobalCoderTools =
      ((ro.pick MCPServer).filter (fun p => stringsHasPrefix p.1 "python")).flatMap listed := by
  simp [loadTools, loadToolsLoop_coder]

theorem loadTools_research_perm (ro : RangeOrder (String × MCPClient))
    (MCPServer : List (String × MCPClient)) (before : Globals) :
    (loadTools ro MCPServer before).globals.GlobalResearchTools.Perm (MCPServer.flatMap listed) := by
  rw [loadTools_research]
  exact (ro.perm MCPServer).flatMap_right listed

theorem loadTools_coder_perm (ro : RangeOrder (String × MCPClient))
    (MCPServer : List (String × MCPClient)) (before : Globals) :
    (loadTools ro MCPServer before).globals.GlobalCoderTools.Perm
      ((MCPServer.filter (fun p => stringsHasPrefix p.1 "python")).flatMap listed) := by
  rw [loadTools_coder]
  exact ((ro.perm MCPServer).filter _).flatMap_right listed

/-- C6. Whatever the caches held before and whatever order the provider map
is visited in, after `loadTools` the research set is, as a multiset, the union
of the tools listed by all providers, and the execution set that of the
providers whose handle starts with "python"; a second run on the same provider
map leaves the same two multisets. -/
theorem loadTools_partition (ro ro2 : RangeOrder (String × MCPClient))
    (MCPServer : List (String × MCPClient)) (before : Globals) :
    ((loadTools ro MCPServer before).globals.GlobalResearchTools : Multiset BaseTool) =
      (MCPServer.flatMap listed : List BaseTool) ∧
    ((loadTools ro MCPServer before).globals.GlobalCoderTools : Multiset BaseTool) =
      ((MCPServer.filter (fun p => stringsHasPrefix p.1 "python")).flatMap listed : List BaseTool) ∧
    ((loadTools ro2 MCPServer (loadTools ro MCPServer before).globals).globals.GlobalResearchTools :
        Multiset BaseTool) = (loadTools ro MCPServer before).globals.GlobalResearchTools ∧
    ((loadTools ro2 MCPServer (loadTools ro MCPServer before).globals).globals.GlobalCoderTools :
        Multiset BaseTool) = (loadTools ro MCPServer before).globals.GlobalCoderTools := by
  refine ⟨Multiset.coe_eq_coe.mpr (loadTools_research_perm ro MCPServer before),
    Multiset.coe_eq_coe.mpr (loadTools_coder_perm ro MCPServer before),
    Multiset.coe_eq_coe.mpr ?_, Multiset.coe_eq_coe.mpr ?_⟩
  · exact (loadTools_research_perm ro2 MCPServer _).trans
      (loadTools_research_perm ro MCPServer before).symm
  · exact (loadTools_coder_perm ro2 MCPServer _).trans
      (loadTools_coder_perm ro MCPServer before).symm

/-- C7. `loadTools` returns no error whichever providers fail to list their
tools; the research set holds exactly the tools listed by the providers whose
listing succeeded, and the execution set exactly those of them whose handle
starts with "python": a failing provider contributes nothing and removes
nothing. -/
theorem loadTools_never_fails (ro : RangeOrder (String × MCPClient))
    (MCPServer : List (String × MCPClient)) (before : Globals) :
    (loadTools ro MCPServer before).err = none ∧
    (∀ t : BaseTool, t ∈ (loadTools ro MCPServer before).globals.GlobalResearchTools ↔
      ∃ name cli ts, (name, cli) ∈ MCPServer ∧ cli.GetTools = .ok ts ∧ t ∈ ts) ∧
    (∀ t : BaseTool, t ∈ (loadTools ro MCPServer before).globals.GlobalCoderTools ↔
      ∃ name cli ts, (name, cli) ∈ MCPServer ∧ cli.GetTools = .ok ts ∧
        stringsHasPrefix name "python" = true ∧ t ∈ ts) := by
  have hlisted : ∀ (t : BaseTool) (p : String × MCPClient),
      t ∈ listed p ↔ ∃ ts, p.2.GetTools = .ok ts ∧ t ∈ ts := by
    intro t p
    unfold listed
    cases hg : p.2.GetTools with
    | error e => simp
    | ok ts => simp
  refine ⟨rfl, ?_, ?_⟩
  · intro t
    rw [(loadTools_research_perm ro MCPServer before).mem_iff, List.mem_flatMap]
    constructor
    · rintro ⟨⟨name, cli⟩, hmem, ht⟩
      obtain ⟨ts, hts, htm⟩ := (hlisted t _).mp ht
      exact ⟨name, cli, ts, hmem, hts, htm⟩
    · rintro ⟨name, cli, ts, hmem, hts, htm⟩
      exact ⟨(name, cli), hmem, (hlisted t _).mpr ⟨ts, hts, htm⟩⟩
  · intro t
    rw [(loadTools_coder_perm ro MCPServer before).mem_iff, List.mem_flatMap]
    constructor
    · rintro ⟨⟨name, cli⟩, hmem, ht⟩
      rw [List.mem_filter] at hmem
      obtain ⟨ts, hts, htm⟩ := (hlisted t _).mp ht
      exact ⟨name, cli, ts, hmem.1, hts, by simpa using hmem.2, htm⟩
    · rintro ⟨name, cli, ts, hmem, hts, hp, htm⟩
      exact ⟨(name, cli), List.mem_filter.mpr ⟨hmem, by simpa using hp⟩,
        (hlisted t _).mpr ⟨ts, hts, htm⟩⟩

/-! ## Investigator -/

theorem scanTools_none (ts : List BaseTool)
    (h : ∀ t ∈ ts, stringsHasSuffix t.Name "search" = false) : scanTools ts = none := by
  induction ts with
  | nil => rfl
  | cons t rest ih =>
    unfold scanTools
    rw [h t (List.mem_cons_self _ _)]
    simpa using ih (fun t ht => h t (List.mem_cons_of_mem _ ht))

theorem searchLoop_logs (l : List (String × MCPClient)) :
    ∀ (st : Option BaseTool), ∀ op ∈ (searchLoop l st).1, ∃ k, op = RunOp.log k := by
  induction l with
  | nil => intro st op h; simp [searchLoop] at h
  | cons p rest ih =>
    intro st op h
    obtain ⟨name, cli⟩ := p
    unfold searchLoop at h
    split at h
    · simp at h
    · split at h
      · simp only [List.mem_cons] at h
        rcases h with h | h
        · exact ⟨_, h⟩
        · exact ih _ op h
      · exact ih _ op h

theorem searchLoop_none (l : List (String × MCPClient))
    (h : ∀ p ∈ l, ∀ t ∈ listed p, stringsHasSuffix t.Name "search" = false) :
    (searchLoop l none).2 = none := by
  induction l with
  | nil => rfl
  | cons p rest ih =>
    obtain ⟨name, cli⟩ := p
    have hrest := ih (fun p hp => h p (List.mem_cons_of_mem _ hp))
    have hp := h (name, cli) (List.mem_cons_self _ _)
    unfold searchLoop
    cases hg : cli.GetTools with
    | error e => simpa using hrest
    | ok ts =>
      have : scanTools ts = none := by
        apply scanTools_none
        intro t ht
        apply hp t
        simp [listed, hg, ht]
      simpa [this] using hrest

theorem filter_onStream_logs (logs tail : List RunOp) (h : ∀ op ∈ logs, ∃ k, op = RunOp.log k) :
    (logs ++ tail).filter RunOp.onStream = tail.filter RunOp.onStream := by
  induction logs with
  | nil => rfl
  | cons op rest ih =>
    obtain ⟨k, hk⟩ := h op (List.mem_cons_self _ _)
    subst hk
    simpa [List.filter_cons, RunOp.onStream] using ih (fun op hop => h op (List.mem_cons_of_mem _ hop))

theorem filter_isInvoke_logs (logs tail : List RunOp) (h : ∀ op ∈ logs, ∃ k, op = RunOp.log k) :
    (logs ++ tail).filter RunOp.isInvoke = tail.filter RunOp.isInvoke := by
  induction logs with
  | nil => rfl
  | cons op rest ih =>
    obtain ⟨k, hk⟩ := h op (List.mem_cons_self _ _)
    subst hk
    simpa [List.filter_cons, RunOp.isInvoke] using ih (fun op hop => h op (List.mem_cons_of_mem _ hop))

theorem readLoop_logs (logs tail : List RunOp) (h : ∀ op ∈ logs, ∃ k, op = RunOp.log k) :
    readLoop (logs ++ tail) = readLoop tail := by
  induction logs with
  | nil => rfl
  | cons op rest ih =>
    obtain ⟨k, hk⟩ := h op (List.mem_cons_self _ _)
    subst hk
    simpa [readLoop] using ih (fun op hop => h op (List.mem_cons_of_mem _ hop))

/-- C8, as stated, fails: with no provider at all and an empty input history
the single event sent is an assistant message with empty content, which does
not state that no search tool is available. -/
theorem investigator_empty_history_counterexample :
    Run (RangeOrder.inserted _) [] (fun q => .ok q) (fun _ _ => .ok "") [] =
      [RunOp.send (assistantEvent ""), RunOp.close] ∧
    assistantEvent "" ≠ assistantEvent "No search tool available for background investigation." := by
  decide

/-- C8, amended. When the input history is not empty and no provider lists a
tool whose name ends in "search" (in particular when there is no provider),
the run sends exactly one event, the assistant message stating that no search
tool is available, then closes the stream, and invokes no tool. -/
theorem investigator_no_search_tool (ro : RangeOrder (String × MCPClient))
    (MCPServer : List (String × MCPClient)) (marshal : String → Except String String)
    (InvokableRun : BaseTool → String → Except String String) (input : List Message)
    (hin : input ≠ [])
    (hno : ∀ p ∈ MCPServer, ∀ t ∈ listed p, stringsHasSuffix t.Name "search" = false) :
    (Run ro MCPServer marshal InvokableRun input).filter RunOp.onStream =
      [RunOp.send (assistantEvent "No search tool available for background investigation."),
        RunOp.close] ∧
    (Run ro MCPServer marshal InvokableRun input).filter RunOp.isInvoke = [] ∧
    readLoop (Run ro MCPServer marshal InvokableRun input) =
      some [assistantEvent "No search tool available for background investigation."] := by
  have hnone : (searchLoop (ro.pick MCPServer) none).2 = none := by
    apply searchLoop_none
    intro p hp
    exact hno p ((ro.perm MCPServer).mem_iff.mp hp)
  have hlogs := searchLoop_logs (ro.pick MCPServer) none
  obtain ⟨lastMsg, hlast⟩ : ∃ m, input.getLast? = some m := by
    cases h : input.getLast? with
    | none => exact absurd (List.getLast?_eq_none_iff.mp h) hin
    | some m => exact ⟨m, rfl⟩
  have hrun : Run ro MCPServer marshal InvokableRun input =
      (searchLoop (ro.pick MCPServer) none).1 ++
        [RunOp.log "investigator_no_search_tool_found",
          RunOp.send (assistantEvent "No search tool available for background investigation."),
          RunOp.close] := by
    simp [Run, runBody, hlast, hnone]
  rw [hrun]
  refine ⟨?_, ?_, ?_⟩
  · rw [filter_onStream_logs _ _ hlogs]; rfl
  · rw [filter_isInvoke_logs _ _ hlogs]; rfl
  · rw [readLoop_logs _ _ hlogs]; rfl

theorem investigator_no_search_tool_witness :
    (Run (RangeOrder.inserted _) [("web", ⟨.ok [⟨"fetch_page", true⟩]⟩), ("down", ⟨.error "refused"⟩)]
        (fun q => .ok q) (fun _ _ => .ok "found") [⟨"user", "what is eino", []⟩]).filter
        RunOp.onStream =
      [RunOp.send (assistantEvent "No search tool available for background investigation."),
        RunOp.close] ∧
    (Run (RangeOrder.inserted _) [("web", ⟨.ok [⟨"fetch_page", true⟩]⟩), ("down", ⟨.error "refused"⟩)]
        (fun q => .ok q) (fun _ _ => .ok "found") [⟨"user", "what is eino", []⟩]).filter
        RunOp.isInvoke = [] ∧
    readLoop (Run (RangeOrder.inserted _)
        [("web", ⟨.ok [⟨"fetch_page", true⟩]⟩), ("down", ⟨.error "refused"⟩)]
        (fun q => .ok q) (fun _ _ => .ok "found") [⟨"user", "what is eino", []⟩]) =
      some [assistantEvent "No search tool available for background investigation."] :=
  investigator_no_search_tool (RangeOrder.inserted _)
    [("web", ⟨.ok [⟨"fetch_page", true⟩]⟩), ("down", ⟨.error "refused"⟩)]
    (fun q => .ok q) (fun _ _ => .ok "found") [⟨"user", "what is eino", []⟩]
    (by decide) (by decide)

/-- C9. On every path of `InvestigatorAgent.Run` the goroutine sends exactly
one event on the generator and then closes it, so a read loop receives that
one event and ends; unless serialising the query fails, the event is an
assistant message. -/
theorem investigator_sends_one_event_then_closes (ro : RangeOrder (String × MCPClient))
    (MCPServer : List (String × MCPClient)) (marshal : String → Except String String)
    (InvokableRun : BaseTool → String → Except String String) (input : List Message) :
    ∃ e : AgentEvent,
      (Run ro MCPServer marshal InvokableRun input).filter RunOp.onStream =
        [RunOp.send e, RunOp.close] ∧
      readLoop (Run ro MCPServer marshal InvokableRun input) = some [e] ∧
      ((∀ q err, marshal q ≠ .error err) → ∃ content, e = assistantEvent content) := by
  have hlogs := searchLoop_logs (ro.pick MCPServer) none
  cases hlast : input.getLast? with
  | none =>
    refine ⟨assistantEvent "", ?_, ?_, fun _ => ⟨_, rfl⟩⟩
    · simp [Run, runBody, hlast, RunOp.onStream]
    · simp [Run, runBody, hlast, readLoop]
  | some lastMsg =>
    cases hfound : (searchLoop (ro.pick MCPServer) none).2 with
    | none =>
      refine ⟨assistantEvent "No search tool available for background investigation.",
        ?_, ?_, fun _ => ⟨_, rfl⟩⟩
      · simp only [Run, runBody, hlast, hfound, List.append_assoc]
        rw [filter_onStream_logs _ _ hlogs]; rfl
      · simp only [Run, runBody, hlast, hfound, List.append_assoc]
        rw [readLoop_logs _ _ hlogs]; rfl
    | some searchTool =>
      cases hm : marshal lastMsg.Content with
      | error err =>
        refine ⟨{ AgentName := "", Output := none, Action := none, Err := some err },
          ?_, ?_, fun h => absurd hm (h _ _)⟩
        · simp only [Run, runBody, hlast, hfound, hm, List.append_assoc]
          rw [filter_onStream_logs _ _ hlogs]; rfl
        · simp only [Run, runBody, hlast, hfound, hm, List.append_assoc]
          rw [readLoop_logs _ _ hlogs]; rfl
      | ok argsBytes =>
        cases hr : InvokableRun searchTool argsBytes with
        | error err =>
          refine ⟨assistantEvent ("Background investigation failed: " ++ err),
            ?_, ?_, fun _ => ⟨_, rfl⟩⟩
          · simp only [Run, runBody, hlast, hfound, hm, hr, List.append_assoc]
            rw [filter_onStream_logs _ _ hlogs]; rfl
          · simp only [Run, runBody, hlast, hfound, hm, hr, List.append_assoc]
            rw [readLoop_logs _ _ hlogs]; rfl
        | ok result =>
          refine ⟨assistantEvent ("Background Investigation Result: " ++ result),
            ?_, ?_, fun _ => ⟨_, rfl⟩⟩
          · simp only [Run, runBody, hlast, hfound, hm, hr, List.append_assoc]
            rw [filter_onStream_logs _ _ hlogs]; rfl
          · simp only [Run, runBody, hlast, hfound, hm, hr, List.append_assoc]
            rw [readLoop_logs _ _ hlogs]; rfl

/-! ## The accumulator of tool-call deltas -/

theorem ToolMap.get_set (tm : ToolMap) (k : Int) (v : List Message) (k2 : Int) :
    ToolMap.get (ToolMap.set tm k v) k2 = if k2 = k then v else ToolMap.get tm k2 := by
  induction tm with
  | nil =>
    by_cases h : k2 = k
    · simp [ToolMap.set, ToolMap.get, h]
    · have h2 : ¬ k = k2 := fun e => h e.symm
      simp [ToolMap.set, ToolMap.get, h, h2]
  | cons e rest ih =>
    obtain ⟨k1, v1⟩ := e
    unfold ToolMap.set
    by_cases h1 : k1 = k
    · subst h1
      by_cases h : k2 = k1
      · simp [ToolMap.get, h]
      · have h2 : ¬ k1 = k2 := fun e => h e.symm
        simp [ToolMap.get, h, h2]
    · simp only [h1, if_false]
      by_cases h : k1 = k2
      · subst h
        simp [ToolMap.get, h1]
      · simp [ToolMap.get, h, ih]

theorem ToolMap.keys_set (tm : ToolMap) (k : Int) (v : List Message) :
    ToolMap.keys (ToolMap.set tm k v) =
      if k ∈ ToolMap.keys tm then ToolMap.keys tm else ToolMap.keys tm ++ [k] := by
  induction tm with
  | nil => simp [ToolMap.set, ToolMap.keys]
  | cons e rest ih =>
    obtain ⟨k1, v1⟩ := e
    unfold ToolMap.set
    by_cases h1 : k1 = k
    · subst h1
      simp [ToolMap.keys]
    · have h2 : ¬ k = k1 := fun e => h1 e.symm
      simp only [h1, if_false]
      simp only [ToolMap.keys] at ih ⊢
      simp only [List.map_cons, List.mem_cons, h2, false_or, ih]
      split <;> simp

theorem ToolMap.nodup_set (tm : ToolMap) (k : Int) (v : List Message)
    (h : (ToolMap.keys tm).Nodup) : (ToolMap.keys (ToolMap.set tm k v)).Nodup := by
  rw [ToolMap.keys_set]
  split
  · exact h
  · rename_i hk
    exact List.Nodup.append h (List.nodup_singleton k) (by simpa using hk)

theorem ToolMap.mem_keys_set (tm : ToolMap) (k : Int) (v : List Message) (k2 : Int) :
    k2 ∈ ToolMap.keys (ToolMap.set tm k v) ↔ k2 ∈ ToolMap.keys tm ∨ k2 = k := by
  rw [ToolMap.keys_set]
  split
  · rename_i hk
    constructor
    · exact Or.inl
    · rintro (h | h)
      · exact h
      · rw [h]; exact hk
  · simp

theorem ToolMap.get_of_mem (tm : ToolMap) (h : (ToolMap.keys tm).Nodup) :
    ∀ e ∈ tm, ToolMap.get tm e.1 = e.2 := by
  induction tm with
  | nil => intro e he; simp at he
  | cons e1 rest ih =>
    obtain ⟨k1, v1⟩ := e1
    simp only [ToolMap.keys, List.map_cons, List.nodup_cons] at h
    intro e he
    simp only [List.mem_cons] at he
    rcases he with he | he
    · subst he; simp [ToolMap.get]
    · have hne : k1 ≠ e.1 := by
        intro heq
        apply h.1
        rw [heq]
        exact List.mem_map_of_mem Prod.fst he
      simp only [ToolMap.get, hne, if_false]
      exact ih h.2 e he

theorem deltaLoop_get (role : String) (calls : List ToolCall) :
    ∀ (tm : ToolMap) (k : Int),
      ToolMap.get (deltaLoop role calls tm).2 k =
        ToolMap.get tm k ++ (calls.filter (fun tc => tc.Index = some k)).map (deltaMessage role) := by
  induction calls with
  | nil => intro tm k; simp [deltaLoop]
  | cons tc rest ih =>
    intro tm k
    unfold deltaLoop
    cases hi : tc.Index with
    | none => simp [ih, List.filter_cons, hi]
    | some i =>
      simp only [ih, ToolMap.get_set]
      by_cases hk : k = i
      · subst hk
        simp [List.filter_cons, hi]
      · have hk2 : ¬ i = k := fun e => hk e.symm
        simp [List.filter_cons, hi, hk, hk2]

theorem deltaLoop_keys (role : String) (calls : List ToolCall) :
    ∀ (tm : ToolMap), (ToolMap.keys tm).Nodup →
      (ToolMap.keys (deltaLoop role calls tm).2).Nodup ∧
      ∀ k, k ∈ ToolMap.keys (deltaLoop role calls tm).2 ↔
        k ∈ ToolMap.keys tm ∨ ∃ tc ∈ calls, tc.Index = some k := by
  induction calls with
  | nil => intro tm h; simp [deltaLoop, h]
  | cons tc rest ih =>
    intro tm h
    unfold deltaLoop
    cases hi : tc.Index with
    | none =>
      obtain ⟨h1, h2⟩ := ih tm h
      refine ⟨h1, fun k => ?_⟩
      rw [h2 k]
      simp [hi]
    | some i =>
      obtain ⟨h1, h2⟩ := ih _ (ToolMap.nodup_set tm i (ToolMap.get tm i ++ [deltaMessage role tc]) h)
      refine ⟨h1, fun k => ?_⟩
      simp only [h2 k, ToolMap.mem_keys_set, List.mem_cons, exists_eq_or_imp, hi, Option.some.injEq]
      constructor
      · rintro ((h | h) | h)
        · exact Or.inl h
        · exact Or.inr (Or.inl h.symm)
        · exact Or.inr (Or.inr h)
      · rintro (h | h | h)
        · exact Or.inl (Or.inl h)
        · exact Or.inl (Or.inr h.symm)
        · exact Or.inr h

theorem recvLoop_get (chunks : List Message) :
    ∀ (tm : ToolMap) (k : Int),
      ToolMap.get (recvLoop chunks tm).2 k =
        ToolMap.get tm k ++ chunks.flatMap (fun c =>
          (c.ToolCalls.filter (fun tc => tc.Index = some k)).map (deltaMessage c.Role)) := by
  induction chunks with
  | nil => intro tm k; simp [recvLoop]
  | cons c rest ih =>
    intro tm k
    simp only [recvLoop, ih, List.flatMap_cons]
    split
    · rw [deltaLoop_get, List.append_assoc]
    · rename_i hlen
      have : c.ToolCalls = [] := by
        cases hc : c.ToolCalls with
        | nil => rfl
        | cons a b => simp [hc] at hlen
      simp [this]

theorem recvLoop_keys (chunks : List Message) :
    ∀ (tm : ToolMap), (ToolMap.keys tm).Nodup →
      (ToolMap.keys (recvLoop chunks tm).2).Nodup ∧
      ∀ k, k ∈ ToolMap.keys (recvLoop chunks tm).2 ↔
        k ∈ ToolMap.keys tm ∨ ∃ c ∈ chunks, ∃ tc ∈ c.ToolCalls, tc.Index = some k := by
  induction chunks with
  | nil => intro tm h; simp [recvLoop, h]
  | cons c rest ih =>
    intro tm h
    simp only [recvLoop]
    have hd : (ToolMap.keys (if c.ToolCalls.length > 0 then deltaLoop c.Role c.ToolCalls tm
          else ([], tm)).2).Nodup ∧
        ∀ k, k ∈ ToolMap.keys (if c.ToolCalls.length > 0 then deltaLoop c.Role c.ToolCalls tm
          else ([], tm)).2 ↔ k ∈ ToolMap.keys tm ∨ ∃ tc ∈ c.ToolCalls, tc.Index = some k := by
      split
      · exact deltaLoop_keys _ _ tm h
      · rename_i hlen
        have : c.ToolCalls = [] := by
          cases hc : c.ToolCalls with
          | nil => rfl
          | cons a b => simp [hc] at hlen
        simp [this, h]
    obtain ⟨h1, h2⟩ := ih _ hd.1
    refine ⟨h1, fun k => ?_⟩
    rw [h2 k, hd.2 k]
    simp only [List.mem_cons, exists_eq_or_imp]
    exact or_assoc

/-! ## Concatenation of the deltas of one index -/

theorem join_cons (a : String) (l : List String) : String.join (a :: l) = a ++ String.join l := by
  rw [String.join_eq, String.join_eq]
  apply String.ext
  simp

theorem mergeField_eq_of_ok (what acc v r : String) (h : mergeField what acc v = .ok r) :
    r = if acc = "" then v else acc := by
  unfold mergeField at h
  by_cases hv : v = ""
  · simp only [hv, if_true, Except.ok.injEq] at h
    subst hv
    by_cases ha : acc = ""
    · simp [ha, ← h]
    · simp [ha, ← h]
  · simp only [hv, if_false] at h
    by_cases ha : acc = ""
    · simp only [ha, if_true, Except.ok.injEq] at h
      simp [ha, ← h]
    · simp only [ha, if_false] at h
      by_cases hav : acc = v
      · simp only [hav, if_true, Except.ok.injEq] at h
        simp [ha, ← h, hav]
      · simp [hav] at h

theorem mergeField_ok (what acc v : String) (h : acc ≠ "" → v ≠ "" → acc = v) :
    mergeField what acc v = .ok (if acc = "" then v else acc) := by
  unfold mergeField
  by_cases hv : v = ""
  · by_cases ha : acc = ""
    · simp [hv, ha]
    · simp [hv, ha]
  · by_cases ha : acc = ""
    · simp [hv, ha]
    · have := h ha hv
      simp [hv, ha, this]

theorem firstNonEmpty_step (a b : String) (l : List String) :
    firstNonEmpty ((if a = "" then b else a) :: l) = firstNonEmpty (a :: b :: l) := by
  by_cases ha : a = ""
  · simp [firstNonEmpty, ha]
  · simp [firstNonEmpty, ha]

theorem Agree.head (a b : String) (l : List String) (h : Agree (a :: b :: l)) :
    a ≠ "" → b ≠ "" → a = b :=
  fun ha hb => h a (by simp) b (by simp) ha hb

theorem Agree.step (a b : String) (l : List String) (h : Agree (a :: b :: l)) :
    Agree ((if a = "" then b else a) :: l) := by
  intro x hx y hy hxe hye
  apply h x _ y _ hxe hye
  · simp only [List.mem_cons] at hx ⊢
    rcases hx with hx | hx
    · by_cases ha : a = ""
      · simp only [ha, if_true] at hx; exact Or.inr (Or.inl hx)
      · simp only [ha, if_false] at hx; exact Or.inl hx
    · exact Or.inr (Or.inr hx)
  · simp only [List.mem_cons] at hy ⊢
    rcases hy with hy | hy
    · by_cases ha : a = ""
      · simp only [ha, if_true] at hy; exact Or.inr (Or.inl hy)
      · simp only [ha, if_false] at hy; exact Or.inl hy
    · exact Or.inr (Or.inr hy)

theorem Agree.cons_empty (l : List String) (h : Agree l) : Agree ("" :: l) := by
  intro x hx y hy hxe hye
  simp only [List.mem_cons] at hx hy
  rcases hx with hx | hx
  · exact absurd hx hxe
  · rcases hy with hy | hy
    · exact absurd hy hye
    · exact h x hx y hy hxe hye

theorem mergeGroup_eq_of_ok (l : List ToolCall) :
    ∀ (acc c : ToolCall), mergeGroup l acc = .ok c →
      c = { Index := acc.Index,
            ID := firstNonEmpty (acc.ID :: l.map (fun d => d.ID)),
            Typ := firstNonEmpty (acc.Typ :: l.map (fun d => d.Typ)),
            Function :=
              { Name := firstNonEmpty (acc.Function.Name :: l.map (fun d => d.Function.Name)),
                Arguments := acc.Function.Arguments ++
                  String.join (l.map (fun d => d.Function.Arguments)) } } := by
  induction l with
  | nil =>
    intro acc c h
    simp only [mergeGroup, Except.ok.injEq] at h
    subst h
    obtain ⟨i, id, ty, ⟨nm, ar⟩⟩ := acc
    simp only [List.map_nil, firstNonEmpty, String.join, List.foldl_nil, String.append_empty]
    by_cases h1 : id = "" <;> by_cases h2 : ty = "" <;> by_cases h3 : nm = "" <;> simp [h1, h2, h3]
  | cons d rest ih =>
    intro acc c h
    unfold mergeGroup at h
    cases h1 : mergeField "ToolCalls with different tool id" acc.ID d.ID with
    | error e => simp [h1] at h
    | ok id =>
      cases h2 : mergeField "ToolCalls with different tool type" acc.Typ d.Typ with
      | error e => simp [h1, h2] at h
      | ok ty =>
        cases h3 : mergeField "ToolCalls with different tool name" acc.Function.Name
            d.Function.Name with
        | error e => simp [h1, h2, h3] at h
        | ok nm =>
          simp only [h1, h2, h3] at h
          have := ih _ c h
          rw [this]
          rw [mergeField_eq_of_ok _ _ _ _ h1, mergeField_eq_of_ok _ _ _ _ h2,
            mergeField_eq_of_ok _ _ _ _ h3]
          simp only [firstNonEmpty_step, List.map_cons, join_cons, String.append_assoc]

theorem mergeGroup_ok (l : List ToolCall) :
    ∀ (acc : ToolCall), Agree (acc.ID :: l.map (fun d => d.ID)) →
      Agree (acc.Typ :: l.map (fun d => d.Typ)) →
      Agree (acc.Function.Name :: l.map (fun d => d.Function.Name)) →
      ∃ c, mergeGroup l acc = .ok c := by
  induction l with
  | nil => intro acc _ _ _; exact ⟨acc, rfl⟩
  | cons d rest ih =>
    intro acc hid hty hnm
    unfold mergeGroup
    rw [mergeField_ok _ _ _ (Agree.head _ _ _ hid), mergeField_ok _ _ _ (Agree.head _ _ _ hty),
      mergeField_ok _ _ _ (Agree.head _ _ _ hnm)]
    exact ih _ (Agree.step _ _ _ hid) (Agree.step _ _ _ hty) (Agree.step _ _ _ hnm)

theorem concatRoles_ok (msgs : List Message) :
    ∀ (acc : String), Agree (acc :: msgs.map (fun m => m.Role)) →
      ∃ r, concatRoles msgs acc = .ok r := by
  induction msgs with
  | nil => intro acc _; exact ⟨acc, rfl⟩
  | cons m rest ih =>
    intro acc h
    unfold concatRoles
    rw [mergeField_ok _ _ _ (Agree.head _ _ _ h)]
    exact ih _ (Agree.step _ _ _ h)

theorem dedup_const (a : Int) (l : List Int) (hne : l ≠ []) (h : ∀ x ∈ l, x = a) :
    l.dedup = [a] := by
  induction l with
  | nil => exact absurd rfl hne
  | cons x rest ih =>
    have hx : x = a := h x (List.mem_cons_self _ _)
    subst hx
    by_cases hr : rest = []
    · subst hr; rfl
    · have hrest := ih hr (fun y hy => h y (List.mem_cons_of_mem _ hy))
      have hmem : x ∈ rest := by
        cases rest with
        | nil => exact absurd rfl hr
        | cons y ys =>
          have := h y (by simp)
          rw [this]; exact List.mem_cons_self _ _
      rw [List.dedup_cons_of_mem hmem, hrest]

theorem concatToolCalls_of_allIndex (idx : Int) (calls : List ToolCall) (h : AllIndex idx calls) :
    concatToolCalls calls =
      match mergeGroup calls
          { Index := some idx, ID := "", Typ := "", Function := { Name := "", Arguments := "" } } with
      | .error e => .error e
      | .ok c => .ok [c] := by
  obtain ⟨hne, hall⟩ := h
  have hkeys : ((calls.filterMap (fun c => c.Index)).dedup).insertionSort (· ≤ ·) = [idx] := by
    have : (calls.filterMap (fun c => c.Index)).dedup = [idx] := by
      apply dedup_const
      · cases calls with
        | nil => exact absurd rfl hne
        | cons c rest =>
          have := hall c (List.mem_cons_self _ _)
          simp [List.filterMap_cons, this]
      · intro x hx
        rw [List.mem_filterMap] at hx
        obtain ⟨tc, htc, hi⟩ := hx
        rw [hall tc htc] at hi
        exact (Option.some.inj hi).symm
    rw [this]; rfl
  have hfilter : calls.filter (fun c => c.Index = some idx) = calls := by
    rw [List.filter_eq_self]
    intro tc htc
    simpa using hall tc htc
  have hplain : calls.filter (fun c => c.Index = none) = [] := by
    rw [List.filter_eq_nil_iff]
    intro tc htc
    simp [hall tc htc]
  unfold concatToolCalls
  rw [hkeys]
  simp only [mergeGroups, hfilter, hplain, List.nil_append]
  cases mergeGroup calls
      { Index := some idx, ID := "", Typ := "", Function := { Name := "", Arguments := "" } } with
  | error e => rfl
  | ok c => rfl

theorem deltaMessage_calls (role : String) (tc : ToolCall) :
    (deltaMessage role tc).ToolCalls = [tc] := by
  obtain ⟨i, id, ty, ⟨nm, ar⟩⟩ := tc
  rfl

theorem deltaMessagesOf_calls (idx : Int) (chunks : List Message) :
    (deltaMessagesOf idx chunks).flatMap (fun m => m.ToolCalls) = deltasOf idx chunks := by
  induction chunks with
  | nil => rfl
  | cons c rest ih =>
    have hc : ∀ l : List ToolCall,
        (l.map (deltaMessage c.Role)).flatMap (fun m => m.ToolCalls) = l := by
      intro l
      induction l with
      | nil => rfl
      | cons t ts iht => simp [List.flatMap_cons, deltaMessage_calls, iht]
    simp only [deltaMessagesOf, deltasOf] at ih ⊢
    simp only [List.flatMap_cons, List.flatMap_append, List.filter_append, ih, hc]

theorem deltaMessagesOf_roles (idx : Int) (chunks : List Message) :
    (deltaMessagesOf idx chunks).map (fun m => m.Role) = rolesOf idx chunks := by
  induction chunks with
  | nil => rfl
  | cons c rest ih =>
    simp only [deltaMessagesOf, rolesOf] at ih ⊢
    simp only [List.flatMap_cons, List.map_append, ih, List.map_map]
    congr 1

theorem accumulate_get (s : MessageStream) (idx : Int) :
    ToolMap.get (accumulate s) idx = deltaMessagesOf idx s.chunks := by
  unfold accumulate
  rw [recvLoop_get]
  simp [ToolMap.get, deltaMessagesOf]

theorem deltasOf_ne_nil_iff (idx : Int) (chunks : List Message) :
    deltasOf idx chunks ≠ [] ↔ ∃ c ∈ chunks, ∃ tc ∈ c.ToolCalls, tc.Index = some idx := by
  unfold deltasOf
  rw [Ne, List.filter_eq_nil_iff]
  simp only [List.mem_flatMap, decide_eq_true_eq, not_forall, Classical.not_not]
  constructor
  · rintro ⟨tc, ⟨c, hc, htc⟩, hi⟩
    exact ⟨c, hc, tc, htc, hi⟩
  · rintro ⟨c, hc, tc, htc, hi⟩
    exact ⟨tc, ⟨c, hc, htc⟩, hi⟩

theorem accumulate_keys (s : MessageStream) :
    (ToolMap.keys (accumulate s)).Nodup ∧
    ∀ k, k ∈ ToolMap.keys (accumulate s) ↔ deltasOf k s.chunks ≠ [] := by
  obtain ⟨h1, h2⟩ := recvLoop_keys s.chunks [] (by simp [ToolMap.keys])
  refine ⟨h1, fun k => ?_⟩
  unfold accumulate
  rw [h2 k, deltasOf_ne_nil_iff]
  simp [ToolMap.keys]

theorem mem_indicesOf (k : Int) (chunks : List Message) :
    k ∈ indicesOf chunks ↔ deltasOf k chunks ≠ [] := by
  unfold indicesOf
  rw [List.mem_dedup, List.mem_filterMap, deltasOf_ne_nil_iff]
  simp only [List.mem_flatMap]
  constructor
  · rintro ⟨tc, ⟨c, hc, htc⟩, hi⟩
    exact ⟨c, hc, tc, htc, hi⟩
  · rintro ⟨c, hc, tc, htc, hi⟩
    exact ⟨tc, ⟨c, hc, htc⟩, hi⟩

theorem accumulate_keys_perm (s : MessageStream) :
    (ToolMap.keys (accumulate s)).Perm (indicesOf s.chunks) := by
  have hnd : (indicesOf s.chunks).Nodup := List.nodup_dedup _
  rw [List.perm_ext_iff_of_nodup (accumulate_keys s).1 hnd]
  intro k
  rw [(accumulate_keys s).2 k, mem_indicesOf]

theorem accumulate_entry (s : MessageStream) :
    ∀ e ∈ accumulate s, e.2 = deltaMessagesOf e.1 s.chunks ∧ deltasOf e.1 s.chunks ≠ [] := by
  intro e he
  constructor
  · rw [← accumulate_get, ToolMap.get_of_mem _ (accumulate_keys s).1 e he]
  · rw [← (accumulate_keys s).2 e.1]
    exact List.mem_map_of_mem Prod.fst he

theorem allIndex_deltasOf (idx : Int) (chunks : List Message) (h : deltasOf idx chunks ≠ []) :
    AllIndex idx (deltasOf idx chunks) := by
  refine ⟨h, fun tc htc => ?_⟩
  unfold deltasOf at htc
  rw [List.mem_filter] at htc
  simpa using htc.2

theorem specResolvedCall_eq (idx : Int) (deltas : List ToolCall) :
    ({ Index := some idx,
       ID := firstNonEmpty ("" :: deltas.map (fun d => d.ID)),
       Typ := firstNonEmpty ("" :: deltas.map (fun d => d.Typ)),
       Function :=
        { Name := firstNonEmpty ("" :: deltas.map (fun d => d.Function.Name)),
          Arguments := "" ++ String.join (deltas.map (fun d => d.Function.Arguments)) } } : ToolCall) =
      specResolvedCall idx deltas := by
  simp [specResolvedCall, firstNonEmpty]

/-- When the tool calls of `msgs` all bear `idx`, a successful concatenation
has exactly one tool call, the one spec §3 describes. -/
theorem ConcatMessages_calls_of_ok (idx : Int) (msgs : List Message)
    (h : AllIndex idx (msgs.flatMap (fun m => m.ToolCalls))) (m : Message)
    (hm : ConcatMessages msgs = .ok m) :
    m.ToolCalls = [specResolvedCall idx (msgs.flatMap (fun m => m.ToolCalls))] := by
  unfold ConcatMessages at hm
  cases hr : concatRoles msgs "" with
  | error e => simp [hr] at hm
  | ok role =>
    simp only [hr, concatToolCalls_of_allIndex idx _ h] at hm
    cases hg : mergeGroup (msgs.flatMap (fun m => m.ToolCalls))
        { Index := some idx, ID := "", Typ := "", Function := { Name := "", Arguments := "" } } with
    | error e => simp [hg] at hm
    | ok c =>
      simp only [hg, Except.ok.injEq] at hm
      rw [← hm]
      have := mergeGroup_eq_of_ok _ _ _ hg
      simp only [this, specResolvedCall_eq]

/-- When the tool calls of `msgs` all bear `idx` and neither the roles nor the
ids, types and names of the calls conflict, the concatenation succeeds. -/
theorem ConcatMessages_ok (idx : Int) (msgs : List Message)
    (h : AllIndex idx (msgs.flatMap (fun m => m.ToolCalls)))
    (hrole : Agree (msgs.map (fun m => m.Role)))
    (hid : Agree ((msgs.flatMap (fun m => m.ToolCalls)).map (fun d => d.ID)))
    (hty : Agree ((msgs.flatMap (fun m => m.ToolCalls)).map (fun d => d.Typ)))
    (hnm : Agree ((msgs.flatMap (fun m => m.ToolCalls)).map (fun d => d.Function.Name))) :
    ∃ m, ConcatMessages msgs = .ok m := by
  obtain ⟨r, hr⟩ := concatRoles_ok msgs "" (Agree.cons_empty _ hrole)
  obtain ⟨c, hc⟩ := mergeGroup_ok (msgs.flatMap (fun m => m.ToolCalls))
    { Index := some idx, ID := "", Typ := "", Function := { Name := "", Arguments := "" } }
    (Agree.cons_empty _ hid) (Agree.cons_empty _ hty) (Agree.cons_empty _ hnm)
  unfold ConcatMessages
  simp only [hr, concatToolCalls_of_allIndex idx _ h, hc]
  exact ⟨_, rfl⟩

theorem entryFrames_cases (idx : Int) (msgs : List Message)
    (h : AllIndex idx (msgs.flatMap (fun m => m.ToolCalls))) :
    (∃ e, ConcatMessages msgs = .error e ∧ entryFrames msgs = [⟨"error", .text e⟩]) ∨
    (∃ m, ConcatMessages msgs = .ok m ∧
      entryFrames msgs =
        [⟨"tool_call_start",
            resolvedPayload (specResolvedCall idx (msgs.flatMap (fun m => m.ToolCalls)))⟩,
          ⟨"tool_call_end",
            resolvedPayload (specResolvedCall idx (msgs.flatMap (fun m => m.ToolCalls)))⟩]) := by
  cases hm : ConcatMessages msgs with
  | error e => left; exact ⟨e, rfl, by simp [entryFrames, hm]⟩
  | ok m =>
    right
    refine ⟨m, rfl, ?_⟩
    have := ConcatMessages_calls_of_ok idx msgs h m hm
    simp [entryFrames, hm, this]

theorem resolveLoop_eq (entries : List (Int × List Message))
    (h : ∀ e ∈ entries, ∀ m, ConcatMessages e.2 = .ok m → m.ToolCalls ≠ []) :
    resolveLoop entries = ⟨entries.flatMap (fun e => entryFrames e.2), false⟩ := by
  induction entries with
  | nil => rfl
  | cons e rest ih =>
    obtain ⟨k, msgs⟩ := e
    have hrest := ih (fun e he => h e (List.mem_cons_of_mem _ he))
    have he := h (k, msgs) (List.mem_cons_self _ _)
    unfold resolveLoop
    cases hm : ConcatMessages msgs with
    | error e => simp [hrest, entryFrames, hm]
    | ok m =>
      cases hc : m.ToolCalls with
      | nil => exact absurd hc (he m hm)
      | cons tc tcs => simp [hrest, entryFrames, hm, hc]

theorem accumulate_entry_allIndex (s : MessageStream) :
    ∀ e ∈ accumulate s, AllIndex e.1 (e.2.flatMap (fun m => m.ToolCalls)) := by
  intro e he
  obtain ⟨h1, h2⟩ := accumulate_entry s e he
  rw [h1, deltaMessagesOf_calls]
  exact allIndex_deltasOf _ _ h2

theorem resolveFrames_eq (ro : RangeOrder (Int × List Message)) (s : MessageStream) :
    resolveFrames ro s =
      ⟨((ro.pick (accumulate s)).map Prod.fst).flatMap
        (fun idx => entryFrames (ToolMap.get (accumulate s) idx)), false⟩ := by
  unfold resolveFrames
  rw [resolveLoop_eq]
  · congr 1
    rw [List.flatMap_map]
    apply List.flatMap_congr
    intro e he
    have hmem : e ∈ accumulate s := (ro.perm _).mem_iff.mp he
    rw [ToolMap.get_of_mem _ (accumulate_keys s).1 e hmem]
  · intro e he m hm
    have hmem : e ∈ accumulate s := (ro.perm _).mem_iff.mp he
    rw [ConcatMessages_calls_of_ok e.1 e.2 (accumulate_entry_allIndex s e hmem) m hm]
    simp

/-! ## Conflicting deltas -/

theorem mergeField_agree_of_ok (what acc v r : String) (h : mergeField what acc v = .ok r) :
    acc ≠ "" → v ≠ "" → acc = v := by
  intro ha hv
  unfold mergeField at h
  simp only [hv, if_false, ha] at h
  by_contra hne
  simp [hne] at h

theorem Agree.of_step (a b : String) (l : List String) (hab : a ≠ "" → b ≠ "" → a = b)
    (h : Agree ((if a = "" then b else a) :: l)) : Agree (a :: b :: l) := by
  have key : ∀ x ∈ a :: b :: l, x ≠ "" → x = (if a = "" then b else a) ∨ x ∈ l := by
    intro x hx hxe
    simp only [List.mem_cons] at hx
    rcases hx with hx | hx | hx
    · left
      subst hx
      simp [hxe]
    · left
      subst hx
      by_cases ha : a = ""
      · simp [ha]
      · simp only [ha, if_false]
        exact (hab ha hxe).symm
    · exact Or.inr hx
  intro x hx y hy hxe hye
  have hx2 : x ∈ (if a = "" then b else a) :: l := by
    rcases key x hx hxe with h1 | h1
    · rw [h1]; exact List.mem_cons_self _ _
    · exact List.mem_cons_of_mem _ h1
  have hy2 : y ∈ (if a = "" then b else a) :: l := by
    rcases key y hy hye with h1 | h1
    · rw [h1]; exact List.mem_cons_self _ _
    · exact List.mem_cons_of_mem _ h1
  exact h x hx2 y hy2 hxe hye

theorem Agree.tail (a : String) (l : List String) (h : Agree (a :: l)) : Agree l :=
  fun x hx y hy hxe hye => h x (List.mem_cons_of_mem _ hx) y (List.mem_cons_of_mem _ hy) hxe hye

theorem mergeGroup_agree_of_ok (l : List ToolCall) :
    ∀ (acc c : ToolCall), mergeGroup l acc = .ok c →
      Agree (acc.ID :: l.map (fun d => d.ID)) ∧
      Agree (acc.Typ :: l.map (fun d => d.Typ)) ∧
      Agree (acc.Function.Name :: l.map (fun d => d.Function.Name)) := by
  induction l with
  | nil =>
    intro acc c _
    have hsingle : ∀ a : String, Agree [a] := by
      intro a x hx y hy _ _
      simp only [List.mem_singleton] at hx hy
      rw [hx, hy]
    exact ⟨hsingle _, hsingle _, hsingle _⟩
  | cons d rest ih =>
    intro acc c h
    unfold mergeGroup at h
    cases h1 : mergeField "ToolCalls with different tool id" acc.ID d.ID with
    | error e => simp [h1] at h
    | ok id =>
      cases h2 : mergeField "ToolCalls with different tool type" acc.Typ d.Typ with
      | error e => simp [h1, h2] at h
      | ok ty =>
        cases h3 : mergeField "ToolCalls with different tool name" acc.Function.Name
            d.Function.Name with
        | error e => simp [h1, h2, h3] at h
        | ok nm =>
          simp only [h1, h2, h3] at h
          obtain ⟨a1, a2, a3⟩ := ih _ c h
          simp only at a1 a2 a3
          rw [mergeField_eq_of_ok _ _ _ _ h1] at a1
          rw [mergeField_eq_of_ok _ _ _ _ h2] at a2
          rw [mergeField_eq_of_ok _ _ _ _ h3] at a3
          exact ⟨Agree.of_step _ _ _ (mergeField_agree_of_ok _ _ _ _ h1) a1,
            Agree.of_step _ _ _ (mergeField_agree_of_ok _ _ _ _ h2) a2,
            Agree.of_step _ _ _ (mergeField_agree_of_ok _ _ _ _ h3) a3⟩

theorem concatRoles_agree_of_ok (msgs : List Message) :
    ∀ (acc r : String), concatRoles msgs acc = .ok r →
      Agree (acc :: msgs.map (fun m => m.Role)) := by
  induction msgs with
  | nil =>
    intro acc r _ x hx y hy _ _
    simp only [List.map_nil, List.mem_singleton] at hx hy
    rw [hx, hy]
  | cons m rest ih =>
    intro acc r h
    unfold concatRoles at h
    cases h1 : mergeField "messages with different roles" acc m.Role with
    | error e => simp [h1] at h
    | ok r1 =>
      simp only [h1] at h
      have a1 := ih _ r h
      rw [mergeField_eq_of_ok _ _ _ _ h1] at a1
      exact Agree.of_step _ _ _ (mergeField_agree_of_ok _ _ _ _ h1) a1

/-- When the tool calls of `msgs` all bear `idx`, the concatenation succeeds
only if neither the roles nor the ids, types and names of the calls
conflict. -/
theorem ConcatMessages_agree_of_ok (idx : Int) (msgs : List Message)
    (h : AllIndex idx (msgs.flatMap (fun m => m.ToolCalls))) (m : Message)
    (hm : ConcatMessages msgs = .ok m) :
    Agree (msgs.map (fun m => m.Role)) ∧
    Agree ((msgs.flatMap (fun m => m.ToolCalls)).map (fun d => d.ID)) ∧
    Agree ((msgs.flatMap (fun m => m.ToolCalls)).map (fun d => d.Typ)) ∧
    Agree ((msgs.flatMap (fun m => m.ToolCalls)).map (fun d => d.Function.Name)) := by
  unfold ConcatMessages at hm
  cases hr : concatRoles msgs "" with
  | error e => simp [hr] at hm
  | ok role =>
    simp only [hr, concatToolCalls_of_allIndex idx _ h] at hm
    cases hg : mergeGroup (msgs.flatMap (fun m => m.ToolCalls))
        { Index := some idx, ID := "", Typ := "", Function := { Name := "", Arguments := "" } } with
    | error e => simp [hg] at hm
    | ok c =>
      obtain ⟨a1, a2, a3⟩ := mergeGroup_agree_of_ok _ _ _ hg
      exact ⟨Agree.tail _ _ (concatRoles_agree_of_ok _ _ _ hr), Agree.tail _ _ a1,
        Agree.tail _ _ a2, Agree.tail _ _ a3⟩

/-- The frames of one entry of the accumulator, by whether the deltas of its
index conflict. -/
theorem entryFrames_of_index (s : MessageStream) (idx : Int) (hne : deltasOf idx s.chunks ≠ []) :
    ((Agree (rolesOf idx s.chunks) ∧ Agree ((deltasOf idx s.chunks).map (fun d => d.ID)) ∧
        Agree ((deltasOf idx s.chunks).map (fun d => d.Typ)) ∧
        Agree ((deltasOf idx s.chunks).map (fun d => d.Function.Name))) →
      (∃ m, ConcatMessages (ToolMap.get (accumulate s) idx) = .ok m) ∧
      entryFrames (ToolMap.get (accumulate s) idx) =
        [⟨"tool_call_start", resolvedPayload (specResolvedCall idx (deltasOf idx s.chunks))⟩,
          ⟨"tool_call_end", resolvedPayload (specResolvedCall idx (deltasOf idx s.chunks))⟩]) ∧
    (¬ (Agree (rolesOf idx s.chunks) ∧ Agree ((deltasOf idx s.chunks).map (fun d => d.ID)) ∧
        Agree ((deltasOf idx s.chunks).map (fun d => d.Typ)) ∧
        Agree ((deltasOf idx s.chunks).map (fun d => d.Function.Name))) →
      ∃ e, ConcatMessages (ToolMap.get (accumulate s) idx) = .error e ∧
        entryFrames (ToolMap.get (accumulate s) idx) = [⟨"error", .text e⟩]) := by
  have hcalls : (ToolMap.get (accumulate s) idx).flatMap (fun m => m.ToolCalls) =
      deltasOf idx s.chunks := by
    rw [accumulate_get, deltaMessagesOf_calls]
  have hroles : (ToolMap.get (accumulate s) idx).map (fun m => m.Role) = rolesOf idx s.chunks := by
    rw [accumulate_get, deltaMessagesOf_roles]
  have hall : AllIndex idx ((ToolMap.get (accumulate s) idx).flatMap (fun m => m.ToolCalls)) := by
    rw [hcalls]
    exact allIndex_deltasOf _ _ hne
  constructor
  · rintro ⟨hrole, hid, hty, hnm⟩
    obtain ⟨m, hm⟩ := ConcatMessages_ok idx (ToolMap.get (accumulate s) idx) hall
      (by rw [hroles]; exact hrole) (by rw [hcalls]; exact hid) (by rw [hcalls]; exact hty)
      (by rw [hcalls]; exact hnm)
    have hmc := ConcatMessages_calls_of_ok idx _ hall m hm
    rw [hcalls] at hmc
    exact ⟨⟨m, hm⟩, by simp [entryFrames, hm, hmc]⟩
  · intro hconf
    cases hm : ConcatMessages (ToolMap.get (accumulate s) idx) with
    | error e => exact ⟨e, rfl, by simp [entryFrames, hm]⟩
    | ok m =>
      have := ConcatMessages_agree_of_ok idx _ hall m hm
      rw [hroles, hcalls] at this
      exact absurd this hconf

/-! ## Endpoint A: the resolved tool calls of a streamed message -/

theorem infix_flatMap_of_mem {α β : Type} (f : α → List β) (l : List α) (a : α) (h : a ∈ l) :
    f a <:+: l.flatMap f := by
  obtain ⟨pre, post, rfl⟩ := List.append_of_mem h
  refine ⟨pre.flatMap f, post.flatMap f, ?_⟩
  simp [List.flatMap_append, List.flatMap_cons]

theorem resolvedPayload_fields (tc : ToolCall) (ev : String) :
    (⟨ev, resolvedPayload tc⟩ : Frame).field "name" = some (.str tc.Function.Name) ∧
    (⟨ev, resolvedPayload tc⟩ : Frame).field "args" = some (.str tc.Function.Arguments) := by
  constructor
  · rfl
  · simp [Frame.field, resolvedPayload, List.find?]

/-- C1, as stated, fails: two deltas of index 0 carrying the different
non-empty ids "a" and "b" are not resolved into a call with id "a" and
arguments "xy"; their concatenation is an error and no `tool_call_start`
frame is written for the index. And on the two deltas of the claim's own
example the frames written carry the name "run" and the arguments `{"x":1}`
but no id. -/
theorem conflicting_ids_counterexample :
    (deltasOf 0 [⟨"assistant", "", [⟨some 0, "a", "", ⟨"run", "x"⟩⟩]⟩,
        ⟨"assistant", "", [⟨some 0, "b", "", ⟨"", "y"⟩⟩]⟩] ≠ [] ∧
      ((resolveFrames (RangeOrder.inserted _)
        ⟨[⟨"assistant", "", [⟨some 0, "a", "", ⟨"run", "x"⟩⟩]⟩,
          ⟨"assistant", "", [⟨some 0, "b", "", ⟨"", "y"⟩⟩]⟩], none⟩).frames.map
            (fun f => f.event)) = ["error"]) ∧
    ((resolveFrames (RangeOrder.inserted _)
        ⟨[⟨"assistant", "", [⟨some 0, "c1", "", ⟨"run", "\x7b\"x\":"⟩⟩]⟩,
          ⟨"assistant", "", [⟨some 0, "", "", ⟨"", "1\x7d"⟩⟩]⟩], none⟩).frames =
        [⟨"tool_call_start", .object [("name", .str "run"), ("args", .str "\x7b\"x\":1\x7d")]⟩,
          ⟨"tool_call_end", .object [("name", .str "run"), ("args", .str "\x7b\"x\":1\x7d")]⟩] ∧
      ((resolveFrames (RangeOrder.inserted _)
        ⟨[⟨"assistant", "", [⟨some 0, "c1", "", ⟨"run", "\x7b\"x\":"⟩⟩]⟩,
          ⟨"assistant", "", [⟨some 0, "", "", ⟨"", "1\x7d"⟩⟩]⟩], none⟩).frames.map
            (fun f => f.field "id")) = [none, none]) := by
  decide

/-- C1, amended. For a chunk stream and every fragment index whose deltas
carry no conflicting non-empty role, id, type or name, the concatenation of
the index's accumulated deltas succeeds and yields one call with id, type and
name from the first delta with a non-empty value and the arguments
concatenated in arrival order, and an adjacent `tool_call_start`,
`tool_call_end` pair carrying that name and those arguments is written after
the stream has ended. Every `tool_call_start` or `tool_call_end` frame
written then carries the name and arguments resolved for some index without
conflict. For an index whose deltas do conflict the concatenation is an error
and the frames of the index are one `error` frame with the error text instead
of a pair. The frames written after the stream are the frames of the distinct
indices, one index after the other. -/
theorem resolved_calls_match_deltas (ro : RangeOrder (Int × List Message)) (s : MessageStream) :
    (∀ idx : Int, deltasOf idx s.chunks ≠ [] →
      Agree (rolesOf idx s.chunks) →
      Agree ((deltasOf idx s.chunks).map (fun d => d.ID)) →
      Agree ((deltasOf idx s.chunks).map (fun d => d.Typ)) →
      Agree ((deltasOf idx s.chunks).map (fun d => d.Function.Name)) →
      (∃ m, ConcatMessages (ToolMap.get (accumulate s) idx) = .ok m ∧
        m.ToolCalls = [specResolvedCall idx (deltasOf idx s.chunks)]) ∧
      ∃ f g : Frame, [f, g] <:+: (resolveFrames ro s).frames ∧
        entryFrames (ToolMap.get (accumulate s) idx) = [f, g] ∧
        f.event = "tool_call_start" ∧ g.event = "tool_call_end" ∧ g.data = f.data ∧
        f.field "name" = some (.str (specResolvedCall idx (deltasOf idx s.chunks)).Function.Name) ∧
        f.field "args" =
          some (.str (specResolvedCall idx (deltasOf idx s.chunks)).Function.Arguments)) ∧
    (∀ f ∈ (resolveFrames ro s).frames, f.event = "tool_call_start" ∨ f.event = "tool_call_end" →
      ∃ idx : Int, deltasOf idx s.chunks ≠ [] ∧
        Agree (rolesOf idx s.chunks) ∧
        Agree ((deltasOf idx s.chunks).map (fun d => d.ID)) ∧
        Agree ((deltasOf idx s.chunks).map (fun d => d.Typ)) ∧
        Agree ((deltasOf idx s.chunks).map (fun d => d.Function.Name)) ∧
        f.field "name" = some (.str (specResolvedCall idx (deltasOf idx s.chunks)).Function.Name) ∧
        f.field "args" =
          some (.str (specResolvedCall idx (deltasOf idx s.chunks)).Function.Arguments)) ∧
    (∀ idx : Int, deltasOf idx s.chunks ≠ [] →
      ¬ (Agree (rolesOf idx s.chunks) ∧ Agree ((deltasOf idx s.chunks).map (fun d => d.ID)) ∧
        Agree ((deltasOf idx s.chunks).map (fun d => d.Typ)) ∧
        Agree ((deltasOf idx s.chunks).map (fun d => d.Function.Name))) →
      ∃ e, ConcatMessages (ToolMap.get (accumulate s) idx) = .error e ∧
        entryFrames (ToolMap.get (accumulate s) idx) = [⟨"error", .text e⟩] ∧
        [(⟨"error", .text e⟩ : Frame)] <:+: (resolveFrames ro s).frames) ∧
    (∃ order : List Int, order.Perm (indicesOf s.chunks) ∧
      (resolveFrames ro s).frames =
        order.flatMap (fun idx => entryFrames (ToolMap.get (accumulate s) idx))) := by
  have hmemOrder : ∀ idx, deltasOf idx s.chunks ≠ [] →
      idx ∈ (ro.pick (accumulate s)).map Prod.fst := by
    intro idx hidx
    have hk : idx ∈ ToolMap.keys (accumulate s) := ((accumulate_keys s).2 idx).mpr hidx
    exact (((ro.perm (accumulate s)).map Prod.fst).mem_iff).mpr hk
  refine ⟨?_, ?_, ?_, ?_⟩
  · intro idx hidx hrole hid hty hnm
    obtain ⟨⟨m, hm⟩, hentry⟩ := (entryFrames_of_index s idx hidx).1 ⟨hrole, hid, hty, hnm⟩
    have hall : AllIndex idx ((ToolMap.get (accumulate s) idx).flatMap (fun m => m.ToolCalls)) := by
      rw [accumulate_get, deltaMessagesOf_calls]
      exact allIndex_deltasOf _ _ hidx
    have hmc := ConcatMessages_calls_of_ok idx _ hall m hm
    rw [accumulate_get, deltaMessagesOf_calls] at hmc
    refine ⟨⟨m, hm, hmc⟩, ?_⟩
    refine ⟨⟨"tool_call_start", resolvedPayload (specResolvedCall idx (deltasOf idx s.chunks))⟩,
      ⟨"tool_call_end", resolvedPayload (specResolvedCall idx (deltasOf idx s.chunks))⟩,
      ?_, hentry, rfl, rfl, rfl, (resolvedPayload_fields _ _).1, (resolvedPayload_fields _ _).2⟩
    rw [resolveFrames_eq]
    have hinf := infix_flatMap_of_mem
      (fun idx => entryFrames (ToolMap.get (accumulate s) idx)) _ idx (hmemOrder idx hidx)
    simpa [hentry] using hinf
  · intro f hf hev
    rw [resolveFrames_eq] at hf
    simp only [List.mem_flatMap] at hf
    obtain ⟨idx, hidx, hfe⟩ := hf
    have hk : idx ∈ ToolMap.keys (accumulate s) :=
      (((ro.perm (accumulate s)).map Prod.fst).mem_iff).mp hidx
    have hne : deltasOf idx s.chunks ≠ [] := ((accumulate_keys s).2 idx).mp hk
    by_cases hag : Agree (rolesOf idx s.chunks) ∧
        Agree ((deltasOf idx s.chunks).map (fun d => d.ID)) ∧
        Agree ((deltasOf idx s.chunks).map (fun d => d.Typ)) ∧
        Agree ((deltasOf idx s.chunks).map (fun d => d.Function.Name))
    · obtain ⟨_, hentry⟩ := (entryFrames_of_index s idx hne).1 hag
      rw [hentry] at hfe
      simp only [List.mem_cons, List.mem_singleton, List.not_mem_nil, or_false] at hfe
      refine ⟨idx, hne, hag.1, hag.2.1, hag.2.2.1, hag.2.2.2, ?_⟩
      rcases hfe with hfe | hfe
      · rw [hfe]; exact resolvedPayload_fields _ _
      · rw [hfe]; exact resolvedPayload_fields _ _
    · obtain ⟨e, _, hentry⟩ := (entryFrames_of_index s idx hne).2 hag
      rw [hentry] at hfe
      simp only [List.mem_singleton] at hfe
      rw [hfe] at hev
      rcases hev with hev | hev <;> simp at hev
  · intro idx hidx hconf
    obtain ⟨e, hm, hentry⟩ := (entryFrames_of_index s idx hidx).2 hconf
    refine ⟨e, hm, hentry, ?_⟩
    rw [resolveFrames_eq]
    have hinf := infix_flatMap_of_mem
      (fun idx => entryFrames (ToolMap.get (accumulate s) idx)) _ idx (hmemOrder idx hidx)
    simpa [hentry] using hinf
  · refine ⟨(ro.pick (accumulate s)).map Prod.fst,
      ((ro.perm (accumulate s)).map Prod.fst).trans (accumulate_keys_perm s), ?_⟩
    rw [resolveFrames_eq]

theorem resolved_calls_match_deltas_witness :
    deltasOf 0 [⟨"assistant", "", [⟨some 0, "c1", "", ⟨"run", "\x7b\"x\":"⟩⟩]⟩,
      ⟨"assistant", "", [⟨some 0, "", "", ⟨"", "1\x7d"⟩⟩]⟩] ≠ [] ∧
    ((∃ m, ConcatMessages (ToolMap.get (accumulate
          ⟨[⟨"assistant", "", [⟨some 0, "c1", "", ⟨"run", "\x7b\"x\":"⟩⟩]⟩,
            ⟨"assistant", "", [⟨some 0, "", "", ⟨"", "1\x7d"⟩⟩]⟩], none⟩) 0) = .ok m ∧
        m.ToolCalls = [⟨some 0, "c1", "", ⟨"run", "\x7b\"x\":1\x7d"⟩⟩]) ∧
      ∃ f g : Frame, [f, g] <:+: (resolveFrames (RangeOrder.inserted _)
          ⟨[⟨"assistant", "", [⟨some 0, "c1", "", ⟨"run", "\x7b\"x\":"⟩⟩]⟩,
            ⟨"assistant", "", [⟨some 0, "", "", ⟨"", "1\x7d"⟩⟩]⟩], none⟩).frames ∧
        entryFrames (ToolMap.get (accumulate
          ⟨[⟨"assistant", "", [⟨some 0, "c1", "", ⟨"run", "\x7b\"x\":"⟩⟩]⟩,
            ⟨"assistant", "", [⟨some 0, "", "", ⟨"", "1\x7d"⟩⟩]⟩], none⟩) 0) = [f, g] ∧
        f.event = "tool_call_start" ∧ g.event = "tool_call_end" ∧ g.data = f.data ∧
        f.field "name" = some (.str "run") ∧ f.field "args" = some (.str "\x7b\"x\":1\x7d")) ∧
    (¬ (Agree (rolesOf 0 [⟨"assistant", "", [⟨some 0, "a", "", ⟨"run", "x"⟩⟩]⟩,
          ⟨"assistant", "", [⟨some 0, "b", "", ⟨"", "y"⟩⟩]⟩]) ∧
        Agree ((deltasOf 0 [⟨"assistant", "", [⟨some 0, "a", "", ⟨"run", "x"⟩⟩]⟩,
          ⟨"assistant", "", [⟨some 0, "b", "", ⟨"", "y"⟩⟩]⟩]).map (fun d => d.ID)) ∧
        Agree ((deltasOf 0 [⟨"assistant", "", [⟨some 0, "a", "", ⟨"run", "x"⟩⟩]⟩,
          ⟨"assistant", "", [⟨some 0, "b", "", ⟨"", "y"⟩⟩]⟩]).map (fun d => d.Typ)) ∧
        Agree ((deltasOf 0 [⟨"assistant", "", [⟨some 0, "a", "", ⟨"run", "x"⟩⟩]⟩,
          ⟨"assistant", "", [⟨some 0, "b", "", ⟨"", "y"⟩⟩]⟩]).map (fun d => d.Function.Name)))) ∧
    (∃ e, ConcatMessages (ToolMap.get (accumulate
          ⟨[⟨"assistant", "", [⟨some 0, "a", "", ⟨"run", "x"⟩⟩]⟩,
            ⟨"assistant", "", [⟨some 0, "b", "", ⟨"", "y"⟩⟩]⟩], none⟩) 0) = .error e ∧
      entryFrames (ToolMap.get (accumulate
          ⟨[⟨"assistant", "", [⟨some 0, "a", "", ⟨"run", "x"⟩⟩]⟩,
            ⟨"assistant", "", [⟨some 0, "b", "", ⟨"", "y"⟩⟩]⟩], none⟩) 0) = [⟨"error", .text e⟩] ∧
      [(⟨"error", .text e⟩ : Frame)] <:+: (resolveFrames (RangeOrder.inserted _)
          ⟨[⟨"assistant", "", [⟨some 0, "a", "", ⟨"run", "x"⟩⟩]⟩,
            ⟨"assistant", "", [⟨some 0, "b", "", ⟨"", "y"⟩⟩]⟩], none⟩).frames) :=
  ⟨by decide,
    (resolved_calls_match_deltas (RangeOrder.inserted _)
      ⟨[⟨"assistant", "", [⟨some 0, "c1", "", ⟨"run", "\x7b\"x\":"⟩⟩]⟩,
        ⟨"assistant", "", [⟨some 0, "", "", ⟨"", "1\x7d"⟩⟩]⟩], none⟩).1 0
      (by decide) (by decide) (by decide) (by decide) (by decide),
    by decide,
    (resolved_calls_match_deltas (RangeOrder.inserted _)
      ⟨[⟨"assistant", "", [⟨some 0, "a", "", ⟨"run", "x"⟩⟩]⟩,
        ⟨"assistant", "", [⟨some 0, "b", "", ⟨"", "y"⟩⟩]⟩], none⟩).2.2.1 0
      (by decide) (by decide)⟩

/-! ## Endpoint A: the order of the resolved tool calls -/

theorem accumulate_eq_map_keys (s : MessageStream) :
    (ToolMap.keys (accumulate s)).map (fun k => (k, ToolMap.get (accumulate s) k)) =
      accumulate s := by
  unfold ToolMap.keys
  rw [List.map_map]
  conv_rhs => rw [← List.map_id (accumulate s)]
  apply List.map_congr_left
  intro e he
  simp only [Function.comp, id]
  rw [ToolMap.get_of_mem _ (accumulate_keys s).1 e he]

/-- C2, as stated, fails: with a delta of index 1 arriving before a delta of
index 0 and the `range` visiting the map in insertion order, the pair of
index 1 is written before the pair of index 0. -/
theorem index_order_counterexample :
    (resolveFrames (RangeOrder.inserted _)
      ⟨[⟨"assistant", "", [⟨some 1, "b", "", ⟨"second", "B"⟩⟩, ⟨some 0, "a", "", ⟨"first", "A"⟩⟩]⟩],
        none⟩).frames =
      [⟨"tool_call_start", .object [("name", .str "second"), ("args", .str "B")]⟩,
        ⟨"tool_call_end", .object [("name", .str "second"), ("args", .str "B")]⟩,
        ⟨"tool_call_start", .object [("name", .str "first"), ("args", .str "A")]⟩,
        ⟨"tool_call_end", .object [("name", .str "first"), ("args", .str "A")]⟩] ∧
    ((RangeOrder.inserted _).pick (accumulate
      ⟨[⟨"assistant", "", [⟨some 1, "b", "", ⟨"second", "B"⟩⟩, ⟨some 0, "a", "", ⟨"first", "A"⟩⟩]⟩],
        none⟩)).map Prod.fst = [1, 0] := by
  decide

/-- C2, amended. After the chunk stream has ended the frames written are the
frames of the distinct fragment indices, each index once, taken in the order
in which the `range` visits the accumulator, which is a permutation of the
distinct indices (not sorted by the code, so not always increasing); the
frames of an index are its `tool_call_start`, `tool_call_end` pair when its
deltas do not conflict and one `error` frame when they do. -/
theorem resolved_pairs_follow_range_order (ro : RangeOrder (Int × List Message))
    (s : MessageStream) :
    ((ro.pick (accumulate s)).map Prod.fst).Perm (indicesOf s.chunks) ∧
    (indicesOf s.chunks).Nodup ∧
    resolveFrames ro s =
      ⟨((ro.pick (accumulate s)).map Prod.fst).flatMap
        (fun idx => entryFrames (ToolMap.get (accumulate s) idx)), false⟩ ∧
    (∀ idx ∈ indicesOf s.chunks,
      ((Agree (rolesOf idx s.chunks) ∧ Agree ((deltasOf idx s.chunks).map (fun d => d.ID)) ∧
          Agree ((deltasOf idx s.chunks).map (fun d => d.Typ)) ∧
          Agree ((deltasOf idx s.chunks).map (fun d => d.Function.Name))) →
        entryFrames (ToolMap.get (accumulate s) idx) =
          [⟨"tool_call_start", resolvedPayload (specResolvedCall idx (deltasOf idx s.chunks))⟩,
            ⟨"tool_call_end", resolvedPayload (specResolvedCall idx (deltasOf idx s.chunks))⟩]) ∧
      (¬ (Agree (rolesOf idx s.chunks) ∧ Agree ((deltasOf idx s.chunks).map (fun d => d.ID)) ∧
          Agree ((deltasOf idx s.chunks).map (fun d => d.Typ)) ∧
          Agree ((deltasOf idx s.chunks).map (fun d => d.Function.Name))) →
        ∃ e, entryFrames (ToolMap.get (accumulate s) idx) = [⟨"error", .text e⟩])) := by
  refine ⟨?_, List.nodup_dedup _, resolveFrames_eq ro s, ?_⟩
  · exact ((ro.perm (accumulate s)).map Prod.fst).trans (accumulate_keys_perm s)
  · intro idx hidx
    have hne : deltasOf idx s.chunks ≠ [] := (mem_indicesOf idx s.chunks).mp hidx
    constructor
    · intro hag
      exact ((entryFrames_of_index s idx hne).1 hag).2
    · intro hconf
      obtain ⟨e, _, he⟩ := (entryFrames_of_index s idx hne).2 hconf
      exact ⟨e, he⟩

theorem resolved_pairs_follow_range_order_witness :
    (1 : Int) ∈ indicesOf
      [⟨"assistant", "", [⟨some 1, "b", "", ⟨"second", "B"⟩⟩, ⟨some 0, "a", "", ⟨"first", "A"⟩⟩]⟩] ∧
    entryFrames (ToolMap.get (accumulate
        ⟨[⟨"assistant", "", [⟨some 1, "b", "", ⟨"second", "B"⟩⟩,
          ⟨some 0, "a", "", ⟨"first", "A"⟩⟩]⟩], none⟩) 1) =
      [⟨"tool_call_start", .object [("name", .str "second"), ("args", .str "B")]⟩,
        ⟨"tool_call_end", .object [("name", .str "second"), ("args", .str "B")]⟩] ∧
    ((RangeOrder.reversed _).pick (accumulate
        ⟨[⟨"assistant", "", [⟨some 1, "b", "", ⟨"second", "B"⟩⟩,
          ⟨some 0, "a", "", ⟨"first", "A"⟩⟩]⟩], none⟩)).map Prod.fst = [0, 1] ∧
    (resolveFrames (RangeOrder.reversed _)
        ⟨[⟨"assistant", "", [⟨some 1, "b", "", ⟨"second", "B"⟩⟩,
          ⟨some 0, "a", "", ⟨"first", "A"⟩⟩]⟩], none⟩).frames =
      [⟨"tool_call_start", .object [("name", .str "first"), ("args", .str "A")]⟩,
        ⟨"tool_call_end", .object [("name", .str "first"), ("args", .str "A")]⟩,
        ⟨"tool_call_start", .object [("name", .str "second"), ("args", .str "B")]⟩,
        ⟨"tool_call_end", .object [("name", .str "second"), ("args", .str "B")]⟩] :=
  ⟨by decide,
    ((resolved_pairs_follow_range_order (RangeOrder.reversed _)
      ⟨[⟨"assistant", "", [⟨some 1, "b", "", ⟨"second", "B"⟩⟩,
        ⟨some 0, "a", "", ⟨"first", "A"⟩⟩]⟩], none⟩).2.2.2 1 (by decide)).1 (by decide),
    by decide,
    by
      rw [(resolved_pairs_follow_range_order (RangeOrder.reversed _)
        ⟨[⟨"assistant", "", [⟨some 1, "b", "", ⟨"second", "B"⟩⟩,
          ⟨some 0, "a", "", ⟨"first", "A"⟩⟩]⟩], none⟩).2.2.1]
      decide⟩

/-! ## The outer stream -/

theorem streamMessage_not_panicked (ro : RangeOrder (Int × List Message)) (s : MessageStream) :
    (streamMessage ro s).panicked = false := by
  simp [streamMessage, resolveFrames_eq]

theorem outputFrames_not_panicked (ro : RangeOrder (Int × List Message)) (e : AgentEvent) :
    (outputFrames ro e).panicked = false := by
  unfold outputFrames
  split
  · rfl
  · split
    · rfl
    · split
      · rfl
      · split
        · exact streamMessage_not_panicked _ _
        · rfl

theorem stepA_eq (ro : RangeOrder (Int × List Message)) (e : AgentEvent) :
    stepA ro e = ⟨(outputFrames ro e).frames ++ actionFrames e.Action ++ errFrames e.Err, false⟩ := by
  simp [stepA, outputFrames_not_panicked]

theorem pumpA_cons (ro : Nat → RangeOrder (Int × List Message)) (n : Nat) (e : AgentEvent)
    (rest : List AgentEvent) :
    pumpA ro n (e :: rest) =
      ⟨(stepA (ro n) e).frames ++ (pumpA ro (n + 1) rest).frames, (pumpA ro (n + 1) rest).panicked⟩ := by
  simp [pumpA, stepA_eq]

theorem pumpA_not_panicked (ro : Nat → RangeOrder (Int × List Message)) (events : List AgentEvent) :
    ∀ n, (pumpA ro n events).panicked = false := by
  induction events with
  | nil => intro n; rfl
  | cons e rest ih => intro n; rw [pumpA_cons]; exact ih _

theorem pumpA_append (ro : Nat → RangeOrder (Int × List Message)) (pre post : List AgentEvent) :
    ∀ n, (pumpA ro n (pre ++ post)).frames =
      (pumpA ro n pre).frames ++ (pumpA ro (n + pre.length) post).frames := by
  induction pre with
  | nil => intro n; simp [pumpA]
  | cons e rest ih =>
    intro n
    have hn : n + 1 + rest.length = n + (rest.length + 1) := by omega
    rw [List.cons_append, pumpA_cons, pumpA_cons, ih, List.length_cons, hn, List.append_assoc]

theorem streamA_eq_pumpA (ro : Nat → RangeOrder (Int × List Message)) (events : List AgentEvent) :
    ∀ n, streamA ro n events = pumpA ro n events := by
  induction events with
  | nil => intro n; rfl
  | cons e rest ih =>
    intro n
    simp [streamA, callbackA, pumpA, ih]

theorem streamB_eq_pumpB (env : EnvB) (threadID : String) (events : List AgentEvent) :
    ∀ st, streamB env threadID events st = pumpB env threadID events st := by
  induction events with
  | nil => intro st; rfl
  | cons e rest ih =>
    intro st
    simp [streamB, callbackB, pumpB, ih]

theorem pumpB_eq_runB (env : EnvB) (threadID : String) (events : List AgentEvent) :
    ∀ st, pumpB env threadID events st =
      (runB env threadID events st).1 ++ pumpB env threadID [] (runB env threadID events st).2 := by
  induction events with
  | nil => intro st; simp [runB]
  | cons e rest ih =>
    intro st
    show (stepB env threadID e st).1 ++ pumpB env threadID rest (stepB env threadID e st).2 = _
    rw [ih]
    simp only [runB, List.append_assoc]

theorem runB_append (env : EnvB) (threadID : String) (pre post : List AgentEvent) :
    ∀ st, runB env threadID (pre ++ post) st =
      ((runB env threadID pre st).1 ++ (runB env threadID post (runB env threadID pre st).2).1,
        (runB env threadID post (runB env threadID pre st).2).2) := by
  induction pre with
  | nil => intro st; simp [runB]
  | cons e rest ih =>
    intro st
    rw [List.cons_append]
    simp only [runB]
    rw [ih]
    simp only [List.append_assoc]

theorem pumpB_append (env : EnvB) (threadID : String) (pre post : List AgentEvent) (st : IdState) :
    pumpB env threadID (pre ++ post) st =
      (runB env threadID pre st).1 ++ pumpB env threadID post (runB env threadID pre st).2 := by
  rw [pumpB_eq_runB, runB_append, pumpB_eq_runB env threadID post]
  simp only [List.append_assoc]

/-- C11. On both endpoints the step given to `c.Stream` returns `true` for
every event, whatever it holds, and `false` only when the iterator is
exhausted; so the response to a list of events is made of the frames of the
events before any given event, the frames of that event, and the frames of
all the events after it, and an event carrying an error adds a frame with the
error text without ending the stream. -/
theorem error_event_does_not_stop_stream (ro : Nat → RangeOrder (Int × List Message))
    (env : EnvB) (threadID : String) :
    (∀ r e, (callbackA r (some e)).2 = true ∧ (callbackA r none).2 = false) ∧
    (∀ e st, (callbackB env threadID (some e) st).2 = true ∧
      (callbackB env threadID none st).2 = false) ∧
    (∀ n events, streamA ro n events = pumpA ro n events) ∧
    (∀ events st, streamB env threadID events st = pumpB env threadID events st) ∧
    (∀ n pre e post,
      pumpA ro n (pre ++ e :: post) =
        ⟨(pumpA ro n pre).frames ++ (stepA (ro (n + pre.length)) e).frames ++
          (pumpA ro (n + pre.length + 1) post).frames, false⟩) ∧
    (∀ pre e post st,
      pumpB env threadID (pre ++ e :: post) st =
        (runB env threadID pre st).1 ++ (stepB env threadID e (runB env threadID pre st).2).1 ++
          pumpB env threadID post (stepB env threadID e (runB env threadID pre st).2).2) ∧
    (∀ r e msg, e.Err = some msg → (⟨"error", .text msg⟩ : Frame) ∈ (stepA r e).frames) ∧
    (∀ e msg st, e.Err = some msg → ∃ f ∈ (stepB env threadID e st).1,
      f.event = "message_chunk" ∧ f.field "content" = some (.str msg)) := by
  refine ⟨fun r e => ⟨rfl, rfl⟩, fun e st => ⟨rfl, rfl⟩, fun n events => streamA_eq_pumpA ro events n,
    fun events st => streamB_eq_pumpB env threadID events st, ?_, ?_, ?_, ?_⟩
  · intro n pre e post
    have h1 := pumpA_append ro pre (e :: post) n
    have h2 := pumpA_not_panicked ro (pre ++ e :: post) n
    rw [pumpA_cons] at h1
    have : pumpA ro n (pre ++ e :: post) =
        ⟨(pumpA ro n (pre ++ e :: post)).frames, (pumpA ro n (pre ++ e :: post)).panicked⟩ := rfl
    rw [this, h1, h2, List.append_assoc]
  · intro pre e post st
    rw [pumpB_append]
    simp only [pumpB, List.append_assoc]
  · intro r e msg h
    rw [stepA_eq]
    simp [errFrames, h]
  · intro e msg st h
    refine ⟨⟨"message_chunk", .object (baseFields (getMsgID env.clock (agentOf e) st).1 threadID
      (agentOf e) "assistant" ++ [("content", .str msg)])⟩, ?_, rfl, ?_⟩
    · simp [stepB, errFramesB, h]
    · simp [Frame.field, baseFields, List.find?]

theorem error_event_does_not_stop_stream_witness :
    (⟨"coder", none, none, some "model call failed"⟩ : AgentEvent).Err = some "model call failed" ∧
    (⟨"error", .text "model call failed"⟩ : Frame) ∈
      (stepA (RangeOrder.inserted _) ⟨"coder", none, none, some "model call failed"⟩).frames ∧
    (pumpA (fun _ => RangeOrder.inserted _) 0
      ([] ++ (⟨"coder", none, none, some "model call failed"⟩ : AgentEvent) ::
        [⟨"reporter", some ⟨some ⟨some ⟨"assistant", "done", []⟩, none⟩⟩, none, none⟩])).frames =
      [⟨"error", .text "model call failed"⟩, ⟨"message", .text "done"⟩] :=
  ⟨rfl,
    (error_event_does_not_stop_stream (fun _ => RangeOrder.inserted _)
      ⟨"k", "", fun _ => 0, fun _ => true⟩ "t").2.2.2.2.2.2.1 (RangeOrder.inserted _)
      ⟨"coder", none, none, some "model call failed"⟩ "model call failed" rfl,
    by
      rw [((error_event_does_not_stop_stream (fun _ => RangeOrder.inserted _)
        ⟨"k", "", fun _ => 0, fun _ => true⟩ "t").2.2.2.2.1 0 []
        ⟨"coder", none, none, some "model call failed"⟩
        [⟨"reporter", some ⟨some ⟨some ⟨"assistant", "done", []⟩, none⟩⟩, none, none⟩])]
      decide⟩

/-! ## Endpoint A: event names -/

theorem completeToolCalls_events (calls : List ToolCall) :
    ∀ f ∈ completeToolCalls calls, f.event = "tool_call_start" ∨ f.event = "tool_call_end" := by
  induction calls with
  | nil => intro f hf; simp [completeToolCalls] at hf
  | cons tc rest ih =>
    intro f hf
    simp only [completeToolCalls, List.mem_cons] at hf
    rcases hf with hf | hf | hf
    · left; rw [hf]
    · right; rw [hf]
    · exact ih f hf

theorem completeMessage_events (m : Message) :
    ∀ f ∈ completeMessage m,
      f.event = "message" ∨ f.event = "tool_call_start" ∨ f.event = "tool_call_end" := by
  intro f hf
  simp only [completeMessage, List.mem_append] at hf
  rcases hf with hf | hf
  · split at hf
    · simp only [List.mem_singleton] at hf
      left; rw [hf]
    · simp at hf
  · split at hf
    · exact Or.inr (completeToolCalls_events _ f hf)
    · simp at hf

theorem actionFrames_events (a : Option AgentAction) :
    ∀ f ∈ actionFrames a,
      f.event = "transfer_to_agent" ∨ f.event = "interrupt_options" ∨ f.event = "exit" := by
  intro f hf
  unfold actionFrames at hf
  split at hf
  · simp at hf
  · simp only [List.mem_append] at hf
    rcases hf with (hf | hf) | hf
    · split at hf
      · simp only [List.mem_singleton] at hf
        left; rw [hf]
      · simp at hf
    · split at hf
      · simp only [List.mem_singleton] at hf
        right; left; rw [hf]
      · simp at hf
    · split at hf
      · simp only [List.mem_singleton] at hf
        right; right; rw [hf]
      · simp at hf

theorem errFrames_events (e : Option String) : ∀ f ∈ errFrames e, f.event = "error" := by
  intro f hf
  unfold errFrames at hf
  split at hf
  · simp at hf
  · simp only [List.mem_singleton] at hf
    rw [hf]

theorem recvEnd_events (e : Option String) : ∀ f ∈ recvEnd e, f.event = "error" := by
  intro f hf
  unfold recvEnd at hf
  split at hf
  · simp at hf
  · simp only [List.mem_singleton] at hf
    rw [hf]

theorem recvLoop_tool_result (chunks : List Message) :
    ∀ (tm : ToolMap), ∀ f ∈ (recvLoop chunks tm).1, f.event = "tool_result" →
      ∃ chunk ∈ chunks, chunk.Role = schema.Tool ∧ chunk.Content ≠ "" ∧
        f.data = .text chunk.Content := by
  induction chunks with
  | nil => intro tm f hf; simp [recvLoop] at hf
  | cons chunk rest ih =>
    intro tm f hf hev
    simp only [recvLoop, List.mem_append] at hf
    rcases hf with (hf | hf) | hf
    · unfold chunkText at hf
      split at hf
      · rename_i hc
        simp only [List.mem_cons] at hf
        rcases hf with hf | hf
        · rw [hf] at hev; simp at hev
        · split at hf
          · rename_i hr
            simp only [List.mem_singleton] at hf
            exact ⟨chunk, List.mem_cons_self _ _, hr, hc, by rw [hf]⟩
          · simp at hf
      · simp at hf
    · split at hf
      · have := deltaLoop_events _ _ _ f hf
        rw [this] at hev; simp at hev
      · simp at hf
    · obtain ⟨c, hc, h⟩ := ih _ f hf hev
      exact ⟨c, List.mem_cons_of_mem _ hc, h⟩

theorem stepA_frames_cases (ro : RangeOrder (Int × List Message)) (e : AgentEvent) :
    ∀ f ∈ (stepA ro e).frames,
      f.event ∈ eventNamesA ∨
      (f.event = "tool_result" ∧
        ∃ o mv s chunk, e.Output = some o ∧ o.MessageOutput = some mv ∧ mv.Message = none ∧
          mv.MessageStream = some s ∧ chunk ∈ s.chunks ∧ chunk.Role = schema.Tool ∧
          chunk.Content ≠ "" ∧ f.data = .text chunk.Content) := by
  intro f hf
  rw [stepA_eq] at hf
  simp only [List.mem_append] at hf
  rcases hf with (hf | hf) | hf
  · unfold outputFrames at hf
    split at hf
    · simp at hf
    · rename_i o ho
      split at hf
      · simp at hf
      · rename_i mv hmv
        split at hf
        · left
          rcases completeMessage_events _ f hf with h | h | h <;> rw [h] <;> decide
        · rename_i hm
          split at hf
          · rename_i s hs
            simp only [streamMessage, drainFrames, List.mem_append] at hf
            rcases hf with (hf | hf) | hf
            · rcases recvLoop_events _ _ f hf with h | h | h
              · left; rw [h]; decide
              · right
                obtain ⟨chunk, hc, hr, hne, hd⟩ := recvLoop_tool_result _ _ f hf h
                exact ⟨h, o, mv, s, chunk, ho, hmv, hm, hs, hc, hr, hne, hd⟩
              · left; rw [h]; decide
            · left; rw [recvEnd_events _ f hf]; decide
            · left
              rcases resolveLoop_events _ f hf with h | h | h <;> rw [h] <;> decide
          · simp at hf
  · left
    rcases actionFrames_events _ f hf with h | h | h <;> rw [h] <;> decide
  · left; rw [errFrames_events _ f hf]; decide

theorem pumpA_frames_mem (ro : Nat → RangeOrder (Int × List Message)) (events : List AgentEvent) :
    ∀ n, ∀ f ∈ (pumpA ro n events).frames, ∃ k, ∃ e ∈ events, f ∈ (stepA (ro k) e).frames := by
  induction events with
  | nil => intro n f hf; simp [pumpA] at hf
  | cons e rest ih =>
    intro n f hf
    rw [pumpA_cons] at hf
    simp only [List.mem_append] at hf
    rcases hf with hf | hf
    · exact ⟨n, e, List.mem_cons_self _ _, hf⟩
    · obtain ⟨k, e2, he2, h⟩ := ih _ f hf
      exact ⟨k, e2, List.mem_cons_of_mem _ he2, h⟩

/-- C12, as stated, fails: a streamed chunk with role `tool` and content "42"
makes endpoint A write a `tool_result` frame, a name outside the list. -/
theorem tool_result_frame_counterexample :
    (pumpA (fun _ => RangeOrder.inserted _) 0
      [⟨"researcher", some ⟨some ⟨none, some ⟨[⟨"tool", "42", []⟩], none⟩⟩⟩, none, none⟩]).frames =
      [⟨"message", .text "42"⟩, ⟨"tool_result", .text "42"⟩] ∧
    "tool_result" ∉ eventNamesA := by
  decide

/-- C12, amended. Every frame endpoint A writes for a list of events has an
event name among `message`, `tool_call_start`, `tool_call_end`,
`tool_call_delta`, `transfer_to_agent`, `interrupt_options`, `exit`, `error`
and `tool_result`; a `tool_result` frame is only written for a chunk of a
streamed message whose role is `tool` and whose content is not empty, and it
repeats that content. -/
theorem frame_names_endpointA (ro : Nat → RangeOrder (Int × List Message)) (n : Nat)
    (events : List AgentEvent) :
    (∀ f ∈ (pumpA ro n events).frames, f.event ∈ eventNamesA ++ ["tool_result"]) ∧
    (∀ f ∈ (pumpA ro n events).frames, f.event = "tool_result" →
      ∃ e ∈ events, ∃ o mv s chunk, e.Output = some o ∧ o.MessageOutput = some mv ∧
        mv.Message = none ∧ mv.MessageStream = some s ∧ chunk ∈ s.chunks ∧
        chunk.Role = schema.Tool ∧ chunk.Content ≠ "" ∧ f.data = .text chunk.Content) ∧
    (∀ body agents f, Effect.sse f ∈ handlerA ro body agents →
      f.event ∈ eventNamesA ++ ["tool_result"]) := by
  have hall : ∀ (m : Nat) (evs : List AgentEvent), ∀ f ∈ (pumpA ro m evs).frames,
      f.event ∈ eventNamesA ++ ["tool_result"] := by
    intro m evs f hf
    obtain ⟨k, e, _, hfe⟩ := pumpA_frames_mem ro evs m f hf
    rcases stepA_frames_cases (ro k) e f hfe with h | ⟨h, _⟩
    · exact List.mem_append_left _ h
    · rw [h]; decide
  refine ⟨hall n events, ?_, ?_⟩
  · intro f hf hev
    obtain ⟨k, e, he, hfe⟩ := pumpA_frames_mem ro events n f hf
    rcases stepA_frames_cases (ro k) e f hfe with h | ⟨_, h⟩
    · rw [hev] at h
      exact absurd h (by decide)
    · exact ⟨e, he, h⟩
  · intro body agents f hf
    cases body with
    | error e => simp [handlerA] at hf
    | ok msgs =>
      by_cases hq : selectQuery msgs = ""
      · simp [handlerA, hq] at hf
      · cases agents with
        | error e => simp [handlerA, hq] at hf
        | ok sv =>
          simp only [handlerA, hq, if_false, List.mem_cons, Written.effects, List.mem_append,
            List.mem_map, Effect.sse.injEq, exists_eq_right] at hf
          rcases hf with hf | hf | hf
          · exact absurd hf (by simp)
          · exact hall _ _ f hf
          · split at hf <;> simp at hf

theorem frame_names_endpointA_witness :
    (∀ f ∈ (pumpA (fun _ => RangeOrder.inserted _) 0
      [⟨"researcher", some ⟨some ⟨none, some ⟨[⟨"tool", "42", []⟩], none⟩⟩⟩, none, none⟩,
        ⟨"coordinator", none, some ⟨none, none, true⟩, none⟩]).frames,
      f.event ∈ eventNamesA ++ ["tool_result"]) ∧
    (pumpA (fun _ => RangeOrder.inserted _) 0
      [⟨"researcher", some ⟨some ⟨none, some ⟨[⟨"tool", "42", []⟩], none⟩⟩⟩, none, none⟩,
        ⟨"coordinator", none, some ⟨none, none, true⟩, none⟩]).frames.map (fun f => f.event) =
      ["message", "tool_result", "exit"] :=
  ⟨(frame_names_endpointA (fun _ => RangeOrder.inserted _) 0
      [⟨"researcher", some ⟨some ⟨none, some ⟨[⟨"tool", "42", []⟩], none⟩⟩⟩, none, none⟩,
        ⟨"coordinator", none, some ⟨none, none, true⟩, none⟩]).1,
    by decide⟩

/-! ## Endpoint B: streamed tool-call deltas -/

theorem lookup_append_of_some (l l2 : List (String × String)) (b id : String)
    (h : l.lookup b = some id) : (l ++ l2).lookup b = some id := by
  induction l with
  | nil => simp at h
  | cons p rest ih =>
    obtain ⟨k, v⟩ := p
    simp only [List.cons_append, List.lookup_cons] at h ⊢
    split
    · rename_i hk
      simp only [hk] at h
      exact h
    · rename_i hk
      simp only [hk] at h
      exact ih h

theorem lookup_append_of_none (l : List (String × String)) (a id : String)
    (h : l.lookup a = none) : (l ++ [(a, id)]).lookup a = some id := by
  induction l with
  | nil => simp [List.lookup]
  | cons p rest ih =>
    obtain ⟨k, v⟩ := p
    simp only [List.cons_append, List.lookup_cons] at h ⊢
    split
    · rename_i hk
      simp only [hk] at h
      exact absurd h (by simp)
    · rename_i hk
      simp only [hk] at h
      exact ih h

theorem getMsgID_lookup (clock : Nat → Int) (a : String) (st : IdState) :
    (getMsgID clock a st).2.msgIDs.lookup a = some (getMsgID clock a st).1 := by
  unfold getMsgID
  cases h : st.msgIDs.lookup a with
  | some id => simpa using h
  | none => exact lookup_append_of_none _ _ _ h

theorem getMsgID_of_lookup (clock : Nat → Int) (a : String) (st : IdState) (id : String)
    (h : st.msgIDs.lookup a = some id) : getMsgID clock a st = (id, st) := by
  unfold getMsgID
  simp only [h]

theorem getMsgID_stable (clock : Nat → Int) (a : String) (st : IdState) (b id : String)
    (h : st.msgIDs.lookup b = some id) : (getMsgID clock a st).2.msgIDs.lookup b = some id := by
  unfold getMsgID
  cases h2 : st.msgIDs.lookup a with
  | some id2 => simpa using h
  | none => exact lookup_append_of_some _ _ _ _ h

theorem baseFields_field (ev id threadID agent role : String) (extra : List (String × JVal)) :
    (⟨ev, .object (baseFields id threadID agent role ++ extra)⟩ : Frame).field "id" =
      some (.str id) ∧
    (⟨ev, .object (baseFields id threadID agent role ++ extra)⟩ : Frame).field "agent" =
      some (.str agent) := by
  constructor <;> simp [Frame.field, baseFields, List.find?]

theorem recvLoopB_fields (id threadID : String) (e : AgentEvent) (chunks : List Message) :
    ∀ f ∈ recvLoopB id threadID e chunks,
      f.field "id" = some (.str id) ∧ f.field "agent" = some (.str (agentOf e)) := by
  induction chunks with
  | nil => intro f hf; simp [recvLoopB] at hf
  | cons c rest ih =>
    intro f hf
    simp only [recvLoopB, List.mem_append] at hf
    rcases hf with (hf | hf) | hf
    · split at hf
      · simp only [List.mem_singleton] at hf
        rw [hf]; exact baseFields_field _ _ _ _ _ _
      · simp at hf
    · split at hf
      · simp only [List.mem_singleton] at hf
        rw [hf]; exact baseFields_field _ _ _ _ _ _
      · simp at hf
    · exact ih f hf

theorem stepB_fields (env : EnvB) (threadID : String) (e : AgentEvent) (st : IdState) :
    ∀ f ∈ (stepB env threadID e st).1,
      f.field "id" = some (.str (getMsgID env.clock (agentOf e) st).1) ∧
      f.field "agent" = some (.str (agentOf e)) := by
  intro f hf
  simp only [stepB, List.mem_append] at hf
  rcases hf with (hf | hf) | hf
  · unfold outputFramesB at hf
    split at hf
    · simp at hf
    · split at hf
      · simp at hf
      · split at hf
        · simp only [completeMessageB, List.mem_cons] at hf
          rcases hf with hf | hf
          · rw [hf]; exact baseFields_field _ _ _ _ _ _
          · split at hf
            · simp only [List.mem_singleton] at hf
              rw [hf]; exact baseFields_field _ _ _ _ _ _
            · simp at hf
        · split at hf
          · simp only [streamMessageB, List.mem_append] at hf
            rcases hf with hf | hf
            · exact recvLoopB_fields _ _ _ _ f hf
            · split at hf
              · simp at hf
              · simp only [List.mem_singleton] at hf
                rw [hf]; exact baseFields_field _ _ _ _ _ _
          · simp at hf
  · unfold actionFramesB at hf
    split at hf
    · simp at hf
    · simp only [List.mem_append] at hf
      rcases hf with hf | hf
      · split at hf
        · simp only [List.mem_singleton] at hf
          rw [hf]; exact baseFields_field _ _ _ _ _ _
        · simp at hf
      · split at hf
        · simp only [List.mem_singleton] at hf
          rw [hf]; exact baseFields_field _ _ _ _ _ _
        · simp at hf
  · unfold errFramesB at hf
    split at hf
    · simp at hf
    · simp only [List.mem_singleton] at hf
      rw [hf]; exact baseFields_field _ _ _ _ _ _

theorem pumpB_ids (env : EnvB) (threadID : String) (events : List AgentEvent) :
    ∀ st : IdState, ∃ fin : IdState,
      (∀ b id, st.msgIDs.lookup b = some id → fin.msgIDs.lookup b = some id) ∧
      ∀ f ∈ pumpB env threadID events st, ∃ a id,
        f.field "agent" = some (.str a) ∧ f.field "id" = some (.str id) ∧
        fin.msgIDs.lookup a = some id := by
  induction events with
  | nil =>
    intro st
    refine ⟨(getMsgID env.clock "coordinator" st).2, fun b id h => getMsgID_stable _ _ _ _ _ h, ?_⟩
    intro f hf
    simp only [pumpB, List.mem_singleton] at hf
    refine ⟨"coordinator", (getMsgID env.clock "coordinator" st).1, ?_, ?_, getMsgID_lookup _ _ _⟩
    · rw [hf]; exact (baseFields_field _ _ _ _ _ _).2
    · rw [hf]; exact (baseFields_field _ _ _ _ _ _).1
  | cons e rest ih =>
    intro st
    obtain ⟨fin, hst, hfr⟩ := ih (stepB env threadID e st).2
    have hs2 : (stepB env threadID e st).2 = (getMsgID env.clock (agentOf e) st).2 := rfl
    refine ⟨fin, fun b id h => hst b id (by rw [hs2]; exact getMsgID_stable _ _ _ _ _ h), ?_⟩
    intro f hf
    simp only [pumpB, List.mem_append] at hf
    rcases hf with hf | hf
    · obtain ⟨h1, h2⟩ := stepB_fields env threadID e st f hf
      refine ⟨agentOf e, (getMsgID env.clock (agentOf e) st).1, h2, h1, ?_⟩
      apply hst
      rw [hs2]
      exact getMsgID_lookup _ _ _
    · exact hfr f hf

/-- C14. Within one response of endpoint B any two frames with the same
`agent` field carry the same `id`, whatever the clock returns: the id of an
agent is made when the agent is first met and looked up afterwards. The
frames of an event with an empty agent name, and the closing frame, carry the
agent "coordinator". -/
theorem endpointB_one_id_per_agent (env : EnvB) (threadID : String) (events : List AgentEvent)
    (st : IdState) :
    (∀ f ∈ pumpB env threadID events st, ∀ g ∈ pumpB env threadID events st,
      f.field "agent" = g.field "agent" → f.field "id" = g.field "id") ∧
    (∀ (e : AgentEvent) (s : IdState), e.AgentName = "" →
      ∀ f ∈ (stepB env threadID e s).1, f.field "agent" = some (.str "coordinator")) ∧
    (∀ s : IdState, ∀ f ∈ pumpB env threadID [] s, f.field "agent" = some (.str "coordinator")) ∧
    (∀ (a : String) (s : IdState),
      (getMsgID env.clock a (getMsgID env.clock a s).2).1 = (getMsgID env.clock a s).1) ∧
    (∀ body agents f g, Effect.sse f ∈ handlerB env body agents →
      Effect.sse g ∈ handlerB env body agents →
      f.field "agent" = g.field "agent" → f.field "id" = g.field "id") := by
  have hpump : ∀ (th : String) (evs : List AgentEvent) (s : IdState),
      ∀ f ∈ pumpB env th evs s, ∀ g ∈ pumpB env th evs s,
        f.field "agent" = g.field "agent" → f.field "id" = g.field "id" := by
    intro th evs s f hf g hg hag
    obtain ⟨fin, _, hfr⟩ := pumpB_ids env th evs s
    obtain ⟨a1, id1, ha1, hi1, hl1⟩ := hfr f hf
    obtain ⟨a2, id2, ha2, hi2, hl2⟩ := hfr g hg
    rw [ha1, ha2] at hag
    have ha : a1 = a2 := by simpa using hag
    subst ha
    rw [hl1] at hl2
    rw [hi1, hi2, Option.some.inj hl2]
  refine ⟨hpump threadID events st, ?_, ?_, ?_, ?_⟩
  · intro e s he f hf
    have := (stepB_fields env threadID e s f hf).2
    simpa [agentOf, he] using this
  · intro s f hf
    simp only [pumpB, List.mem_singleton] at hf
    rw [hf]; exact (baseFields_field _ _ _ _ _ _).2
  · intro a s
    rw [getMsgID_of_lookup _ _ _ _ (getMsgID_lookup env.clock a s)]
  · intro body agents f g hf hg hag
    cases body with
    | error e => simp [handlerB] at hf
    | ok req =>
      by_cases hq : selectQuery req.Messages = ""
      · simp [handlerB, hq] at hf
      · by_cases hk : env.OPENAI_API_KEY = "" ∧ env.ARK_API_KEY = ""
        · simp only [handlerB, hq, if_false, hk, and_self, if_true, List.mem_singleton,
            Effect.sse.injEq] at hf hg
          rw [hf, hg]
        · cases agents with
          | error e => simp [handlerB, hq, hk] at hf
          | ok sv =>
            simp only [handlerB, hq, if_false, hk, List.mem_cons, List.mem_map,
              Effect.sse.injEq, exists_eq_right] at hf hg
            rcases hf with hf | hf
            · exact absurd hf (by simp)
            · rcases hg with hg | hg
              · exact absurd hg (by simp)
              · exact hpump _ _ _ f hf g hg hag

theorem endpointB_one_id_per_agent_witness :
    (pumpB ⟨"k", "", fun n => 100 + n, fun _ => true⟩ "t1"
      [⟨"planner", some ⟨some ⟨some ⟨"assistant", "plan", []⟩, none⟩⟩, none, none⟩,
        ⟨"", some ⟨some ⟨some ⟨"assistant", "hi", []⟩, none⟩⟩, none, none⟩,
        ⟨"planner", some ⟨some ⟨some ⟨"assistant", "more", []⟩, none⟩⟩, none, none⟩]
      ⟨[], 0⟩).map (fun f => (f.field "agent", f.field "id")) =
      [(some (.str "planner"), some (.str "run-planner-100")),
        (some (.str "coordinator"), some (.str "run-coordinator-101")),
        (some (.str "planner"), some (.str "run-planner-100")),
        (some (.str "coordinator"), some (.str "run-coordinator-101"))] ∧
    (∀ f ∈ pumpB ⟨"k", "", fun n => 100 + n, fun _ => true⟩ "t1"
        [⟨"planner", some ⟨some ⟨some ⟨"assistant", "plan", []⟩, none⟩⟩, none, none⟩,
          ⟨"", some ⟨some ⟨some ⟨"assistant", "hi", []⟩, none⟩⟩, none, none⟩,
          ⟨"planner", some ⟨some ⟨some ⟨"assistant", "more", []⟩, none⟩⟩, none, none⟩] ⟨[], 0⟩,
      ∀ g ∈ pumpB ⟨"k", "", fun n => 100 + n, fun _ => true⟩ "t1"
        [⟨"planner", some ⟨some ⟨some ⟨"assistant", "plan", []⟩, none⟩⟩, none, none⟩,
          ⟨"", some ⟨some ⟨some ⟨"assistant", "hi", []⟩, none⟩⟩, none, none⟩,
          ⟨"planner", some ⟨some ⟨some ⟨"assistant", "more", []⟩, none⟩⟩, none, none⟩] ⟨[], 0⟩,
      f.field "agent" = g.field "agent" → f.field "id" = g.field "id") :=
  ⟨by decide,
    (endpointB_one_id_per_agent ⟨"k", "", fun n => 100 + n, fun _ => true⟩ "t1"
      [⟨"planner", some ⟨some ⟨some ⟨"assistant", "plan", []⟩, none⟩⟩, none, none⟩,
        ⟨"", some ⟨some ⟨some ⟨"assistant", "hi", []⟩, none⟩⟩, none, none⟩,
        ⟨"planner", some ⟨some ⟨some ⟨"assistant", "more", []⟩, none⟩⟩, none, none⟩] ⟨[], 0⟩).1⟩

/-! ## Agent construction -/

theorem newChatModelAgent_ok (env : BuildEnv) (cfg : ChatModelAgentConfig) (a : Agent)
    (h : newChatModelAgent env cfg = .ok a) : a = .chatModel cfg := by
  unfold newChatModelAgent at h
  split at h
  · simp at h
  · simpa using h.symm

theorem NewPlanner_ok (env : BuildEnv) (a : Agent) (h : NewPlanner env = .ok a) :
    ∃ p, env.globals.GlobalPrompts.lookup "planner" = some p ∧ a = .chatModel (plannerConfig p) := by
  unfold NewPlanner at h
  split at h
  · simp at h
  · rename_i p hp
    exact ⟨p, hp, newChatModelAgent_ok _ _ _ h⟩

theorem NewResearcher_ok (env : BuildEnv) (a : Agent) (h : NewResearcher env = .ok a) :
    ∃ p, env.globals.GlobalPrompts.lookup "researcher" = some p ∧
      a = .chatModel (researcherConfig p env.globals.GlobalResearchTools) := by
  unfold NewResearcher at h
  split at h
  · simp at h
  · rename_i p hp
    exact ⟨p, hp, newChatModelAgent_ok _ _ _ h⟩

theorem NewCoder_ok (env : BuildEnv) (a : Agent) (h : NewCoder env = .ok a) :
    ∃ p, env.globals.GlobalPrompts.lookup "coder" = some p ∧
      a = .chatModel (coderConfig p env.coderTime env.globals.GlobalCoderTools) := by
  unfold NewCoder at h
  split at h
  · simp at h
  · rename_i p hp
    exact ⟨p, hp, newChatModelAgent_ok _ _ _ h⟩

theorem NewReporter_ok (env : BuildEnv) (a : Agent) (h : NewReporter env = .ok a) :
    ∃ p, env.globals.GlobalPrompts.lookup "reporter" = some p ∧
      a = .chatModel (reporterConfig p) := by
  unfold NewReporter at h
  split at h
  · simp at h
  · rename_i p hp
    exact ⟨p, hp, newChatModelAgent_ok _ _ _ h⟩

theorem NewPodcastScriptWriter_ok (env : BuildEnv) (a : Agent)
    (h : NewPodcastScriptWriter env = .ok a) :
    ∃ p, env.globals.GlobalPrompts.lookup "podcast_script_writer" = some p ∧
      a = .chatModel (podcastWriterConfig p) := by
  unfold NewPodcastScriptWriter at h
  split at h
  · simp at h
  · rename_i p hp
    exact ⟨p, hp, newChatModelAgent_ok _ _ _ h⟩

theorem NewPPTComposer_ok (env : BuildEnv) (a : Agent) (h : NewPPTComposer env = .ok a) :
    ∃ p, env.globals.GlobalPrompts.lookup "ppt_composer" = some p ∧
      a = .chatModel (pptComposerConfig p) := by
  unfold NewPPTComposer at h
  split at h
  · simp at h
  · rename_i p hp
    exact ⟨p, hp, newChatModelAgent_ok _ _ _ h⟩

theorem NewCoordinator_ok (env : BuildEnv) (subAgents : List Agent) (sv : SupervisorAgent)
    (h : NewCoordinator env subAgents = .ok sv) :
    ∃ p, env.globals.GlobalPrompts.lookup "coordinator" = some p ∧
      sv = { Supervisor := .chatModel (coordinatorConfig p env.coordinatorTime env.MaxStepNum),
             SubAgents := subAgents } := by
  unfold NewCoordinator at h
  split at h
  · simp at h
  · rename_i p hp
    refine ⟨p, hp, ?_⟩
    cases hn : newChatModelAgent env (coordinatorConfig p env.coordinatorTime env.MaxStepNum) with
    | error e => simp [hn] at h
    | ok a =>
      have ha := newChatModelAgent_ok _ _ _ hn
      simp only [hn] at h
      split at h
      · simp at h
      · simp only [Except.ok.injEq] at h
        rw [← h, ha]

/-- When `createAgents` succeeds every constructor has succeeded, and the
supervisor is made of their agents in the order of main.go:76-84. -/
theorem createAgents_ok (env : BuildEnv) (sv : SupervisorAgent) (h : createAgents env = .ok sv) :
    ∃ planner researcher coder reporter podcastWriter pptComposer,
      NewPlanner env = .ok planner ∧ NewResearcher env = .ok researcher ∧
      NewCoder env = .ok coder ∧ NewReporter env = .ok reporter ∧
      NewPodcastScriptWriter env = .ok podcastWriter ∧ NewPPTComposer env = .ok pptComposer ∧
      NewCoordinator env
        [planner, researcher, coder, reporter, podcastWriter, pptComposer, .investigator] =
          .ok sv := by
  unfold createAgents at h
  simp only [NewInvestigator] at h
  cases h1 : NewPlanner env with
  | error e => simp [h1] at h
  | ok planner =>
    cases h2 : NewResearcher env with
    | error e => simp [h1, h2] at h
    | ok researcher =>
      cases h3 : NewCoder env with
      | error e => simp [h1, h2, h3] at h
      | ok coder =>
        cases h4 : NewReporter env with
        | error e => simp [h1, h2, h3, h4] at h
        | ok reporter =>
          cases h5 : NewPodcastScriptWriter env with
          | error e => simp [h1, h2, h3, h4, h5] at h
          | ok podcastWriter =>
            cases h6 : NewPPTComposer env with
            | error e => simp [h1, h2, h3, h4, h5, h6] at h
            | ok pptComposer =>
              simp only [h1, h2, h3, h4, h5, h6] at h
              cases h7 : NewCoordinator env
                  [planner, researcher, coder, reporter, podcastWriter, pptComposer,
                    .investigator] with
              | error e => simp [h7] at h
              | ok sv2 =>
                simp only [h7, Except.ok.injEq] at h
                exact ⟨planner, researcher, coder, reporter, podcastWriter, pptComposer,
                  rfl, rfl, rfl, rfl, rfl, rfl, by rw [h7, h]⟩

theorem createAgents_error_of (env : BuildEnv)
    (h : ∀ sv, createAgents env ≠ .ok sv) : ∃ e, createAgents env = .error e := by
  cases hc : createAgents env with
  | error e => exact ⟨e, rfl⟩
  | ok sv => exact absurd hc (h sv)

/-- C15. Each of the seven model-backed constructors returns the error
"<key> prompt not found", and no agent, when its prompt key is absent from
the prompt table, and `createAgents` then returns an error and no
supervisor. -/
theorem missing_prompt_fails_construction (env : BuildEnv) (subAgents : List Agent) :
    (env.globals.GlobalPrompts.lookup "planner" = none →
      NewPlanner env = .error "planner prompt not found" ∧ ∃ e, createAgents env = .error e) ∧
    (env.globals.GlobalPrompts.lookup "researcher" = none →
      NewResearcher env = .error "researcher prompt not found" ∧
        ∃ e, createAgents env = .error e) ∧
    (env.globals.GlobalPrompts.lookup "coder" = none →
      NewCoder env = .error "coder prompt not found" ∧ ∃ e, createAgents env = .error e) ∧
    (env.globals.GlobalPrompts.lookup "reporter" = none →
      NewReporter env = .error "reporter prompt not found" ∧ ∃ e, createAgents env = .error e) ∧
    (env.globals.GlobalPrompts.lookup "podcast_script_writer" = none →
      NewPodcastScriptWriter env = .error "podcast_script_writer prompt not found" ∧
        ∃ e, createAgents env = .error e) ∧
    (env.globals.GlobalPrompts.lookup "ppt_composer" = none →
      NewPPTComposer env = .error "ppt_composer prompt not found" ∧
        ∃ e, createAgents env = .error e) ∧
    (env.globals.GlobalPrompts.lookup "coordinator" = none →
      NewCoordinator env subAgents = .error "coordinator prompt not found" ∧
        ∃ e, createAgents env = .error e) := by
  refine ⟨?_, ?_, ?_, ?_, ?_, ?_, ?_⟩
  · intro hk
    have hc : NewPlanner env = .error "planner prompt not found" := by simp [NewPlanner, hk]
    refine ⟨hc, createAgents_error_of env fun sv hsv => ?_⟩
    obtain ⟨a1, a2, a3, a4, a5, a6, h1, h2, h3, h4, h5, h6, h7⟩ := createAgents_ok env sv hsv
    rw [hc] at h1
    exact absurd h1 (by simp)
  · intro hk
    have hc : NewResearcher env = .error "researcher prompt not found" := by
      simp [NewResearcher, hk]
    refine ⟨hc, createAgents_error_of env fun sv hsv => ?_⟩
    obtain ⟨a1, a2, a3, a4, a5, a6, h1, h2, h3, h4, h5, h6, h7⟩ := createAgents_ok env sv hsv
    rw [hc] at h2
    exact absurd h2 (by simp)
  · intro hk
    have hc : NewCoder env = .error "coder prompt not found" := by simp [NewCoder, hk]
    refine ⟨hc, createAgents_error_of env fun sv hsv => ?_⟩
    obtain ⟨a1, a2, a3, a4, a5, a6, h1, h2, h3, h4, h5, h6, h7⟩ := createAgents_ok env sv hsv
    rw [hc] at h3
    exact absurd h3 (by simp)
  · intro hk
    have hc : NewReporter env = .error "reporter prompt not found" := by simp [NewReporter, hk]
    refine ⟨hc, createAgents_error_of env fun sv hsv => ?_⟩
    obtain ⟨a1, a2, a3, a4, a5, a6, h1, h2, h3, h4, h5, h6, h7⟩ := createAgents_ok env sv hsv
    rw [hc] at h4
    exact absurd h4 (by simp)
  · intro hk
    have hc : NewPodcastScriptWriter env = .error "podcast_script_writer prompt not found" := by
      simp [NewPodcastScriptWriter, hk]
    refine ⟨hc, createAgents_error_of env fun sv hsv => ?_⟩
    obtain ⟨a1, a2, a3, a4, a5, a6, h1, h2, h3, h4, h5, h6, h7⟩ := createAgents_ok env sv hsv
    rw [hc] at h5
    exact absurd h5 (by simp)
  · intro hk
    have hc : NewPPTComposer env = .error "ppt_composer prompt not found" := by
      simp [NewPPTComposer, hk]
    refine ⟨hc, createAgents_error_of env fun sv hsv => ?_⟩
    obtain ⟨a1, a2, a3, a4, a5, a6, h1, h2, h3, h4, h5, h6, h7⟩ := createAgents_ok env sv hsv
    rw [hc] at h6
    exact absurd h6 (by simp)
  · intro hk
    have hc : ∀ subs, NewCoordinator env subs = .error "coordinator prompt not found" := by
      intro subs; simp [NewCoordinator, hk]
    refine ⟨hc subAgents, createAgents_error_of env fun sv hsv => ?_⟩
    obtain ⟨a1, a2, a3, a4, a5, a6, h1, h2, h3, h4, h5, h6, h7⟩ := createAgents_ok env sv hsv
    rw [hc] at h7
    exact absurd h7 (by simp)

theorem missing_prompt_fails_construction_witness :
    (List.lookup "coder" [("planner", "P"), ("researcher", "R")] = none) ∧
    NewCoder ⟨⟨[("planner", "P"), ("researcher", "R")], [], []⟩, "t0", "t1", 3, fun _ => none,
      fun _ _ => none⟩ = .error "coder prompt not found" ∧
    ∃ e, createAgents ⟨⟨[("planner", "P"), ("researcher", "R")], [], []⟩, "t0", "t1", 3,
      fun _ => none, fun _ _ => none⟩ = .error e :=
  ⟨by decide,
    (missing_prompt_fails_construction
      ⟨⟨[("planner", "P"), ("researcher", "R")], [], []⟩, "t0", "t1", 3, fun _ => none,
        fun _ _ => none⟩ []).2.2.1 (by decide)⟩

/-! ## The delegates of the workflow text -/

set_option maxRecDepth 100000 in
theorem workflowHead_eq :
    workflowHead =
      workflowIntro ++ String.join (workflowDelegates.map delegateLine) ++ workflowSteps := by
  decide

/-- C17. When `createAgents` succeeds, the supervisor is the coordinator agent
whose instruction is the coordinator prompt (its time placeholder replaced)
followed by the workflow text: an introduction, one line
"- name: description" per delegate of `workflowDelegates`, and the steps. The
delegates the text enumerates are investigator, planner, researcher, coder,
reporter, podcast_writer and ppt_composer, and the names of the sub-agents
registered with the supervisor are exactly these names. -/
theorem workflow_delegates_are_registered (env : BuildEnv) (sv : SupervisorAgent)
    (h : createAgents env = .ok sv) :
    (∃ prompt cfg, env.globals.GlobalPrompts.lookup "coordinator" = some prompt ∧
      sv.Supervisor = .chatModel cfg ∧ cfg.Name = "coordinator" ∧
      cfg.Instruction = prompt.replace currentTimePlaceholder env.coordinatorTime ++
        (workflowIntro ++ String.join (workflowDelegates.map delegateLine) ++ workflowSteps ++
          toString env.MaxStepNum ++ workflowTail)) ∧
    workflowInstruction env.MaxStepNum =
      workflowIntro ++ String.join (workflowDelegates.map delegateLine) ++ workflowSteps ++
        toString env.MaxStepNum ++ workflowTail ∧
    workflowDelegates.map Prod.fst =
      ["investigator", "planner", "researcher", "coder", "reporter", "podcast_writer",
        "ppt_composer"] ∧
    sv.SubAgents.map Agent.Name =
      ["planner", "researcher", "coder", "reporter", "podcast_writer", "ppt_composer",
        "investigator"] ∧
    (sv.SubAgents.map Agent.Name).Perm (workflowDelegates.map Prod.fst) ∧
    (∀ name, name ∈ workflowDelegates.map Prod.fst ↔ ∃ a ∈ sv.SubAgents, a.Name = name) := by
  obtain ⟨a1, a2, a3, a4, a5, a6, h1, h2, h3, h4, h5, h6, h7⟩ := createAgents_ok env sv h
  obtain ⟨p1, _, e1⟩ := NewPlanner_ok env a1 h1
  obtain ⟨p2, _, e2⟩ := NewResearcher_ok env a2 h2
  obtain ⟨p3, _, e3⟩ := NewCoder_ok env a3 h3
  obtain ⟨p4, _, e4⟩ := NewReporter_ok env a4 h4
  obtain ⟨p5, _, e5⟩ := NewPodcastScriptWriter_ok env a5 h5
  obtain ⟨p6, _, e6⟩ := NewPPTComposer_ok env a6 h6
  obtain ⟨p7, l7, e7⟩ := NewCoordinator_ok env _ sv h7
  have htext : workflowInstruction env.MaxStepNum =
      workflowIntro ++ String.join (workflowDelegates.map delegateLine) ++ workflowSteps ++
        toString env.MaxStepNum ++ workflowTail := by
    show workflowHead ++ toString env.MaxStepNum ++ workflowTail = _
    rw [workflowHead_eq]
  have hnames : sv.SubAgents.map Agent.Name =
      ["planner", "researcher", "coder", "reporter", "podcast_writer", "ppt_composer",
        "investigator"] := by
    rw [e7, e1, e2, e3, e4, e5, e6]
    rfl
  have hperm : (sv.SubAgents.map Agent.Name).Perm (workflowDelegates.map Prod.fst) := by
    rw [hnames]
    decide
  refine ⟨⟨p7, coordinatorConfig p7 env.coordinatorTime env.MaxStepNum, l7, by rw [e7], rfl, ?_⟩,
    htext, rfl, hnames, hperm, ?_⟩
  · show p7.replace currentTimePlaceholder env.coordinatorTime ++
      workflowInstruction env.MaxStepNum = _
    rw [htext]
  · intro name
    rw [← hperm.mem_iff, List.mem_map]

theorem workflow_delegates_are_registered_witness :
    ∃ sv : SupervisorAgent,
      createAgents ⟨⟨[("planner", "P"), ("researcher", "R"), ("coder", "C"), ("reporter", "Rp"),
        ("podcast_script_writer", "Pd"), ("ppt_composer", "Pp"), ("coordinator", "Co")], [], []⟩,
        "t0", "t1", 3, fun _ => none, fun _ _ => none⟩ = .ok sv ∧
      (∃ prompt cfg, List.lookup "coordinator" [("planner", "P"), ("researcher", "R"),
          ("coder", "C"), ("reporter", "Rp"), ("podcast_script_writer", "Pd"),
          ("ppt_composer", "Pp"), ("coordinator", "Co")] = some prompt ∧
        sv.Supervisor = .chatModel cfg ∧ cfg.Name = "coordinator" ∧
        cfg.Instruction = prompt.replace currentTimePlaceholder "t1" ++
          (workflowIntro ++ String.join (workflowDelegates.map delegateLine) ++ workflowSteps ++
            toString (3 : Int) ++ workflowTail)) ∧
      (sv.SubAgents.map Agent.Name).Perm (workflowDelegates.map Prod.fst) :=
  ⟨_, rfl,
    (workflow_delegates_are_registered
      ⟨⟨[("planner", "P"), ("researcher", "R"), ("coder", "C"), ("reporter", "Rp"),
        ("podcast_script_writer", "Pd"), ("ppt_composer", "Pp"), ("coordinator", "Co")], [], []⟩,
        "t0", "t1", 3, fun _ => none, fun _ _ => none⟩ _ rfl).1,
    (workflow_delegates_are_registered
      ⟨⟨[("planner", "P"), ("researcher", "R"), ("coder", "C"), ("reporter", "Rp"),
        ("podcast_script_writer", "Pd"), ("ppt_composer", "Pp"), ("coordinator", "Co")], [], []⟩,
        "t0", "t1", 3, fun _ => none, fun _ _ => none⟩ _ rfl).2.2.2.2.1⟩

/-! ## Start-up -/

/-- C19. When, for every fragment index of a chunk stream, the deltas of the
index carry no conflicting non-empty role, id, type or name, the frames
written after the stream has ended are, for each distinct index exactly once
(in the order the `range` visits them), a `tool_call_start` immediately
followed by a `tool_call_end` with the same payload, made of only `name`, the
first non-empty function name among the index's deltas, and `args`, the
concatenation in arrival order of the arguments of the deltas bearing that
index. -/
theorem conflict_free_stream_one_pair_per_index (ro : RangeOrder (Int × List Message))
    (s : MessageStream)
    (hrole : ∀ idx ∈ indicesOf s.chunks, Agree (rolesOf idx s.chunks))
    (hid : ∀ idx ∈ indicesOf s.chunks, Agree ((deltasOf idx s.chunks).map (fun d => d.ID)))
    (hty : ∀ idx ∈ indicesOf s.chunks, Agree ((deltasOf idx s.chunks).map (fun d => d.Typ)))
    (hnm : ∀ idx ∈ indicesOf s.chunks,
      Agree ((deltasOf idx s.chunks).map (fun d => d.Function.Name))) :
    ((ro.pick (accumulate s)).map Prod.fst).Perm (indicesOf s.chunks) ∧
    (indicesOf s.chunks).Nodup ∧
    resolveFrames ro s =
      ⟨((ro.pick (accumulate s)).map Prod.fst).flatMap (fun idx =>
        [⟨"tool_call_start", .object
            [("name", .str (firstNonEmpty ((deltasOf idx s.chunks).map (fun d => d.Function.Name)))),
             ("args", .str (String.join ((deltasOf idx s.chunks).map
               (fun d => d.Function.Arguments))))]⟩,
          ⟨"tool_call_end", .object
            [("name", .str (firstNonEmpty ((deltasOf idx s.chunks).map (fun d => d.Function.Name)))),
             ("args", .str (String.join ((deltasOf idx s.chunks).map
               (fun d => d.Function.Arguments))))]⟩]), false⟩ := by
  have hperm : ((ro.pick (accumulate s)).map Prod.fst).Perm (indicesOf s.chunks) :=
    ((ro.perm (accumulate s)).map Prod.fst).trans (accumulate_keys_perm s)
  refine ⟨hperm, List.nodup_dedup _, ?_⟩
  rw [resolveFrames_eq]
  congr 1
  apply List.flatMap_congr
  intro idx hmem
  have hidx : idx ∈ indicesOf s.chunks := hperm.mem_iff.mp hmem
  have hne : deltasOf idx s.chunks ≠ [] := (mem_indicesOf idx s.chunks).mp hidx
  have hcalls : (ToolMap.get (accumulate s) idx).flatMap (fun m => m.ToolCalls) =
      deltasOf idx s.chunks := by
    rw [accumulate_get, deltaMessagesOf_calls]
  have hroles : (ToolMap.get (accumulate s) idx).map (fun m => m.Role) = rolesOf idx s.chunks := by
    rw [accumulate_get, deltaMessagesOf_roles]
  have hall : AllIndex idx ((ToolMap.get (accumulate s) idx).flatMap (fun m => m.ToolCalls)) := by
    rw [hcalls]
    exact allIndex_deltasOf _ _ hne
  obtain ⟨m, hm⟩ := ConcatMessages_ok idx (ToolMap.get (accumulate s) idx) hall
    (by rw [hroles]; exact hrole idx hidx) (by rw [hcalls]; exact hid idx hidx)
    (by rw [hcalls]; exact hty idx hidx) (by rw [hcalls]; exact hnm idx hidx)
  have hmc := ConcatMessages_calls_of_ok idx _ hall m hm
  rw [hcalls] at hmc
  simp [entryFrames, hm, hmc, resolvedPayload, specResolvedCall]

theorem conflict_free_stream_one_pair_per_index_witness :
    (resolveFrames (RangeOrder.reversed _)
      ⟨[⟨"assistant", "", [⟨some 0, "c1", "", ⟨"run", "\x7b\"x\":"⟩⟩, ⟨some 1, "c2", "", ⟨"look", "[]"⟩⟩]⟩,
        ⟨"assistant", "", [⟨some 0, "", "", ⟨"", "1\x7d"⟩⟩]⟩], none⟩).frames =
      [⟨"tool_call_start", .object [("name", .str "look"), ("args", .str "[]")]⟩,
        ⟨"tool_call_end", .object [("name", .str "look"), ("args", .str "[]")]⟩,
        ⟨"tool_call_start", .object [("name", .str "run"), ("args", .str "\x7b\"x\":1\x7d")]⟩,
        ⟨"tool_call_end", .object [("name", .str "run"), ("args", .str "\x7b\"x\":1\x7d")]⟩] ∧
    ((RangeOrder.reversed _).pick (accumulate
      ⟨[⟨"assistant", "", [⟨some 0, "c1", "", ⟨"run", "\x7b\"x\":"⟩⟩, ⟨some 1, "c2", "", ⟨"look", "[]"⟩⟩]⟩,
        ⟨"assistant", "", [⟨some 0, "", "", ⟨"", "1\x7d"⟩⟩]⟩], none⟩)).map Prod.fst =
      [1, 0] :=
  ⟨by
      rw [(conflict_free_stream_one_pair_per_index (RangeOrder.reversed _)
        ⟨[⟨"assistant", "", [⟨some 0, "c1", "", ⟨"run", "\x7b\"x\":"⟩⟩,
            ⟨some 1, "c2", "", ⟨"look", "[]"⟩⟩]⟩,
          ⟨"assistant", "", [⟨some 0, "", "", ⟨"", "1\x7d"⟩⟩]⟩], none⟩
        (by decide) (by decide) (by decide) (by decide)).2.2]
      decide,
    by decide⟩

/-! ## Tool registry: the execution set inside the research set -/

theorem filter_flatMap_sublist {α β : Type} (p : α → Bool) (f : α → List β) (l : List α) :
    ((l.filter p).flatMap f).Sublist (l.flatMap f) := by
  induction l with
  | nil => simp
  | cons a rest ih =>
    by_cases hp : p a = true
    · simp only [List.filter_cons, hp, if_true, List.flatMap_cons]
      exact List.Sublist.append (List.Sublist.refl _) ih
    · simp only [List.filter_cons, hp, List.flatMap_cons]
      exact ih.trans (List.sublist_append_right _ _)

theorem filter_flatMap_eq_iff {α β : Type} (p : α → Bool) (f : α → List β) (l : List α) :
    (l.filter p).flatMap f = l.flatMap f ↔ ∀ a ∈ l, f a ≠ [] → p a = true := by
  induction l with
  | nil => simp
  | cons a rest ih =>
    by_cases hp : p a = true
    · simp only [List.filter_cons, hp, if_true, List.flatMap_cons, List.append_cancel_left_eq, ih,
        List.mem_cons, forall_eq_or_imp, implies_true, true_and]
    · have hpf : p a = false := by simpa using hp
      have hfil : (a :: rest).filter p = rest.filter p := by
        simp [List.filter_cons, hpf]
      rw [hfil, List.flatMap_cons]
      constructor
      · intro h
        have hlen := congrArg List.length h
        have hsub := (filter_flatMap_sublist p f rest).length_le
        simp only [List.length_append] at hlen
        have hfa : f a = [] := List.length_eq_zero.mp (by omega)
        intro b hb
        simp only [List.mem_cons] at hb
        rcases hb with hb | hb
        · subst hb
          intro hne
          exact absurd hfa hne
        · rw [hfa, List.nil_append] at h
          exact ih.mp h b hb
      · intro hall
        have hfa : f a = [] := by
          by_contra hne
          exact hp (hall a (List.mem_cons_self _ _) hne)
        rw [hfa, List.nil_append]
        exact ih.mpr (fun b hb => hall b (List.mem_cons_of_mem _ hb))

/-- C20. After `loadTools` the execution set is a sub-multiset of the research
set: each tool is in the research set at least as many times as in the
execution set. The two multisets are equal exactly when every provider that
lists at least one tool has a handle starting with "python". -/
theorem coder_tools_within_research_tools (ro : RangeOrder (String × MCPClient))
    (MCPServer : List (String × MCPClient)) (before : Globals) :
    ((loadTools ro MCPServer before).globals.GlobalCoderTools : Multiset BaseTool) ≤
      ((loadTools ro MCPServer before).globals.GlobalResearchTools : Multiset BaseTool) ∧
    (((loadTools ro MCPServer before).globals.GlobalCoderTools : Multiset BaseTool) =
        ((loadTools ro MCPServer before).globals.GlobalResearchTools : Multiset BaseTool) ↔
      ∀ p ∈ MCPServer, listed p ≠ [] → stringsHasPrefix p.1 "python" = true) := by
  rw [loadTools_research, loadTools_coder]
  have hsub := filter_flatMap_sublist (fun p : String × MCPClient => stringsHasPrefix p.1 "python")
    listed (ro.pick MCPServer)
  refine ⟨Multiset.coe_le.mpr hsub.subperm, ?_⟩
  have hmem : (∀ p ∈ ro.pick MCPServer, listed p ≠ [] → stringsHasPrefix p.1 "python" = true) ↔
      ∀ p ∈ MCPServer, listed p ≠ [] → stringsHasPrefix p.1 "python" = true := by
    constructor
    · intro h p hp
      exact h p ((ro.perm MCPServer).mem_iff.mpr hp)
    · intro h p hp
      exact h p ((ro.perm MCPServer).mem_iff.mp hp)
  rw [← hmem, ← filter_flatMap_eq_iff]
  constructor
  · intro h
    have hperm : (((ro.pick MCPServer).filter
        (fun p => stringsHasPrefix p.1 "python")).flatMap listed).Perm
        ((ro.pick MCPServer).flatMap listed) := Multiset.coe_eq_coe.mp h
    exact hsub.eq_of_length hperm.length_eq
  · intro h
    rw [h]

/-! ## Query selection: the empty query -/

theorem exists_last_user (msgs : List ReqMessage) :
    (∀ m ∈ msgs, m.Role ≠ "user") ∨
    ∃ pre u post, msgs = pre ++ u :: post ∧ u.Role = "user" ∧ ∀ m ∈ post, m.Role ≠ "user" := by
  induction msgs with
  | nil => left; intro m hm; simp at hm
  | cons a rest ih =>
    rcases ih with hno | ⟨pre, u, post, hsplit, hu, hpost⟩
    · by_cases ha : a.Role = "user"
      · right
        exact ⟨[], a, rest, rfl, ha, hno⟩
      · left
        intro m hm
        simp only [List.mem_cons] at hm
        rcases hm with hm | hm
        · rw [hm]; exact ha
        · exact hno m hm
    · right
      exact ⟨a :: pre, u, post, by rw [hsplit]; rfl, hu, hpost⟩

theorem selectQuery_append_user (pre post : List ReqMessage) (u : ReqMessage)
    (hu : u.Role = "user") (hpost : ∀ m ∈ post, m.Role ≠ "user") :
    selectQuery (pre ++ u :: post) = u.Content := by
  unfold selectQuery
  have hlen : (pre ++ u :: post).length = pre.length + 1 + post.length := by
    simp only [List.length_append, List.length_cons]; omega
  have := lastUserLoop_eq_of_le pre post u hu hpost post.length (by omega)
  convert this using 2

theorem selectQuery_eq_empty_iff (msgs : List ReqMessage) :
    selectQuery msgs = "" ↔
      ((∀ m ∈ msgs, m.Role ≠ "user") ∨
        ∃ pre u post, msgs = pre ++ u :: post ∧ u.Role = "user" ∧
          (∀ m ∈ post, m.Role ≠ "user") ∧ u.Content = "") := by
  constructor
  · intro hq
    rcases exists_last_user msgs with hno | ⟨pre, u, post, hsplit, hu, hpost⟩
    · exact Or.inl hno
    · right
      refine ⟨pre, u, post, hsplit, hu, hpost, ?_⟩
      rw [hsplit, selectQuery_append_user pre post u hu hpost] at hq
      exact hq
  · rintro (hno | ⟨pre, u, post, hsplit, hu, hpost, hc⟩)
    · exact selectQuery_no_user msgs hno
    · rw [hsplit, selectQuery_append_user pre post u hu hpost, hc]

theorem handlerA_400_iff (ro : Nat → RangeOrder (Int × List Message)) (msgs : List ReqMessage)
    (agents : Except String (String → List AgentEvent)) :
    handlerA ro (.ok msgs) agents = [Effect.json 400 "no user message found"] ↔
      selectQuery msgs = "" := by
  constructor
  · intro h
    by_contra hq
    cases agents with
    | error e => simp [handlerA, hq] at h
    | ok sv => simp [handlerA, hq] at h
  · intro hq
    simp [handlerA, hq]

theorem handlerB_400_iff (env : EnvB) (req : ReqB)
    (agents : Except String (String → List AgentEvent)) :
    handlerB env (.ok req) agents = [Effect.json 400 "no user message found"] ↔
      selectQuery req.Messages = "" := by
  constructor
  · intro h
    by_contra hq
    by_cases hk : env.OPENAI_API_KEY = "" ∧ env.ARK_API_KEY = ""
    · simp [handlerB, hq, hk] at h
    · cases agents with
      | error e => simp [handlerB, hq, hk] at h
      | ok sv => simp [handlerB, hq, hk] at h
  · intro hq
    simp [handlerB, hq]

/-- C21. For a request body that binds to the messages `msgs`, each of the
two POST handlers answers HTTP 400 "no user message found" if and only if
`msgs` holds no user-role message or the content of its last user-role
message is empty; so a request whose last user message is empty is rejected
whatever the messages before it hold, an earlier non-empty user message
included. -/
theorem empty_query_is_400_iff (msgs : List ReqMessage)
    (ro : Nat → RangeOrder (Int × List Message)) (env : EnvB) (threadID locale : String)
    (agents : Except String (String → List AgentEvent)) :
    (handlerA ro (.ok msgs) agents = [Effect.json 400 "no user message found"] ↔
      ((∀ m ∈ msgs, m.Role ≠ "user") ∨
        ∃ pre u post, msgs = pre ++ u :: post ∧ u.Role = "user" ∧
          (∀ m ∈ post, m.Role ≠ "user") ∧ u.Content = "")) ∧
    (handlerB env (.ok ⟨msgs, threadID, locale⟩) agents =
        [Effect.json 400 "no user message found"] ↔
      ((∀ m ∈ msgs, m.Role ≠ "user") ∨
        ∃ pre u post, msgs = pre ++ u :: post ∧ u.Role = "user" ∧
          (∀ m ∈ post, m.Role ≠ "user") ∧ u.Content = "")) ∧
    (∀ (pre post : List ReqMessage) (u : ReqMessage), u.Role = "user" →
      (∀ m ∈ post, m.Role ≠ "user") → u.Content = "" →
      handlerA ro (.ok (pre ++ u :: post)) agents = [Effect.json 400 "no user message found"] ∧
      handlerB env (.ok ⟨pre ++ u :: post, threadID, locale⟩) agents =
        [Effect.json 400 "no user message found"]) := by
  refine ⟨?_, ?_, ?_⟩
  · rw [handlerA_400_iff, selectQuery_eq_empty_iff]
  · rw [handlerB_400_iff, selectQuery_eq_empty_iff]
  · intro pre post u hu hpost hc
    have hq : selectQuery (pre ++ u :: post) = "" := by
      rw [selectQuery_append_user pre post u hu hpost, hc]
    exact ⟨(handlerA_400_iff ro _ agents).mpr hq, (handlerB_400_iff env _ agents).mpr hq⟩

theorem empty_query_is_400_iff_witness :
    (⟨"user", ""⟩ : ReqMessage).Role = "user" ∧
    (∀ m ∈ [(⟨"assistant", "anything else?"⟩ : ReqMessage)], m.Role ≠ "user") ∧
    (⟨"user", ""⟩ : ReqMessage).Content = "" ∧
    handlerA (fun _ => RangeOrder.inserted _)
      (.ok ([⟨"user", "what is eino"⟩, ⟨"assistant", "a framework"⟩] ++
        (⟨"user", ""⟩ : ReqMessage) :: [⟨"assistant", "anything else?"⟩]))
      (.ok (fun _ => [])) = [Effect.json 400 "no user message found"] ∧
    handlerB ⟨"key", "", fun _ => 0, fun _ => true⟩
      (.ok ⟨[⟨"user", "what is eino"⟩, ⟨"assistant", "a framework"⟩] ++
        (⟨"user", ""⟩ : ReqMessage) :: [⟨"assistant", "anything else?"⟩], "t1", "en"⟩)
      (.ok (fun _ => [])) = [Effect.json 400 "no user message found"] :=
  ⟨rfl, by decide, rfl,
    (empty_query_is_400_iff [] (fun _ => RangeOrder.inserted _)
      ⟨"key", "", fun _ => 0, fun _ => true⟩ "t1" "en" (.ok (fun _ => []))).2.2
      [⟨"user", "what is eino"⟩, ⟨"assistant", "a framework"⟩] [⟨"assistant", "anything else?"⟩]
      ⟨"user", ""⟩ rfl (by decide) rfl⟩

end Deer
